import Mathlib

set_option autoImplicit false

/-! # gitplm: part catalog (`partmaster.go`) and CSV store (`kicad_api.go`)

A shallow embedding of the catalog lookup with priority merge
(`findPartSources`, `findPart`, the post-processing loop of
`loadPartmasterFromDir`), of the column / row mutations of the KiCad API
server (`findColumnIndex`, `findPart`, `ensureColumn`, `updatePart`,
`startNewRevision`) and of its listings (`getCategories`,
`getPartsByCategory`, `getPartDetail`, `extractCategory`, `extractRevision`).

Modelling conventions.

* `partmaster` is `[]*partmasterLine`: a slice of pointers.  The structs live
  in a heap (`Heap`, address to struct) and a catalog is a list of addresses,
  so that the in-place writes of `findPartSources` are visible through every
  alias, exactly as in Go.
* `sort.Sort` is standard-library code.  The functions that call it take the
  sorting routine as a parameter `srt`; theorems assume only its contract
  (`SortContract`: the result is a permutation of the input and is ordered
  by the `Less` it was given).  `insertionSortBy` is one routine that meets
  the contract and is what `sort.Sort` does on slices of fewer than twelve
  elements.
* A `[]string` row is a `List String`; rows never share backing arrays, so
  value semantics is exact.  A run-time panic (index out of range) is the
  outcome `Failure.panic`.
* `int` is the 64-bit integer.  `Priority` values are only compared, so they
  are integers; the one place where arithmetic can overflow (`rev++`) wraps
  explicitly (`incrInt`).
* The code inspects strings only at ASCII characters (`-`, signs, digits), so
  a Go string is a Lean `String` and `strings.Split`, `strconv.Atoi` and
  `fmt.Sprintf` act on its characters.
* `saveCSVFile` and `loadCSVCollection` are outside the given sources:
  `updatePart` and `startNewRevision` are modelled up to the point where the
  file is handed over to be saved.
* `strings.ToUpper` is standard-library code and is a parameter `toUpper` of
  the functions that call it.  `len` of a string counts bytes
  (`String.utf8ByteSize`), and `<` on strings, the order of `sort.Strings`,
  is `stringLess`.
* A Go map is the list of its entries (`mapSet`, `mapGet`), and the sorted
  keys of a map are `sortedKeys`: a strictly increasing list is determined by
  its members, so the iteration order of the map does not matter.
* The two regular expressions of `extractCategory` and `extractRevision` are
  sequences of one-character classes between `^` and `$` (`matchClasses`).
* `newIpn`, `newIpnParts` and the accessors `c`, `n`, `v` of `ipn` are outside
  the given sources (only their tests are there): they are modelled from the
  specification and proved to agree with the grammar `extractCategory` uses.
-/

namespace GitPLM

/-! ## Outcomes -/

/-- How a call can fail: with a returned `error`, or with a run-time panic
(index out of range). -/
inductive Failure where
  | error (msg : String)
  | panic
deriving DecidableEq, Repr

deriving instance DecidableEq for Except

/-! ## The catalog: `partmaster.go` -/

/-- The struct `partmasterLine`; `ipn` is a string type and `Priority` an `int`. -/
structure partmasterLine where
  IPN : String
  Description : String
  Footprint : String
  Value : String
  Manufacturer : String
  MPN : String
  Datasheet : String
  Priority : Int
  Checked : String
deriving DecidableEq, Repr

instance : Inhabited partmasterLine := ⟨⟨"", "", "", "", "", "", "", 0, ""⟩⟩

/-- The heap of `partmasterLine` structs: what each pointer points to. -/
abbrev Heap := Nat → partmasterLine

/-- The type `partmaster`, a slice of pointers. -/
abbrev partmaster := List Nat

/-- The assignment `p.Description = v` through the pointer `p`. -/
def setDescription (h : Heap) (p : Nat) (v : String) : Heap :=
  Function.update h p { h p with Description := v }

/-- The assignment `p.Footprint = v` through the pointer `p`. -/
def setFootprint (h : Heap) (p : Nat) (v : String) : Heap :=
  Function.update h p { h p with Footprint := v }

/-- The assignment `p.Value = v` through the pointer `p`. -/
def setValue (h : Heap) (p : Nat) (v : String) : Heap :=
  Function.update h p { h p with Value := v }

/-- The comparison `byPriority.Less`, on the pointers held at the two positions. -/
def byPriorityLess (h : Heap) (a b : Nat) : Bool :=
  decide ((h a).Priority < (h b).Priority)

/-- The contract of `sort.Sort` used by the catalog: sorting permutes the
slice, and for a `Less` that compares an integer key the result is in
non-decreasing key order.  Nothing is assumed about the order of ties. -/
def SortContract (srt : (Nat → Nat → Bool) → List Nat → List Nat) : Prop :=
  (∀ (lt : Nat → Nat → Bool) (l : List Nat), (srt lt l).Perm l) ∧
  (∀ (key : Nat → Int) (l : List Nat),
    (srt (fun a b => decide (key a < key b)) l).Pairwise (fun a b => key a ≤ key b))

/-- Insertion of `x` into a sorted list, after every element that is not greater. -/
def insertBy (lt : Nat → Nat → Bool) (x : Nat) : List Nat → List Nat
  | [] => [x]
  | y :: ys => if lt x y then x :: y :: ys else y :: insertBy lt x ys

/-- Insertion sort, the routine `sort.Sort` runs on short slices (stable). -/
def insertionSortBy (lt : Nat → Nat → Bool) (l : List Nat) : List Nat :=
  l.foldl (fun acc x => insertBy lt x acc) []

/-- The rows collected by the first loop of `findPartSources`. -/
def matchingRows (h : Heap) (p : partmaster) (pn : String) : List Nat :=
  p.filter (fun l => decide ((h l).IPN = pn))

/-- One iteration of the loop "fill in blank fields on the highest priority
entry" (`partmaster.go` lines 58-68), for `found[i] = f`. -/
def fillBaseStep (base : Nat) (h : Heap) (f : Nat) : Heap :=
  let h1 := if (h base).Description = "" ∧ (h f).Description ≠ "" then
      setDescription h base (h f).Description else h
  let h2 := if (h1 base).Footprint = "" ∧ (h1 f).Footprint ≠ "" then
      setFootprint h1 base (h1 f).Footprint else h1
  if (h2 base).Value = "" ∧ (h2 f).Value ≠ "" then
    setValue h2 base (h2 f).Value else h2

/-- One iteration of the loop "propagate common fields to all returned parts"
(`partmaster.go` lines 72-82). -/
def propagateStep (base : Nat) (h : Heap) (f : Nat) : Heap :=
  let h1 := if (h f).Description = "" then setDescription h f (h base).Description else h
  let h2 := if (h1 f).Footprint = "" then setFootprint h1 f (h1 base).Footprint else h1
  if (h2 f).Value = "" then setValue h2 f (h2 base).Value else h2

/-- The method `findPartSources`.  The result is the returned slice together
with the heap after the in-place writes; on the error return the heap has not
been written.  The empty-list branch after sorting is the panic of `found[0]`;
it cannot be taken when `srt` permutes its input. -/
def findPartSources (srt : (Nat → Nat → Bool) → List Nat → List Nat)
    (h : Heap) (p : partmaster) (pn : String) : Except Failure (List Nat × Heap) :=
  let found := matchingRows h p pn
  if found.length = 0 then
    .error (.error "Part not found")
  else
    match srt (byPriorityLess h) found with
    | [] => .error .panic
    | base :: rest =>
      let h1 := rest.foldl (fillBaseStep base) h
      let h2 := (base :: rest).foldl (propagateStep base) h1
      .ok (base :: rest, h2)

/-- The method `findPart`: the first entry of `findPartSources`. -/
def findPart (srt : (Nat → Nat → Bool) → List Nat → List Nat)
    (h : Heap) (p : partmaster) (pn : String) : Except Failure (Nat × Heap) :=
  match findPartSources srt h p pn with
  | .error e => .error e
  | .ok (parts, h') =>
    match parts with
    | [] => .error .panic
    | first :: _ => .ok (first, h')

/-- The post-processing statement of `loadPartmasterFromDir` for one row
(`partmaster.go` lines 121-123). -/
def fixMissingValue (h : Heap) (part : Nat) : Heap :=
  if (h part).Value = "" ∧ (h part).MPN ≠ "" then setValue h part (h part).MPN else h

/-- The post-processing loop of `loadPartmasterFromDir` over the rows `temp`
of one file (`partmaster.go` lines 120-124). -/
def postProcess (h : Heap) (temp : partmaster) : Heap :=
  temp.foldl fixMissingValue h

/-! ## Standard-library string and slice operations -/

/-- The cut of `strings.Split(s, "-")` on the characters of `s`. -/
def splitDash : List Char → List (List Char)
  | [] => [[]]
  | c :: cs =>
    if c = '-' then [] :: splitDash cs
    else
      match splitDash cs with
      | [] => [[c]]
      | part :: parts => (c :: part) :: parts

/-- The call `strings.Split(s, "-")`. -/
def stringsSplitDash (s : String) : List String :=
  (splitDash s.toList).map String.mk

/-- The call `strings.Join(parts, "-")`. -/
def stringsJoinDash (parts : List String) : String :=
  String.intercalate "-" parts

/-- The value of a run of decimal digits. -/
def digitsValue (ds : List Char) : Nat :=
  ds.foldl (fun acc c => acc * 10 + (c.toNat - '0'.toNat)) 0

/-- The predicate `'0' <= c && c <= '9'`. -/
def isDecimalDigit (c : Char) : Bool :=
  decide ('0'.toNat ≤ c.toNat ∧ c.toNat ≤ '9'.toNat)

/-- The call `strconv.Atoi(s)` for the 64-bit `int`: an optional sign, then
one or more decimal digits, the value within the range of `int`; `none` is
the error return. -/
def atoi (s : String) : Option Int :=
  let (neg, ds) := match s.toList with
    | '-' :: rest => (true, rest)
    | '+' :: rest => (false, rest)
    | cs => (false, cs)
  if ds.isEmpty || !ds.all isDecimalDigit then none
  else
    let v : Int := if neg then -(digitsValue ds : Int) else (digitsValue ds : Int)
    if v < -(2 : Int) ^ 63 ∨ (2 : Int) ^ 63 - 1 < v then none else some v

/-- The statement `rev++` on the 64-bit `int`: the sum wraps around. -/
def incrInt (rev : Int) : Int :=
  (rev + 1 + (2 : Int) ^ 63) % (2 : Int) ^ 64 - (2 : Int) ^ 63

/-- Left padding with `'0'` up to `width` characters. -/
def padZeros (width : Nat) (digits : String) : String :=
  String.mk (List.replicate (width - digits.length) '0') ++ digits

/-- The call `fmt.Sprintf("%04d", rev)`: at least four characters, zeros
between the sign and the digits. -/
def sprintf04d (rev : Int) : String :=
  if rev < 0 then "-" ++ padZeros 3 (Nat.repr rev.natAbs) else padZeros 4 (Nat.repr rev.toNat)

/-- The call `fmt.Sprintf("%d", idx)` for a non-negative `idx`. -/
def sprintfd (idx : Nat) : String := Nat.repr idx

/-- The statements `dst := make([]string, n); copy(dst, row)`. -/
def makeCopy (n : Nat) (row : List String) : List String :=
  row.take n ++ List.replicate (n - row.length) ""

/-! ## The store: `kicad_api.go` -/

/-- Modelled from the spec: the struct `CSVFile` is declared outside the given
sources.  One flat file is an ordered sequence of column names and an ordered
sequence of rows, each row an ordered sequence of string cells; `kicad_api.go`
reads the fields `Name`, `Headers` and `Rows`. -/
structure CSVFile where
  Name : String
  Headers : List String
  Rows : List (List String)
deriving DecidableEq, Repr

/-- The struct `PartSource`. -/
structure PartSource where
  Manufacturer : String
  MPN : String
deriving DecidableEq, Repr

/-- The struct `PartUpdateRequest`. -/
structure PartUpdateRequest where
  Description : String
  Sources : List PartSource
deriving DecidableEq, Repr

/-- The store invariant of the spec: no row has more cells than there are headers. -/
def RowsFit (file : CSVFile) : Prop :=
  ∀ row ∈ file.Rows, row.length ≤ file.Headers.length

instance (file : CSVFile) : Decidable (RowsFit file) := by
  unfold RowsFit; infer_instance

/-- The loop of `findColumnIndex`, from position `i`. -/
def KiCadServer.findColumnIndexFrom (columnName : String) : List String → Nat → Int
  | [], _ => -1
  | header :: rest, i =>
    if header = columnName then (i : Int) else findColumnIndexFrom columnName rest (i + 1)

/-- The method `findColumnIndex`: the first position holding exactly
`columnName`, and `-1` when there is none. -/
def KiCadServer.findColumnIndex (file : CSVFile) (columnName : String) : Int :=
  findColumnIndexFrom columnName file.Headers 0

/-- The row loop of `findPart` in one file, from row position `i`. -/
def KiCadServer.findRowFrom (ipnIdx : Int) (partID : String) :
    List (List String) → Nat → Option Nat
  | [], _ => none
  | row :: rest, i =>
    if ipnIdx ≥ 0 ∧ (row.length : Int) > ipnIdx ∧ row.getD ipnIdx.toNat "" = partID then
      some i
    else findRowFrom ipnIdx partID rest (i + 1)

/-- The file loop of `findPart`, from file position `k`. -/
def KiCadServer.findPartFrom (partID : String) : List CSVFile → Nat → Option (Nat × Nat)
  | [], _ => none
  | file :: rest, k =>
    match findRowFrom (findColumnIndex file "IPN") partID file.Rows 0 with
    | some i => some (k, i)
    | none => findPartFrom partID rest (k + 1)

/-- The method `findPart`: the position of the file and of the row of the
first row whose IPN cell is `partID`; `none` is the return `nil, -1`. -/
def KiCadServer.findPart (files : List CSVFile) (partID : String) : Option (Nat × Nat) :=
  findPartFrom partID files 0

/-- The method `ensureColumn`: the returned index and the file afterwards. -/
def KiCadServer.ensureColumn (file : CSVFile) (header : String) : Int × CSVFile :=
  let idx := findColumnIndex file header
  if idx = -1 then
    let headers := file.Headers ++ [header]
    ((headers.length : Int) - 1,
      { file with Headers := headers, Rows := file.Rows.map (fun row => row ++ [""]) })
  else (idx, file)

/-- The assignment `file.Rows[rowIdx][col] = v`; it panics when either index
is out of range. -/
def KiCadServer.setCell (file : CSVFile) (rowIdx : Nat) (col : Int) (v : String) :
    Except Failure CSVFile :=
  match file.Rows[rowIdx]? with
  | none => .error .panic
  | some row =>
    if 0 ≤ col ∧ col < (row.length : Int) then
      .ok { file with Rows := file.Rows.set rowIdx (row.set col.toNat v) }
    else .error .panic

/-- The padding of the located row (`kicad_api.go` lines 414-420). -/
def KiCadServer.padTargetRow (file : CSVFile) (rowIdx : Nat) : Except Failure CSVFile :=
  match file.Rows[rowIdx]? with
  | none => .error .panic
  | some row =>
    if row.length < file.Headers.length then
      .ok { file with Rows := file.Rows.set rowIdx (makeCopy file.Headers.length row) }
    else .ok file

/-- The description update (`kicad_api.go` lines 422-425). -/
def KiCadServer.updateDescription (file : CSVFile) (rowIdx : Nat) (req : PartUpdateRequest) :
    Except Failure CSVFile :=
  if req.Description ≠ "" then
    let (descIdx, file1) := ensureColumn file "Description"
    setCell file1 rowIdx descIdx req.Description
  else .ok file

/-- The column names of the source at index `i` (`kicad_api.go` lines 428-434). -/
def KiCadServer.sourceHeaders (i : Nat) : String × String :=
  if i > 0 then ("Manufacturer" ++ sprintfd (i + 1), "MPN" ++ sprintfd (i + 1))
  else ("Manufacturer", "MPN")

/-- One iteration of the loop over `req.Sources` (`kicad_api.go` lines 427-439). -/
def KiCadServer.updateSource (rowIdx : Nat) (file : CSVFile) (i : Nat) (src : PartSource) :
    Except Failure CSVFile :=
  let (mfrHeader, mpnHeader) := sourceHeaders i
  let (mfrIdx, file1) := ensureColumn file mfrHeader
  let (mpnIdx, file2) := ensureColumn file1 mpnHeader
  match setCell file2 rowIdx mfrIdx src.Manufacturer with
  | .error e => .error e
  | .ok file3 => setCell file3 rowIdx mpnIdx src.MPN

/-- The loop over `req.Sources`, from index `i`. -/
def KiCadServer.updateSources (rowIdx : Nat) :
    CSVFile → Nat → List PartSource → Except Failure CSVFile
  | file, _, [] => .ok file
  | file, i, src :: rest =>
    match updateSource rowIdx file i src with
    | .error e => .error e
    | .ok file1 => updateSources rowIdx file1 (i + 1) rest

/-- The writes of `updatePart` to the located file, before it is saved. -/
def KiCadServer.updateRow (file : CSVFile) (rowIdx : Nat) (req : PartUpdateRequest) :
    Except Failure CSVFile :=
  match padTargetRow file rowIdx with
  | .error e => .error e
  | .ok file1 =>
    match updateDescription file1 rowIdx req with
    | .error e => .error e
    | .ok file2 => updateSources rowIdx file2 0 req.Sources

/-- The method `updatePart` up to the call of `saveCSVFile`: the collection
as it stands in memory when the file is handed to be saved. -/
def KiCadServer.updatePart (files : List CSVFile) (partID : String) (req : PartUpdateRequest) :
    Except Failure (List CSVFile) :=
  match findPart files partID with
  | none => .error (.error "part not found")
  | some (k, rowIdx) =>
    match files[k]? with
    | none => .error .panic
    | some file =>
      match updateRow file rowIdx req with
      | .error e => .error e
      | .ok file1 => .ok (files.set k file1)

/-- The method `startNewRevision` up to the call of `saveCSVFile`: the
collection in memory and the new IPN. -/
def KiCadServer.startNewRevision (files : List CSVFile) (partID : String) :
    Except Failure (List CSVFile × String) :=
  match findPart files partID with
  | none => .error (.error "part not found")
  | some (k, rowIdx) =>
    match files[k]? with
    | none => .error .panic
    | some file =>
      let ipnIdx := findColumnIndex file "IPN"
      if ipnIdx < 0 then .error (.error "IPN column missing")
      else
        match file.Rows[rowIdx]? with
        | none => .error .panic
        | some row =>
          match row[ipnIdx.toNat]? with
          | none => .error .panic
          | some cell =>
            match stringsSplitDash cell with
            | [p0, p1, p2] =>
              match atoi p2 with
              | none => .error (.error "invalid revision")
              | some rev =>
                let newIPN := stringsJoinDash [p0, p1, sprintf04d (incrInt rev)]
                let newRow := makeCopy file.Headers.length row
                if ipnIdx.toNat < newRow.length then
                  .ok (files.set k
                    { file with Rows := file.Rows ++ [newRow.set ipnIdx.toNat newIPN] }, newIPN)
                else .error .panic
            | _ => .error (.error "invalid IPN format")

/-- The collection in memory once the in-memory part of `updatePart` or
`startNewRevision` is over.  Every `return` with an error stands before the
first assignment to a header or a row, so after an error the collection is the
one the call started with; after a panic nothing is said. -/
def KiCadServer.memoryAfter (files : List CSVFile) (r : Except Failure (List CSVFile)) :
    Option (List CSVFile) :=
  match r with
  | .ok files' => some files'
  | .error (.error _) => some files
  | .error .panic => none

/-- The files `updatePart` hands to `saveCSVFile` (`kicad_api.go` line 441):
the located file, once the in-memory part has run through; none when the
method has returned before. -/
def KiCadServer.updatePartSaved (files : List CSVFile) (partID : String)
    (req : PartUpdateRequest) : List CSVFile :=
  match findPart files partID, updatePart files partID req with
  | some (k, _), .ok files' => (files'[k]?).toList
  | _, _ => []

/-- The files `startNewRevision` hands to `saveCSVFile` (`kicad_api.go` line
477): the located file, once the row has been appended; none when the method
has returned before. -/
def KiCadServer.startNewRevisionSaved (files : List CSVFile) (partID : String) :
    List CSVFile :=
  match findPart files partID, startNewRevision files partID with
  | some (k, _), .ok (files', _) => (files'[k]?).toList
  | _, _ => []

/-! ## The read side of `kicad_api.go` -/

/-- The struct `KiCadCategory`. -/
structure KiCadCategory where
  ID : String
  Name : String
  Description : String
deriving DecidableEq, Repr

/-- The struct `KiCadPartSummary`. -/
structure KiCadPartSummary where
  ID : String
  Name : String
  Description : String
deriving DecidableEq, Repr

/-- The struct `KiCadPartField`. -/
structure KiCadPartField where
  Value : String
  Visible : String
deriving DecidableEq, Repr

/-- The struct `KiCadPartDetail`; the map `Fields` is the list of its entries,
one per key. -/
structure KiCadPartDetail where
  ID : String
  Name : String
  SymbolIDStr : String
  ExcludeFromBOM : String
  Fields : List (String × KiCadPartField)
  Revision : String
deriving DecidableEq, Repr

/-- The character class `[A-Z]`. -/
def isUpperAZ (c : Char) : Bool :=
  decide ('A'.toNat ≤ c.toNat ∧ c.toNat ≤ 'Z'.toNat)

/-- The match of a whole string against a pattern `^k1 k2 ... kn$` that is a
sequence of one-character classes. -/
def matchClasses : List (Char → Bool) → List Char → Bool
  | [], [] => true
  | cls :: rest, c :: cs => cls c && matchClasses rest cs
  | _, _ => false

/-- The pattern `^([A-Z][A-Z][A-Z])-(\d\d\d)-(\d\d\d\d)$` of `extractCategory`,
which accepts the same strings as `^[A-Z]{3}-\d{3}-(\d{4})$` of
`extractRevision`: twelve one-character classes between the two anchors. -/
def ipnPattern : List (Char → Bool) :=
  [isUpperAZ, isUpperAZ, isUpperAZ, fun c => c == '-',
   isDecimalDigit, isDecimalDigit, isDecimalDigit, fun c => c == '-',
   isDecimalDigit, isDecimalDigit, isDecimalDigit, isDecimalDigit]

/-- The method `extractCategory`: the first group of the match, the empty
string when the pattern does not match. -/
def KiCadServer.extractCategory (ipnStr : String) : String :=
  if matchClasses ipnPattern ipnStr.toList then String.mk (ipnStr.toList.take 3) else ""

/-- The method `extractRevision`: the group `(\d{4})` of the match, the empty
string when the pattern does not match. -/
def KiCadServer.extractRevision (ipnStr : String) : String :=
  if matchClasses ipnPattern ipnStr.toList then String.mk (ipnStr.toList.drop 8) else ""

/-- The method `getCategoryDisplayName`. -/
def KiCadServer.getCategoryDisplayName (category : String) : String :=
  match category with
  | "CAP" => "Capacitors"
  | "RES" => "Resistors"
  | "DIO" => "Diodes"
  | "LED" => "LEDs"
  | "SCR" => "Screws"
  | "MCH" => "Mechanical"
  | "PCA" => "PCB Assemblies"
  | "PCB" => "Printed Circuit Boards"
  | "ASY" => "Assemblies"
  | "DOC" => "Documentation"
  | "DFW" => "Firmware"
  | "DSW" => "Software"
  | "DCL" => "Declarations"
  | "FIX" => "Fixtures"
  | "CNT" => "Connectors"
  | "IC" => "Integrated Circuits"
  | "OSC" => "Oscillators"
  | "XTL" => "Crystals"
  | "IND" => "Inductors"
  | "FER" => "Ferrites"
  | "FUS" => "Fuses"
  | "SW" => "Switches"
  | "REL" => "Relays"
  | "TRF" => "Transformers"
  | "SNS" => "Sensors"
  | "DSP" => "Displays"
  | "SPK" => "Speakers"
  | "MIC" => "Microphones"
  | "ANT" => "Antennas"
  | "CBL" => "Cables"
  | _ => category

/-- The method `getCategoryDescription`. -/
def KiCadServer.getCategoryDescription (category : String) : String :=
  match category with
  | "CAP" => "Capacitor components"
  | "RES" => "Resistor components"
  | "DIO" => "Diode components"
  | "LED" => "Light emitting diode components"
  | "SCR" => "Screw and fastener components"
  | "MCH" => "Mechanical components"
  | "PCA" => "Printed circuit board assemblies"
  | "PCB" => "Printed circuit boards"
  | "ASY" => "Assembly components"
  | "DOC" => "Documentation components"
  | "DFW" => "Firmware components"
  | "DSW" => "Software components"
  | "DCL" => "Declaration components"
  | "FIX" => "Fixture components"
  | "CNT" => "Connector components"
  | "IC" => "Integrated circuit components"
  | "OSC" => "Oscillator components"
  | "XTL" => "Crystal components"
  | "IND" => "Inductor components"
  | "FER" => "Ferrite components"
  | "FUS" => "Fuse components"
  | "SW" => "Switch components"
  | "REL" => "Relay components"
  | "TRF" => "Transformer components"
  | "SNS" => "Sensor components"
  | "DSP" => "Display components"
  | "SPK" => "Speaker components"
  | "MIC" => "Microphone components"
  | "ANT" => "Antenna components"
  | "CBL" => "Cable components"
  | _ => category ++ " components"

/-- The method `getSymbolIDFromCategory`. -/
def KiCadServer.getSymbolIDFromCategory (category : String) : String :=
  match category with
  | "CAP" => "Device:C"
  | "RES" => "Device:R"
  | "DIO" => "Device:D"
  | "LED" => "Device:LED"
  | "IC" => "Device:IC"
  | "OSC" => "Device:Oscillator"
  | "XTL" => "Device:Crystal"
  | "IND" => "Device:L"
  | "FER" => "Device:Ferrite_Bead"
  | "FUS" => "Device:Fuse"
  | "SW" => "Switch:SW_Push"
  | "REL" => "Relay:Relay_SPDT"
  | "TRF" => "Device:Transformer"
  | "SNS" => "Sensor:Sensor"
  | "CNT" => "Connector:Conn_01x02"
  | "ANT" => "Device:Antenna"
  | "ANA" => "Device:IC"
  | "SCR" => "Mechanical:MountingHole"
  | "MCH" => "Mechanical:MountingHole"
  | _ => "Device:Device"

/-- The call `strings.TrimSuffix(s, suffix)`. -/
def stringsTrimSuffix (s suffix : String) : String :=
  if suffix.toList.isSuffixOf s.toList then
    String.mk (s.toList.take (s.toList.length - suffix.toList.length))
  else s

/-- The comparison `a < b` of two Go strings, which `sort.Strings` sorts by:
byte by byte on the UTF-8 encoding, which orders strings as the sequences of
their code points. -/
def stringLess (a b : String) : Prop :=
  a.toList.map Char.toNat < b.toList.map Char.toNat

instance (a b : String) : Decidable (stringLess a b) := by
  unfold stringLess; infer_instance

/-- Insertion of a key into a strictly increasing list of keys; a key that is
already there is not added again. -/
def insertKey (k : String) : List String → List String
  | [] => [k]
  | x :: xs =>
    if stringLess k x then k :: x :: xs
    else if k = x then x :: xs
    else x :: insertKey k xs

/-- The statements `names := lo.Keys(m); sort.Strings(names)` for the map `m`
whose keys were inserted in the order `keys`: the keys of a map are distinct,
so the sorted slice is the one strictly increasing list of the inserted keys,
whatever order `lo.Keys` returns and whatever `sort.Strings` does with it. -/
def sortedKeys (keys : List String) : List String :=
  keys.foldl (fun acc k => insertKey k acc) []

/-- The name of a file as `getCategories` and `getPartsByCategory` read it:
`strings.TrimSuffix(strings.ToUpper(file.Name), ".CSV")`.  The standard-library
function `strings.ToUpper` is the parameter `toUpper`. -/
def KiCadServer.upperBaseName (toUpper : String → String) (file : CSVFile) : String :=
  stringsTrimSuffix (toUpper file.Name) ".CSV"

/-- The keys `getCategories` inserts for the rows of one file, in row order
(`kicad_api.go` lines 134-141). -/
def KiCadServer.rowCategoryKeys (ipnIdx : Int) : List (List String) → List String
  | [] => []
  | row :: rest =>
    if (row.length : Int) > ipnIdx ∧ row.getD ipnIdx.toNat "" ≠ "" then
      let category := extractCategory (row.getD ipnIdx.toNat "")
      if category ≠ "" then category :: rowCategoryKeys ipnIdx rest
      else rowCategoryKeys ipnIdx rest
    else rowCategoryKeys ipnIdx rest

/-- The keys `getCategories` inserts for one file (`kicad_api.go` lines
127-142); `len(fileName)` is the length in bytes. -/
def KiCadServer.fileCategoryKeys (toUpper : String → String) (file : CSVFile) : List String :=
  let fileName := upperBaseName toUpper file
  (if fileName ≠ "" ∧ fileName.utf8ByteSize = 3 then [fileName] else []) ++
  (if findColumnIndex file "IPN" ≥ 0 then rowCategoryKeys (findColumnIndex file "IPN") file.Rows
   else [])

/-- The method `getCategories`. -/
def KiCadServer.getCategories (toUpper : String → String) (files : List CSVFile) :
    List KiCadCategory :=
  (sortedKeys (files.flatMap (fileCategoryKeys toUpper))).map
    (fun name => ⟨name, getCategoryDisplayName name, getCategoryDescription name⟩)

/-- The row loop of `getPartsByCategory` in one file (`kicad_api.go` lines
318-354); `parts` is the slice built so far. -/
def KiCadServer.partsInRows (categoryID fileCategory : String) (ipnIdx descIdx : Int) :
    List (List String) → List KiCadPartSummary → List KiCadPartSummary
  | [], parts => parts
  | row :: rest, parts =>
    if row.length = 0 then partsInRows categoryID fileCategory ipnIdx descIdx rest parts
    else
      let partCategory :=
        if ipnIdx ≥ 0 ∧ (row.length : Int) > ipnIdx ∧ row.getD ipnIdx.toNat "" ≠ "" then
          extractCategory (row.getD ipnIdx.toNat "")
        else fileCategory
      if partCategory = categoryID then
        let partID :=
          if ipnIdx ≥ 0 ∧ (row.length : Int) > ipnIdx ∧ row.getD ipnIdx.toNat "" ≠ "" then
            row.getD ipnIdx.toNat ""
          else categoryID ++ "-unknown-" ++ sprintfd parts.length
        let partName :=
          if descIdx ≥ 0 ∧ (row.length : Int) > descIdx then row.getD descIdx.toNat "" else ""
        partsInRows categoryID fileCategory ipnIdx descIdx rest
          (parts ++ [⟨partID, partName, partName⟩])
      else partsInRows categoryID fileCategory ipnIdx descIdx rest parts

/-- The file loop of `getPartsByCategory` (`kicad_api.go` lines 304-355). -/
def KiCadServer.partsInFiles (toUpper : String → String) (categoryID : String) :
    List CSVFile → List KiCadPartSummary → List KiCadPartSummary
  | [], parts => parts
  | file :: rest, parts =>
    let fileName := upperBaseName toUpper file
    let fileCategory := if fileName.utf8ByteSize = 3 then fileName else ""
    partsInFiles toUpper categoryID rest
      (partsInRows categoryID fileCategory (findColumnIndex file "IPN")
        (findColumnIndex file "Description") file.Rows parts)

/-- The method `getPartsByCategory`. -/
def KiCadServer.getPartsByCategory (toUpper : String → String) (files : List CSVFile)
    (categoryID : String) : List KiCadPartSummary :=
  partsInFiles toUpper categoryID files []

/-- The assignment `fields[key] = value` on a map held as the list of its entries. -/
def mapSet (fields : List (String × KiCadPartField)) (key : String) (value : KiCadPartField) :
    List (String × KiCadPartField) :=
  match fields with
  | [] => [(key, value)]
  | (k, v) :: rest => if k = key then (k, value) :: rest else (k, v) :: mapSet rest key value

/-- The read `fields[key]` of a map held as the list of its entries. -/
def mapGet (fields : List (String × KiCadPartField)) (key : String) : Option KiCadPartField :=
  match fields with
  | [] => none
  | (k, v) :: rest => if k = key then some v else mapGet rest key

/-- The loop of `getPartDetail` over the headers (`kicad_api.go` lines 382-391):
`cells` are the cells of the row from the position of the first header of
`headers` on; the state is the map `fields` and `partName`. -/
def KiCadServer.detailFields :
    List String → List String → List (String × KiCadPartField) × String →
      List (String × KiCadPartField) × String
  | [], _, acc => acc
  | _ :: _, [], acc => acc
  | header :: headers, cell :: cells, (fields, partName) =>
    if cell ≠ "" ∧ header ≠ "" then
      detailFields headers cells
        (mapSet fields header ⟨cell, ""⟩, if header = "Description" then cell else partName)
    else detailFields headers cells (fields, partName)

/-- The detail `getPartDetail` builds for the row it has found (`kicad_api.go`
lines 377-400). -/
def KiCadServer.buildDetail (partID : String) (file : CSVFile) (row : List String) :
    KiCadPartDetail :=
  let category := extractCategory partID
  let (fields, partName) := detailFields file.Headers row ([], "")
  { ID := partID, Name := partName, SymbolIDStr := getSymbolIDFromCategory category,
    ExcludeFromBOM := "false", Fields := fields, Revision := extractRevision partID }

/-- The row loop of `getPartDetail` in one file (`kicad_api.go` lines 365-402). -/
def KiCadServer.detailInRows (partID : String) (file : CSVFile) (ipnIdx : Int) :
    List (List String) → Option KiCadPartDetail
  | [] => none
  | row :: rest =>
    if row.length = 0 then detailInRows partID file ipnIdx rest
    else
      let rowPartID :=
        if ipnIdx ≥ 0 ∧ (row.length : Int) > ipnIdx then row.getD ipnIdx.toNat "" else ""
      if rowPartID = partID then some (buildDetail partID file row)
      else detailInRows partID file ipnIdx rest

/-- The method `getPartDetail`; `none` is the return `nil`. -/
def KiCadServer.getPartDetail : List CSVFile → String → Option KiCadPartDetail
  | [], _ => none
  | file :: rest, partID =>
    match detailInRows partID file (findColumnIndex file "IPN") file.Rows with
    | some detail => some detail
    | none => getPartDetail rest partID

/-! ## The identifier: `newIpn` -/

/-- The match of a whole string against a sequence of counted one-character
classes `k{n}`: each class takes exactly its count of characters, and nothing
is left over at the end. -/
def matchCounted : List ((Char → Bool) × Nat) → List Char → Bool
  | [], cs => cs.isEmpty
  | (cls, n) :: rest, cs =>
    decide (n ≤ cs.length) && (cs.take n).all cls && matchCounted rest (cs.drop n)

/-- The grammar `[A-Z]{3}-\d{3}-\d{4}` of the specification. -/
def ipnCounted : List ((Char → Bool) × Nat) :=
  [(isUpperAZ, 3), (fun c => c == '-', 1), (isDecimalDigit, 3), (fun c => c == '-', 1),
   (isDecimalDigit, 4)]

/-- Modelled from the spec: the function `newIpn` (the `parse` of the
specification) is declared outside the given sources; only its test
`TestNewIpn` is among them.  It validates exactly the grammar
`[A-Z]{3}-\d{3}-\d{4}` against the whole input, returns the input as the
identifier when it matches and fails with `InvalidFormat` when it does not. -/
def newIpn (s : String) : Except Failure String :=
  if matchCounted ipnCounted s.toList then .ok s else .error (.error "InvalidFormat")

/-- The call `fmt.Sprintf("%03d", n)`: at least three characters, zeros
between the sign and the digits. -/
def sprintf03d (n : Int) : String :=
  if n < 0 then "-" ++ padZeros 2 (Nat.repr n.natAbs) else padZeros 3 (Nat.repr n.toNat)

/-- Modelled from the spec: the function `newIpnParts` (the `construct` of the
specification) is declared outside the given sources; only its test
`TestNewIpnParts` is among them.  It fails if the category is not exactly
three uppercase letters, if the sequence is outside `[0, 999]` or if the
revision is outside `[0, 9999]`; otherwise it formats the three components
with `%03d` and `%04d`, a dash between them. -/
def newIpnParts (c : String) (n v : Int) : Except Failure String :=
  if ¬ (c.length = 3 ∧ c.toList.all isUpperAZ = true) then .error (.error "InvalidFormat")
  else if n < 0 ∨ 999 < n then .error (.error "InvalidFormat")
  else if v < 0 ∨ 9999 < v then .error (.error "InvalidFormat")
  else .ok (c ++ "-" ++ sprintf03d n ++ "-" ++ sprintf04d v)

/-- Modelled from the spec: the accessor `c` of `ipn` (the `category` of the
specification) is declared outside the given sources; only its test
`TestIpnMethods` is among them.  It validates the grammar again, fails with
`InvalidFormat` on a malformed string and otherwise returns the category
code, the three letters. -/
def ipn.c (i : String) : Except Failure String :=
  if matchCounted ipnCounted i.toList then .ok (String.mk (i.toList.take 3))
  else .error (.error "InvalidFormat")

/-- Modelled from the spec: the accessor `n` of `ipn` (the `sequence` of the
specification) is declared outside the given sources; only its test
`TestIpnMethods` is among them.  It validates the grammar again, fails with
`InvalidFormat` on a malformed string and otherwise returns the number the
three sequence digits stand for. -/
def ipn.n (i : String) : Except Failure Int :=
  if matchCounted ipnCounted i.toList then .ok (digitsValue ((i.toList.drop 4).take 3) : Int)
  else .error (.error "InvalidFormat")

/-- Modelled from the spec: the accessor `v` of `ipn` (the `revision` of the
specification) is declared outside the given sources; only its test
`TestIpnMethods` is among them.  It validates the grammar again, fails with
`InvalidFormat` on a malformed string and otherwise returns the number the
four revision digits stand for. -/
def ipn.v (i : String) : Except Failure Int :=
  if matchCounted ipnCounted i.toList then .ok (digitsValue (i.toList.drop 8) : Int)
  else .error (.error "InvalidFormat")

/-! ## Reading results back, and test inputs -/

/-- A heap holding the given structs at addresses `0, 1, 2, ...`. -/
def heapOf (rows : List partmasterLine) : Heap := fun a => rows.getD a default

/-- The structs a returned slice points to, read in the final heap. -/
def returnedLines (r : Except Failure (List Nat × Heap)) : Option (List partmasterLine) :=
  match r with
  | .error _ => none
  | .ok (found, h) => some (found.map h)

/-- The addresses of a returned slice. -/
def returnedRows (r : Except Failure (List Nat × Heap)) : Option (List Nat) :=
  match r with
  | .error _ => none
  | .ok (found, _) => some found

/-- The struct a returned pointer points to, read in the final heap. -/
def returnedLine (r : Except Failure (Nat × Heap)) : Option partmasterLine :=
  match r with
  | .error _ => none
  | .ok (p, h) => some (h p)

/-- The value the `int` field `Priority` holds for a row whose CSV cell is
empty: the decoder stores the zero value. -/
def emptyPriority : Int := 0

/-- The rows of the test input `pmIn` of `partmaster_test.go`, as decoded. -/
def pmIn : List partmasterLine :=
  [ ⟨"CAP-001-1001", "superduper cap", "", "", "CapsInc", "10045", "", 2, ""⟩,
    ⟨"CAP-001-1001", "", "", "10k", "MaxCaps", "abc2322", "", 1, ""⟩,
    ⟨"CAP-001-1002", "", "", "", "MaxCaps", "abc2323", "", emptyPriority, ""⟩ ]

/-- Two sources of one part whose descriptions are both filled in, and differ. -/
def conflictingSources : List partmasterLine :=
  [ ⟨"RES-001-0001", "10k resistor", "0603", "10k", "Yageo", "RC0603FR-0710KL", "", 1, ""⟩,
    ⟨"RES-001-0001", "RES 10K OHM 1%", "R_0603", "10k0", "Vishay", "CRCW060310K0FKEA", "", 2,
      ""⟩ ]

/-- Two sources of `CAP-001-1001`: row 0 has the parsable priority `v + 1`,
row 1 is a row whose Priority cell is empty, were the `int` field to hold `v`
for it. -/
def unrankedSourceAt (v : Int) : List partmasterLine :=
  [ ⟨"CAP-001-1001", "", "", "10k", "MaxCaps", "abc2322", "", v + 1, ""⟩,
    ⟨"CAP-001-1001", "", "", "", "MaxCaps", "abc2323", "", v, ""⟩ ]

/-- Two sources of `CAP-001-1001`: one with the parsable priority `1`, one
whose Priority cell is empty (the third row of `pmIn`, under the same IPN). -/
def unrankedSource : List partmasterLine :=
  [ ⟨"CAP-001-1001", "", "", "10k", "MaxCaps", "abc2322", "", 1, ""⟩,
    ⟨"CAP-001-1001", "", "", "", "MaxCaps", "abc2323", "", emptyPriority, ""⟩ ]

/-- A store with two parts; the second row is shorter than the header row. -/
def capFile : CSVFile :=
  { Name := "cap.csv",
    Headers := ["IPN", "Description", "Value"],
    Rows := [["CAP-001-0004", "ceramic cap", "10n"], ["CAP-002-0001", "tantalum cap"]] }

/-- A store whose only part carries the largest revision an `int` can hold. -/
def overflowFile : CSVFile :=
  { Name := "cap.csv",
    Headers := ["IPN", "Description"],
    Rows := [["CAP-001-9223372036854775807", "ceramic cap"]] }

/-- A store with a part at revision `9999`. -/
def lastRevisionFile : CSVFile :=
  { Name := "res.csv",
    Headers := ["Description", "IPN"],
    Rows := [["resistor", "RES-010-9999"]] }

/-- A store named after the category `RES`, with a row without an identity
value, an empty row, a row of another category and a row whose identity value
does not match the grammar. -/
def mixedFile : CSVFile :=
  { Name := "res.csv",
    Headers := ["IPN", "Description"],
    Rows := [["RES-001-0001", "10k"], ["", "unnamed resistor"], [],
             ["CAP-009-0001", "stray cap"], ["bogus", "bad id"]] }

/-- A store without an identity column. -/
def notesFile : CSVFile :=
  { Name := "notes.csv",
    Headers := ["Description", "Value"],
    Rows := [["loose part", "1k"]] }

/-- A store whose name, `AÉ` before the extension, has two characters in three
bytes; its only row has an empty identity value.  The letters of the name
outside ASCII are upper case already, so `strings.ToUpper` changes the
extension only. -/
def accentFile : CSVFile :=
  { Name := "AÉ.csv",
    Headers := ["IPN", "Description"],
    Rows := [["", "accent part"]] }

/-- A store whose name, `ÄÖÜ` before the extension, has three characters in
six bytes; its only row has an empty identity value. -/
def umlautFile : CSVFile :=
  { Name := "ÄÖÜ.csv",
    Headers := ["IPN", "Description"],
    Rows := [["", "umlaut part"]] }

/-- A store named after the category `IND` whose rows have no identity value. -/
def inductorFile : CSVFile :=
  { Name := "ind.csv",
    Headers := ["Description"],
    Rows := [["10uH"], ["22uH"]] }

/-! ## Definitions used in the statements and proofs -/

/-- The first non-empty string of a list, the empty string when there is none. -/
def firstNonEmpty : List String → String
  | [] => ""
  | s :: rest => if s ≠ "" then s else firstNonEmpty rest

/-- The effect of one `fillBaseStep` on the base struct, as a function of the
base `b` and of the other struct `o`. -/
def fillBlank (b o : partmasterLine) : partmasterLine :=
  { b with
    Description := if b.Description = "" then o.Description else b.Description
    Footprint := if b.Footprint = "" then o.Footprint else b.Footprint
    Value := if b.Value = "" then o.Value else b.Value }

/-- The line `y` is `x` with some of its blank core fields filled in. -/
def Extends (x y : partmasterLine) : Prop :=
  y.IPN = x.IPN ∧ y.Manufacturer = x.Manufacturer ∧ y.MPN = x.MPN ∧
  y.Datasheet = x.Datasheet ∧ y.Priority = x.Priority ∧ y.Checked = x.Checked ∧
  (x.Description ≠ "" → y.Description = x.Description) ∧
  (x.Footprint ≠ "" → y.Footprint = x.Footprint) ∧
  (x.Value ≠ "" → y.Value = x.Value)

/-- The base struct after the first loop, from the structs of the original heap. -/
def resolvedBase (h : Heap) (base : Nat) (rest : List Nat) : partmasterLine :=
  (rest.map h).foldl fillBlank (h base)

/-- The heap `findPartSources` leaves behind, from the original heap `h`, the
base `b` and the other returned rows `rest`. -/
def mergedHeap (h : Heap) (b : Nat) (rest : List Nat) : Heap := fun a =>
  if a = b then resolvedBase h b rest
  else if a ∈ rest then fillBlank (h a) (resolvedBase h b rest) else h a

/-- The effect of `fixMissingValue` on the struct it is applied to. -/
def fixLine (x : partmasterLine) : partmasterLine :=
  if x.Value = "" ∧ x.MPN ≠ "" then { x with Value := x.MPN } else x

/-- The located row is at least as wide as the header row. -/
def KiCadServer.TargetWide (file : CSVFile) (rowIdx : Nat) : Prop :=
  ∃ row, file.Rows[rowIdx]? = some row ∧ file.Headers.length ≤ row.length

/-- The identity-column value of a row: its cell in the first column named
`IPN`, when the file has that column and the row reaches it. -/
def KiCadServer.ipnCell (file : CSVFile) (row : List String) : Option String :=
  if 0 ≤ findColumnIndex file "IPN" ∧ findColumnIndex file "IPN" < (row.length : Int) then
    some (row.getD (findColumnIndex file "IPN").toNat "")
  else none

/-- The cell of row `rowIdx` in the first column named `name`, when the file
has that column and the row reaches it. -/
def KiCadServer.cellOf (file : CSVFile) (rowIdx : Nat) (name : String) : Option String :=
  match file.Rows[rowIdx]? with
  | none => none
  | some row =>
    if findColumnIndex file name < 0 then none
    else row[(findColumnIndex file name).toNat]?

/-- The digits `updatePart` appends to `Manufacturer` and `MPN` for the source
at index `i`: none for the first source, `i + 1` in decimal after it. -/
def KiCadServer.sourceSuffix (i : Nat) : List Char :=
  if i > 0 then (Nat.repr (i + 1)).toList else []

/-- The grammar `CCC-NNN-VVVV`: three uppercase ASCII letters, a dash, three
decimal digits, a dash and four decimal digits, and nothing else. -/
def IpnGrammar (s : String) : Prop :=
  ∃ c₁ c₂ c₃ n₁ n₂ n₃ v₁ v₂ v₃ v₄ : Char,
    s.toList = [c₁, c₂, c₃, '-', n₁, n₂, n₃, '-', v₁, v₂, v₃, v₄] ∧
    isUpperAZ c₁ = true ∧ isUpperAZ c₂ = true ∧ isUpperAZ c₃ = true ∧
    isDecimalDigit n₁ = true ∧ isDecimalDigit n₂ = true ∧ isDecimalDigit n₃ = true ∧
    isDecimalDigit v₁ = true ∧ isDecimalDigit v₂ = true ∧ isDecimalDigit v₃ = true ∧
    isDecimalDigit v₄ = true

/-- The category a store stands for by its name: the upper-cased name without
a trailing `.CSV` when that is three bytes long, no category otherwise. -/
def KiCadServer.storeCategory (toUpper : String → String) (file : CSVFile) : String :=
  if (upperBaseName toUpper file).utf8ByteSize = 3 then upperBaseName toUpper file else ""

/-- The effective category of a row: the category of its identity value when
it has a non-empty one, the category of its store otherwise. -/
def KiCadServer.effectiveCategory (toUpper : String → String) (file : CSVFile)
    (row : List String) : String :=
  match ipnCell file row with
  | some v => if v ≠ "" then extractCategory v else storeCategory toUpper file
  | none => storeCategory toUpper file

/-- The cell of a row in the first column named `Description`, the empty
string when the file has no such column or the row does not reach it. -/
def KiCadServer.descriptionCell (file : CSVFile) (row : List String) : String :=
  if 0 ≤ findColumnIndex file "Description" ∧
      findColumnIndex file "Description" < (row.length : Int) then
    row.getD (findColumnIndex file "Description").toNat ""
  else ""

/-- The rows `getPartsByCategory` is to list for `categoryID`, each with its
file, in file order and then row order: the rows that have at least one cell
and whose effective category is `categoryID`. -/
def KiCadServer.categoryRows (toUpper : String → String) (files : List CSVFile)
    (categoryID : String) : List (CSVFile × List String) :=
  files.flatMap (fun file =>
    (file.Rows.filter (fun row =>
      decide (row ≠ [] ∧ effectiveCategory toUpper file row = categoryID))).map
      (fun row => (file, row)))

/-- The summary of a listed row that stands at position `n` of the result. -/
def KiCadServer.summaryOf (categoryID : String) (n : Nat) (file : CSVFile)
    (row : List String) : KiCadPartSummary :=
  { ID := match ipnCell file row with
      | some v => if v ≠ "" then v else categoryID ++ "-unknown-" ++ Nat.repr n
      | none => categoryID ++ "-unknown-" ++ Nat.repr n,
    Name := descriptionCell file row,
    Description := descriptionCell file row }

/-- The summaries of a list of rows, numbered from `n`. -/
def KiCadServer.numbered (categoryID : String) :
    Nat → List (CSVFile × List String) → List KiCadPartSummary
  | _, [] => []
  | n, (file, row) :: rest => summaryOf categoryID n file row :: numbered categoryID (n + 1) rest

/-- `strings.ToUpper` on text whose letters outside ASCII are upper case
already: the letters `a` to `z` are mapped, every other character is kept. -/
def asciiUpper (s : String) : String := String.mk (s.toList.map Char.toUpper)

/-- The cell that stands under the first header equal to `h`, when the row
reaches it. -/
def KiCadServer.rowCellAt : List String → List String → String → Option String
  | [], _, _ => none
  | _ :: _, [], _ => none
  | header :: headers, cell :: cells, h =>
    if header = h then some cell else rowCellAt headers cells h

/-! ## The code on its test inputs -/

/-- The expectations of `TestPartmasterFindPartSources`. -/
theorem test_findPartSources_pmIn :
    returnedLines (findPartSources insertionSortBy (heapOf pmIn) [0, 1, 2] "CAP-001-1001") =
    some [ ⟨"CAP-001-1001", "superduper cap", "", "10k", "MaxCaps", "abc2322", "", 1, ""⟩,
           ⟨"CAP-001-1001", "superduper cap", "", "10k", "CapsInc", "10045", "", 2, ""⟩ ] := by
  decide

/-- The post-processing loop on the rows of `pmIn`. -/
theorem test_postProcess_pmIn :
    (pmIn.map fun l => l.Value) = ["", "10k", ""] ∧
    ([0, 1, 2].map fun a => (postProcess (heapOf pmIn) [0, 1, 2] a).Value)
      = ["10045", "10k", "abc2323"] := by
  decide

/-- Adding the column `MPN` to `capFile`. -/
theorem test_ensureColumn_capFile :
    KiCadServer.ensureColumn capFile "MPN" =
    (3, { Name := "cap.csv", Headers := ["IPN", "Description", "Value", "MPN"],
          Rows := [["CAP-001-0004", "ceramic cap", "10n", ""],
                   ["CAP-002-0001", "tantalum cap", ""]] }) := by
  decide

/-- A new revision of `CAP-001-0004` in `capFile`. -/
theorem test_startNewRevision_capFile :
    KiCadServer.startNewRevision [capFile] "CAP-001-0004" =
    .ok ([{ Name := "cap.csv", Headers := ["IPN", "Description", "Value"],
            Rows := [["CAP-001-0004", "ceramic cap", "10n"], ["CAP-002-0001", "tantalum cap"],
                     ["CAP-001-0005", "ceramic cap", "10n"]] }], "CAP-001-0005") := by
  decide

/-- An update of `CAP-002-0001` in `capFile` with a description and two sources. -/
theorem test_updatePart_capFile :
    KiCadServer.updatePart [capFile] "CAP-002-0001"
      ⟨"tantalum 10u", [⟨"Kemet", "T491"⟩, ⟨"AVX", "TAJ"⟩]⟩ =
    .ok [{ Name := "cap.csv",
           Headers := ["IPN", "Description", "Value", "Manufacturer", "MPN", "Manufacturer2",
                       "MPN2"],
           Rows := [["CAP-001-0004", "ceramic cap", "10n", "", "", "", ""],
                    ["CAP-002-0001", "tantalum 10u", "", "Kemet", "T491", "AVX", "TAJ"]] }] := by
  decide

/-- The categories of the stores `capFile` and `mixedFile`. -/
theorem test_getCategories :
    KiCadServer.getCategories asciiUpper [mixedFile, capFile] =
      [⟨"CAP", "Capacitors", "Capacitor components"⟩,
       ⟨"RES", "Resistors", "Resistor components"⟩] := by
  decide

/-- A category that comes from the name of a store alone: `ind.csv` stands for
`IND`, and its rows without an identity value are listed under it. -/
theorem test_storeName_category :
    KiCadServer.getCategories asciiUpper [inductorFile] =
      [⟨"IND", "Inductors", "Inductor components"⟩] ∧
    KiCadServer.getPartsByCategory asciiUpper [inductorFile] "IND" =
      [⟨"IND-unknown-0", "10uH", "10uH"⟩, ⟨"IND-unknown-1", "22uH", "22uH"⟩] ∧
    KiCadServer.getPartsByCategory asciiUpper [inductorFile] "IND.CSV" = [] := by
  decide

/-- The parts of the categories `RES` and `CAP` in `capFile` and `mixedFile`. -/
theorem test_getPartsByCategory :
    KiCadServer.getPartsByCategory asciiUpper [capFile, mixedFile] "RES" =
      [⟨"RES-001-0001", "10k", "10k"⟩,
       ⟨"RES-unknown-1", "unnamed resistor", "unnamed resistor"⟩] ∧
    KiCadServer.getPartsByCategory asciiUpper [capFile, mixedFile] "CAP" =
      [⟨"CAP-001-0004", "ceramic cap", "ceramic cap"⟩,
       ⟨"CAP-002-0001", "tantalum cap", "tantalum cap"⟩,
       ⟨"CAP-009-0001", "stray cap", "stray cap"⟩] := by
  decide

/-- The detail of `CAP-001-0004` in `capFile`. -/
theorem test_getPartDetail :
    KiCadServer.getPartDetail [mixedFile, capFile] "CAP-001-0004" =
      some { ID := "CAP-001-0004", Name := "ceramic cap", SymbolIDStr := "Device:C",
             ExcludeFromBOM := "false",
             Fields := [("IPN", ⟨"CAP-001-0004", ""⟩), ("Description", ⟨"ceramic cap", ""⟩),
                        ("Value", ⟨"10n", ""⟩)],
             Revision := "0004" } := by
  decide

/-! ## Lemmas: the two loops of `findPartSources` -/

theorem fillBaseStep_eq (base : Nat) (h : Heap) (f : Nat) :
    fillBaseStep base h f = Function.update h base (fillBlank (h base) (h f)) := by
  funext a
  by_cases hf : f = base
  · subst hf
    by_cases ha : a = f
    · subst ha
      simp [fillBaseStep, fillBlank, setDescription, setFootprint, setValue]
    · simp [fillBaseStep, fillBlank, setDescription, setFootprint, setValue, ha]
  · by_cases ha : a = base
    · subst ha
      simp only [fillBaseStep, fillBlank, setDescription, setFootprint, setValue]
      by_cases h1 : (h a).Description = "" <;> by_cases h2 : (h f).Description = "" <;>
      by_cases h3 : (h a).Footprint = "" <;> by_cases h4 : (h f).Footprint = "" <;>
      by_cases h5 : (h a).Value = "" <;> by_cases h6 : (h f).Value = "" <;>
      simp [h1, h2, h3, h4, h5, h6, hf, Function.update] <;>
      (cases hx : h a; simp_all)
    · simp only [fillBaseStep, setDescription, setFootprint, setValue]
      split_ifs <;> simp [Function.update, ha]

theorem fillBlank_self (x : partmasterLine) : fillBlank x x = x := by
  cases x; simp [fillBlank]

theorem fillBlank_idem (x o : partmasterLine) : fillBlank (fillBlank x o) o = fillBlank x o := by
  cases x; cases o; simp only [fillBlank]; congr 1 <;> split_ifs <;> simp_all

theorem propagateStep_eq (base : Nat) (h : Heap) (f : Nat) :
    propagateStep base h f = Function.update h f (fillBlank (h f) (h base)) := by
  funext a
  by_cases hf : f = base
  · subst hf
    by_cases ha : a = f
    · subst ha
      simp only [propagateStep, fillBlank, setDescription, setFootprint, setValue]
      by_cases h1 : (h a).Description = "" <;> by_cases h3 : (h a).Footprint = "" <;>
      by_cases h5 : (h a).Value = "" <;>
      simp [h1, h3, h5, Function.update]
    · simp only [propagateStep, setDescription, setFootprint, setValue]
      split_ifs <;> simp [Function.update, ha]
  · by_cases ha : a = f
    · subst ha
      have hf' : ¬ base = a := fun e => hf e.symm
      simp only [propagateStep, fillBlank, setDescription, setFootprint, setValue]
      by_cases h1 : (h a).Description = "" <;> by_cases h3 : (h a).Footprint = "" <;>
      by_cases h5 : (h a).Value = "" <;>
      simp [h1, h3, h5, hf, hf', Function.update]
    · simp only [propagateStep, setDescription, setFootprint, setValue]
      split_ifs <;> simp [Function.update, ha]

theorem Extends.refl (x : partmasterLine) : Extends x x := by
  simp [Extends]

theorem Extends.fill {x y : partmasterLine} (hxy : Extends x y) (o : partmasterLine) :
    Extends x (fillBlank y o) := by
  obtain ⟨h1, h2, h3, h4, h5, h6, h7, h8, h9⟩ := hxy
  refine ⟨h1, h2, h3, h4, h5, h6, ?_, ?_, ?_⟩
  · intro hx; simp [fillBlank, h7 hx, hx]
  · intro hx; simp [fillBlank, h8 hx, hx]
  · intro hx; simp [fillBlank, h9 hx, hx]

theorem Extends.fill_back {x y : partmasterLine} (hxy : Extends x y) : fillBlank y x = y := by
  obtain ⟨-, -, -, -, -, -, h7, h8, h9⟩ := hxy
  obtain ⟨_, xd, xf, xv, _, _, _, _, _⟩ := x
  obtain ⟨_, yd, yf, yv, _, _, _, _, _⟩ := y
  simp only [fillBlank] at *
  congr 1 <;> split_ifs with hc <;> first | rfl | skip
  · by_cases hx : xd = ""
    · rw [hx, hc]
    · exact (h7 hx).symm
  · by_cases hx : xf = ""
    · rw [hx, hc]
    · exact (h8 hx).symm
  · by_cases hx : xv = ""
    · rw [hx, hc]
    · exact (h9 hx).symm

theorem Extends.trans {x y z : partmasterLine} (hxy : Extends x y) (hyz : Extends y z) :
    Extends x z := by
  obtain ⟨h1, h2, h3, h4, h5, h6, h7, h8, h9⟩ := hxy
  obtain ⟨k1, k2, k3, k4, k5, k6, k7, k8, k9⟩ := hyz
  refine ⟨k1.trans h1, k2.trans h2, k3.trans h3, k4.trans h4, k5.trans h5, k6.trans h6,
    ?_, ?_, ?_⟩
  · intro hx; rw [k7 (by rw [h7 hx]; exact hx), h7 hx]
  · intro hx; rw [k8 (by rw [h8 hx]; exact hx), h8 hx]
  · intro hx; rw [k9 (by rw [h9 hx]; exact hx), h9 hx]

theorem Extends.fill_from {x y : partmasterLine} (hxy : Extends x y) : fillBlank x y = y := by
  obtain ⟨h1, h2, h3, h4, h5, h6, h7, h8, h9⟩ := hxy
  obtain ⟨_, xd, xf, xv, _, _, _, _, _⟩ := x
  obtain ⟨_, yd, yf, yv, _, _, _, _, _⟩ := y
  simp only [fillBlank] at *
  subst h1 h2 h3 h4 h5 h6
  congr 1 <;> split_ifs with hc <;> first | rfl | skip
  · exact (h7 hc).symm
  · exact (h8 hc).symm
  · exact (h9 hc).symm

theorem foldl_fillBlank_extends (os : List partmasterLine) (x acc : partmasterLine)
    (hacc : Extends x acc) : Extends x (os.foldl fillBlank acc) := by
  induction os generalizing acc with
  | nil => exact hacc
  | cons o os ih => exact ih _ (hacc.fill o)

theorem foldl_fillBlank_congr (h h1 : Heap) (b : Nat) (B : partmasterLine)
    (hB : Extends (h b) B) (h1b : h1 b = B) (hne : ∀ a, a ≠ b → h1 a = h a)
    (l : List Nat) (acc : partmasterLine) (hacc : Extends B acc) :
    (l.map h1).foldl fillBlank acc = (l.map h).foldl fillBlank acc := by
  induction l generalizing acc with
  | nil => rfl
  | cons f fs ih =>
    simp only [List.map_cons, List.foldl_cons]
    by_cases hf : f = b
    · subst hf
      rw [h1b, hacc.fill_back, (hB.trans hacc).fill_back]
      exact ih acc hacc
    · rw [hne f hf]
      exact ih _ (hacc.fill _)

/-- The heap after the first loop: only the base struct has changed, and it is
the original base filled from the original structs of the other rows. -/
theorem fillBase_loop (h : Heap) (b : Nat) (l : List Nat) :
    l.foldl (fillBaseStep b) h = Function.update h b (resolvedBase h b l) := by
  induction l generalizing h with
  | nil => simp [resolvedBase]
  | cons f fs ih =>
    simp only [List.foldl_cons]
    rw [ih, fillBaseStep_eq]
    have hB : Extends (h b) (fillBlank (h b) (h f)) := (Extends.refl _).fill _
    have key := foldl_fillBlank_congr h (Function.update h b (fillBlank (h b) (h f))) b
      (fillBlank (h b) (h f)) hB (by simp) (fun a ha => by simp [Function.update, ha]) fs
      (fillBlank (h b) (h f)) (Extends.refl _)
    simp only [resolvedBase, Function.update_same, Function.update_idem, List.map_cons,
      List.foldl_cons]
    rw [key]

/-- The heap after the second loop: every listed struct has its blank core
fields filled from the base struct. -/
theorem propagate_loop (h : Heap) (b : Nat) (l : List Nat) (a : Nat) :
    l.foldl (propagateStep b) h a = if a ∈ l then fillBlank (h a) (h b) else h a := by
  induction l generalizing h with
  | nil => simp
  | cons f fs ih =>
    simp only [List.foldl_cons]
    rw [ih, propagateStep_eq]
    have hb : Function.update h f (fillBlank (h f) (h b)) b = h b := by
      by_cases hfb : b = f
      · subst hfb; simp [fillBlank_self]
      · simp [Function.update, hfb]
    rw [hb]
    by_cases haf : a = f
    · subst haf
      simp [fillBlank_idem]
    · simp [Function.update, haf]

theorem merge_loops (h : Heap) (b : Nat) (rest : List Nat) :
    (b :: rest).foldl (propagateStep b) (rest.foldl (fillBaseStep b) h) = mergedHeap h b rest := by
  funext a
  rw [propagate_loop, fillBase_loop]
  by_cases hab : a = b
  · subst hab
    simp [mergedHeap, fillBlank_self]
  · simp [mergedHeap, hab, Function.update]

theorem matchingRows_length_eq_zero (h : Heap) (p : partmaster) (pn : String) :
    (matchingRows h p pn).length = 0 ↔ ¬ ∃ l ∈ p, (h l).IPN = pn := by
  simp [matchingRows, List.filter_eq_nil_iff]

/-- What `findPartSources` computes when some row matches and `srt` permutes
its input. -/
theorem findPartSources_ok (srt : (Nat → Nat → Bool) → List Nat → List Nat)
    (hs : SortContract srt) (h : Heap) (p : partmaster) (pn : String)
    (hm : ∃ l ∈ p, (h l).IPN = pn) :
    ∃ b rest, srt (byPriorityLess h) (matchingRows h p pn) = b :: rest ∧
      findPartSources srt h p pn = .ok (b :: rest, mergedHeap h b rest) := by
  have hlen : ¬ (matchingRows h p pn).length = 0 := by
    rw [matchingRows_length_eq_zero]; exact fun hn => hn hm
  have hperm := hs.1 (byPriorityLess h) (matchingRows h p pn)
  cases hsrt : srt (byPriorityLess h) (matchingRows h p pn) with
  | nil =>
    rw [hsrt] at hperm
    exact absurd (by simpa using hperm.length_eq.symm) hlen
  | cons b rest =>
    refine ⟨b, rest, rfl, ?_⟩
    simp only [findPartSources, hlen, if_false, hsrt]
    rw [merge_loops]

theorem findPartSources_error (srt : (Nat → Nat → Bool) → List Nat → List Nat)
    (h : Heap) (p : partmaster) (pn : String) (hm : ¬ ∃ l ∈ p, (h l).IPN = pn) :
    findPartSources srt h p pn = .error (.error "Part not found") := by
  have hlen : (matchingRows h p pn).length = 0 := by
    rw [matchingRows_length_eq_zero]; exact hm
  simp [findPartSources, hlen]

theorem foldl_fillBlank_field (get : partmasterLine → String)
    (hget : ∀ x o, get (fillBlank x o) = if get x = "" then get o else get x)
    (os : List partmasterLine) (x : partmasterLine) :
    get (os.foldl fillBlank x) =
      if get x ≠ "" then get x else firstNonEmpty (os.map get) := by
  induction os generalizing x with
  | nil =>
    by_cases hx : get x = "" <;> simp [firstNonEmpty, hx]
  | cons o os ih =>
    simp only [List.foldl_cons, List.map_cons, firstNonEmpty]
    rw [ih, hget]
    by_cases hx : get x = ""
    · simp [hx]
    · simp [hx]

theorem resolvedBase_extends (h : Heap) (b : Nat) (rest : List Nat) :
    Extends (h b) (resolvedBase h b rest) :=
  foldl_fillBlank_extends _ _ _ (Extends.refl _)

theorem resolvedBase_Description (h : Heap) (b : Nat) (rest : List Nat) :
    (resolvedBase h b rest).Description =
      if (h b).Description ≠ "" then (h b).Description
      else firstNonEmpty (rest.map (fun a => (h a).Description)) := by
  have := foldl_fillBlank_field (fun x => x.Description) (fun x o => by simp [fillBlank])
    (rest.map h) (h b)
  simpa [resolvedBase, List.map_map, Function.comp_def] using this

theorem resolvedBase_Footprint (h : Heap) (b : Nat) (rest : List Nat) :
    (resolvedBase h b rest).Footprint =
      if (h b).Footprint ≠ "" then (h b).Footprint
      else firstNonEmpty (rest.map (fun a => (h a).Footprint)) := by
  have := foldl_fillBlank_field (fun x => x.Footprint) (fun x o => by simp [fillBlank])
    (rest.map h) (h b)
  simpa [resolvedBase, List.map_map, Function.comp_def] using this

theorem resolvedBase_Value (h : Heap) (b : Nat) (rest : List Nat) :
    (resolvedBase h b rest).Value =
      if (h b).Value ≠ "" then (h b).Value
      else firstNonEmpty (rest.map (fun a => (h a).Value)) := by
  have := foldl_fillBlank_field (fun x => x.Value) (fun x o => by simp [fillBlank])
    (rest.map h) (h b)
  simpa [resolvedBase, List.map_map, Function.comp_def] using this

theorem mergedHeap_base (h : Heap) (b : Nat) (rest : List Nat) :
    mergedHeap h b rest b = resolvedBase h b rest := by
  simp [mergedHeap]

theorem mergedHeap_extends (h : Heap) (b : Nat) (rest : List Nat) (a : Nat) :
    Extends (h a) (mergedHeap h b rest a) := by
  unfold mergedHeap
  by_cases hab : a = b
  · subst hab; simpa using resolvedBase_extends h a rest
  · by_cases har : a ∈ rest
    · simpa [hab, har] using (Extends.refl (h a)).fill _
    · simpa [hab, har] using Extends.refl (h a)

theorem mergedHeap_outside (h : Heap) (b : Nat) (rest : List Nat) (a : Nat)
    (hab : a ≠ b) (har : a ∉ rest) : mergedHeap h b rest a = h a := by
  simp [mergedHeap, hab, har]

theorem mergedHeap_rest (h : Heap) (b : Nat) (rest : List Nat) (a : Nat) (har : a ∈ rest) :
    mergedHeap h b rest a = fillBlank (h a) (mergedHeap h b rest b) := by
  rw [mergedHeap_base]
  by_cases hab : a = b
  · subst hab
    rw [mergedHeap_base, (resolvedBase_extends h a rest).fill_from]
  · simp [mergedHeap, hab, har]

/-! ## Lemmas: insertion sort meets the contract of `sort.Sort` -/

theorem insertBy_perm (lt : Nat → Nat → Bool) (x : Nat) (l : List Nat) :
    (insertBy lt x l).Perm (x :: l) := by
  induction l with
  | nil => simp [insertBy]
  | cons y ys ih =>
    simp only [insertBy]
    split_ifs
    · exact List.Perm.refl _
    · exact (List.Perm.cons y ih).trans (List.Perm.swap x y ys)

theorem insertBy_sorted (key : Nat → Int) (x : Nat) (l : List Nat)
    (hl : l.Pairwise (fun a b => key a ≤ key b)) :
    (insertBy (fun a b => decide (key a < key b)) x l).Pairwise (fun a b => key a ≤ key b) := by
  induction l with
  | nil => simp [insertBy]
  | cons y ys ih =>
    simp only [insertBy]
    rw [List.pairwise_cons] at hl
    split_ifs with hxy
    · have hlt : key x < key y := by simpa using hxy
      refine List.pairwise_cons.2 ⟨?_, List.pairwise_cons.2 hl⟩
      intro a ha
      rcases List.mem_cons.1 ha with rfl | ha
      · exact le_of_lt hlt
      · exact le_trans (le_of_lt hlt) (hl.1 a ha)
    · have hle : key y ≤ key x := by simpa using hxy
      refine List.pairwise_cons.2 ⟨?_, ih hl.2⟩
      intro a ha
      rcases List.mem_cons.1 ((insertBy_perm _ x ys).subset ha) with rfl | ha
      · exact hle
      · exact hl.1 a ha

theorem foldl_insertBy_perm (lt : Nat → Nat → Bool) (l acc : List Nat) :
    (l.foldl (fun acc x => insertBy lt x acc) acc).Perm (l ++ acc) := by
  induction l generalizing acc with
  | nil => simp
  | cons x xs ih =>
    simp only [List.foldl_cons]
    refine (ih _).trans ?_
    refine (List.Perm.append_left xs (insertBy_perm lt x acc)).trans ?_
    simp

theorem foldl_insertBy_sorted (key : Nat → Int) (l acc : List Nat)
    (hacc : acc.Pairwise (fun a b => key a ≤ key b)) :
    (l.foldl (fun acc x => insertBy (fun a b => decide (key a < key b)) x acc) acc).Pairwise
      (fun a b => key a ≤ key b) := by
  induction l generalizing acc with
  | nil => exact hacc
  | cons x xs ih =>
    simp only [List.foldl_cons]
    exact ih _ (insertBy_sorted key x acc hacc)

theorem insertionSortBy_contract : SortContract insertionSortBy := by
  refine ⟨?_, ?_⟩
  · intro lt l
    simpa [insertionSortBy] using foldl_insertBy_perm lt l []
  · intro key l
    exact foldl_insertBy_sorted key l [] List.Pairwise.nil

theorem sorted_byPriority (srt : (Nat → Nat → Bool) → List Nat → List Nat)
    (hs : SortContract srt) (h : Heap) (l : List Nat) :
    (srt (byPriorityLess h) l).Pairwise (fun a b => (h a).Priority ≤ (h b).Priority) :=
  hs.2 (fun a => (h a).Priority) l

/-- The returned slice of `findPartSources` is a rearrangement of the matching
rows, ordered by the priorities they had before the call. -/
theorem findPartSources_sorted (srt : (Nat → Nat → Bool) → List Nat → List Nat)
    (hs : SortContract srt) (h : Heap) (p : partmaster) (pn : String)
    (hm : ∃ l ∈ p, (h l).IPN = pn) :
    ∃ b rest, findPartSources srt h p pn = .ok (b :: rest, mergedHeap h b rest) ∧
      (b :: rest).Perm (p.filter (fun l => decide ((h l).IPN = pn))) ∧
      (b :: rest).Pairwise (fun x y => (h x).Priority ≤ (h y).Priority) := by
  obtain ⟨b, rest, hsrt, hok⟩ := findPartSources_ok srt hs h p pn hm
  refine ⟨b, rest, hok, ?_, ?_⟩
  · rw [← hsrt]; exact hs.1 _ _
  · rw [← hsrt]; exact sorted_byPriority srt hs h _

/-- Whatever integer `v` the `Priority` field holds for a row without a
priority, a sibling with the parsable priority `v + 1` is returned after it,
by every sorting routine that meets the contract of `sort.Sort`. -/
theorem unranked_first_any_value (v : Int) (srt : (Nat → Nat → Bool) → List Nat → List Nat)
    (hs : SortContract srt) :
    returnedRows (findPartSources srt (heapOf (unrankedSourceAt v)) [0, 1] "CAP-001-1001")
      = some [1, 0] := by
  obtain ⟨b, rest, hsrt, hok⟩ := findPartSources_ok srt hs (heapOf (unrankedSourceAt v)) [0, 1]
    "CAP-001-1001" ⟨0, by simp, rfl⟩
  have hmr : matchingRows (heapOf (unrankedSourceAt v)) [0, 1] "CAP-001-1001" = [0, 1] := by
    simp [matchingRows, heapOf, unrankedSourceAt, List.filter]
  have hperm : (b :: rest).Perm [0, 1] := by
    rw [← hsrt, hmr]; exact hs.1 _ _
  have hsorted := sorted_byPriority srt hs (heapOf (unrankedSourceAt v)) [0, 1]
  rw [← hmr, hsrt] at hsorted
  rw [hok]
  have hlen := hperm.length_eq
  match rest, hlen with
  | [c], _ =>
    have hb : b = 0 ∨ b = 1 := by simpa using hperm.subset (List.mem_cons_self b [c])
    have hc : c = 0 ∨ c = 1 := by
      simpa using hperm.subset (List.mem_cons_of_mem b (List.mem_cons_self c []))
    have hnd : (b :: [c]).Nodup := hperm.nodup_iff.2 (by decide)
    have hbc : b ≠ c := by simpa using hnd
    have hle : (heapOf (unrankedSourceAt v) b).Priority ≤
        (heapOf (unrankedSourceAt v) c).Priority := by
      simpa using hsorted
    rcases hb with rfl | rfl <;> rcases hc with rfl | rfl
    · exact absurd rfl hbc
    · simp [heapOf, unrankedSourceAt] at hle
    · rfl
    · exact absurd rfl hbc

/-! ## Lemmas: the post-processing loop -/

theorem fixMissingValue_eq (h : Heap) (part : Nat) :
    fixMissingValue h part = Function.update h part (fixLine (h part)) := by
  unfold fixMissingValue fixLine setValue
  split_ifs <;> simp

theorem fixLine_idem (x : partmasterLine) : fixLine (fixLine x) = fixLine x := by
  unfold fixLine
  by_cases hx : x.Value = "" ∧ x.MPN ≠ ""
  · have hm : ¬ x.MPN = "" := hx.2
    simp [hx, hm]
  · simp [hx]

theorem postProcess_apply (h : Heap) (temp : partmaster) (a : Nat) :
    postProcess h temp a = if a ∈ temp then fixLine (h a) else h a := by
  unfold postProcess
  induction temp generalizing h with
  | nil => simp
  | cons f fs ih =>
    simp only [List.foldl_cons]
    rw [ih, fixMissingValue_eq]
    by_cases haf : a = f
    · subst haf
      simp [fixLine_idem]
    · simp [Function.update, haf]

/-! ## Lemmas: columns -/

theorem KiCadServer.findColumnIndexFrom_nonneg_or (name : String) (hs : List String) (i : Nat) :
    findColumnIndexFrom name hs i = -1 ∨ (i : Int) ≤ findColumnIndexFrom name hs i := by
  induction hs generalizing i with
  | nil => left; rfl
  | cons x xs ih =>
    simp only [findColumnIndexFrom]
    split_ifs
    · right; exact le_refl _
    · rcases ih (i + 1) with h | h
      · left; exact h
      · right; push_cast at h; omega

theorem KiCadServer.findColumnIndexFrom_eq_neg_one (name : String) (hs : List String) (i : Nat) :
    findColumnIndexFrom name hs i = -1 ↔ name ∉ hs := by
  induction hs generalizing i with
  | nil => simp [findColumnIndexFrom]
  | cons x xs ih =>
    simp only [findColumnIndexFrom, List.mem_cons, not_or]
    split_ifs with hx
    · constructor
      · intro h; exact h.elim
      · intro h; exact absurd hx.symm h.1
    · rw [ih]
      constructor
      · intro h; exact ⟨fun e => hx e.symm, h⟩
      · intro h; exact h.2

/-- A found column is the first position holding the name. -/
theorem KiCadServer.findColumnIndexFrom_found (name : String) (hs : List String) (i : Nat)
    (hmem : name ∈ hs) :
    ∃ k, findColumnIndexFrom name hs i = ((i + k : Nat) : Int) ∧ hs[k]? = some name ∧
      ∀ j, j < k → hs[j]? ≠ some name := by
  induction hs generalizing i with
  | nil => cases hmem
  | cons x xs ih =>
    simp only [findColumnIndexFrom]
    split_ifs with hx
    · exact ⟨0, by simp, by simp [hx], fun j hj => absurd hj (Nat.not_lt_zero j)⟩
    · have hmem' : name ∈ xs := by
        rcases List.mem_cons.1 hmem with h | h
        · exact absurd h.symm hx
        · exact h
      obtain ⟨k, hk, hget, hfirst⟩ := ih (i + 1) hmem'
      refine ⟨k + 1, ?_, by simpa using hget, ?_⟩
      · rw [hk]; congr 1; omega
      · intro j hj
        cases j with
        | zero => simpa using hx
        | succ j => simpa using hfirst j (by omega)

theorem KiCadServer.findColumnIndexFrom_append_new (name : String) (hs : List String) (i : Nat)
    (hnot : name ∉ hs) :
    findColumnIndexFrom name (hs ++ [name]) i = ((i + hs.length : Nat) : Int) := by
  induction hs generalizing i with
  | nil => simp [findColumnIndexFrom]
  | cons x xs ih =>
    have hx : ¬ x = name := fun e => hnot (by simp [e])
    have hxs : name ∉ xs := fun e => hnot (by simp [e])
    rw [List.cons_append]
    simp only [findColumnIndexFrom, hx, if_false, List.length_cons]
    rw [ih (i + 1) hxs]; congr 1; omega

theorem KiCadServer.findColumnIndex_eq_neg_one (file : CSVFile) (name : String) :
    findColumnIndex file name = -1 ↔ name ∉ file.Headers :=
  findColumnIndexFrom_eq_neg_one name file.Headers 0

theorem KiCadServer.findColumnIndex_found (file : CSVFile) (name : String)
    (hmem : name ∈ file.Headers) :
    ∃ k : Nat, findColumnIndex file name = (k : Int) ∧ file.Headers[k]? = some name ∧
      ∀ j, j < k → file.Headers[j]? ≠ some name := by
  obtain ⟨k, hk, h1, h2⟩ := findColumnIndexFrom_found name file.Headers 0 hmem
  exact ⟨k, by simpa [findColumnIndex] using hk, h1, h2⟩

theorem KiCadServer.ensureColumn_of_mem (file : CSVFile) (name : String)
    (hmem : name ∈ file.Headers) :
    ensureColumn file name = (findColumnIndex file name, file) := by
  have hne : ¬ findColumnIndex file name = -1 := by
    rw [findColumnIndex_eq_neg_one]; exact fun h => h hmem
  simp [ensureColumn, hne]

theorem KiCadServer.ensureColumn_of_not_mem (file : CSVFile) (name : String)
    (hnot : name ∉ file.Headers) :
    ensureColumn file name =
      ((file.Headers.length : Int),
        { file with Headers := file.Headers ++ [name],
                    Rows := file.Rows.map (fun row => row ++ [""]) }) := by
  have hidx : findColumnIndex file name = -1 := (findColumnIndex_eq_neg_one file name).2 hnot
  simp [ensureColumn, hidx]

theorem KiCadServer.ensureColumn_again (file : CSVFile) (name : String) :
    ensureColumn (ensureColumn file name).2 name = ensureColumn file name := by
  by_cases hmem : name ∈ file.Headers
  · rw [ensureColumn_of_mem file name hmem]
    exact ensureColumn_of_mem file name hmem
  · rw [ensureColumn_of_not_mem file name hmem]
    rw [ensureColumn_of_mem _ name (by simp)]
    simp only [findColumnIndex]
    rw [findColumnIndexFrom_append_new name file.Headers 0 hmem]
    simp

theorem KiCadServer.ensureColumn_index_bounds (file : CSVFile) (name : String) :
    0 ≤ (ensureColumn file name).1 ∧
      (ensureColumn file name).1 < ((ensureColumn file name).2.Headers.length : Int) := by
  by_cases hmem : name ∈ file.Headers
  · rw [ensureColumn_of_mem file name hmem]
    obtain ⟨k, hk, hget, -⟩ := findColumnIndex_found file name hmem
    have hlt : k < file.Headers.length := by
      by_contra hge
      rw [List.getElem?_eq_none (by omega)] at hget
      cases hget
    simp only [hk]
    omega
  · rw [ensureColumn_of_not_mem file name hmem]
    simp

theorem KiCadServer.ensureColumn_rowsFit (file : CSVFile) (name : String) (hfit : RowsFit file) :
    RowsFit (ensureColumn file name).2 := by
  by_cases hmem : name ∈ file.Headers
  · rw [ensureColumn_of_mem file name hmem]; exact hfit
  · rw [ensureColumn_of_not_mem file name hmem]
    intro row hrow
    simp only [List.mem_map] at hrow
    obtain ⟨r, hr, rfl⟩ := hrow
    have := hfit r hr
    simp only [List.length_append, List.length_singleton]
    omega

theorem KiCadServer.ensureColumn_targetWide (file : CSVFile) (name : String) (rowIdx : Nat)
    (hw : TargetWide file rowIdx) : TargetWide (ensureColumn file name).2 rowIdx := by
  by_cases hmem : name ∈ file.Headers
  · rw [ensureColumn_of_mem file name hmem]; exact hw
  · rw [ensureColumn_of_not_mem file name hmem]
    obtain ⟨row, hrow, hlen⟩ := hw
    refine ⟨row ++ [""], ?_, ?_⟩
    · simp [List.getElem?_map, hrow]
    · simp only [List.length_append, List.length_singleton]; omega

/-! ## Lemmas: the row-width invariant -/

theorem KiCadServer.setCell_ok (file : CSVFile) (rowIdx : Nat) (col : Int) (v : String)
    (row : List String)
    (hrow : file.Rows[rowIdx]? = some row) (h0 : 0 ≤ col) (h1 : col < (row.length : Int)) :
    setCell file rowIdx col v =
      .ok { file with Rows := file.Rows.set rowIdx (row.set col.toNat v) } := by
  simp [setCell, hrow, h0, h1]

theorem KiCadServer.setCell_rowsFit (file file1 : CSVFile) (rowIdx : Nat) (col : Int) (v : String)
    (hok : setCell file rowIdx col v = .ok file1) (hfit : RowsFit file) : RowsFit file1 := by
  unfold setCell at hok
  cases hrow : file.Rows[rowIdx]? with
  | none => simp [hrow] at hok
  | some row =>
    simp only [hrow] at hok
    split_ifs at hok
    cases hok
    intro r hr
    rcases List.mem_or_eq_of_mem_set hr with hr | rfl
    · exact hfit r hr
    · have hmem : row ∈ file.Rows := List.getElem?_mem hrow
      simpa using hfit row hmem

theorem KiCadServer.setCell_targetWide (file : CSVFile) (rowIdx : Nat) (col : Int) (v : String)
    (hw : TargetWide file rowIdx) (h0 : 0 ≤ col) (h1 : col < (file.Headers.length : Int)) :
    ∃ file1, setCell file rowIdx col v = .ok file1 ∧ TargetWide file1 rowIdx ∧
      file1.Headers = file.Headers := by
  obtain ⟨row, hrow, hlen⟩ := hw
  have hlt : rowIdx < file.Rows.length := by
    by_contra hge
    rw [List.getElem?_eq_none (by omega)] at hrow
    cases hrow
  refine ⟨_, setCell_ok file rowIdx col v row hrow h0 (by omega), ?_, rfl⟩
  refine ⟨row.set col.toNat v, ?_, by simpa using hlen⟩
  simp [List.getElem?_set, hlt]

/-- Writing a freshly ensured column into the located row cannot fail. -/
theorem KiCadServer.ensure_then_set (file : CSVFile) (name v : String) (rowIdx : Nat)
    (hw : TargetWide file rowIdx) :
    ∃ file1,
      setCell (ensureColumn file name).2 rowIdx (ensureColumn file name).1 v = .ok file1 ∧
      TargetWide file1 rowIdx ∧ file1.Headers = (ensureColumn file name).2.Headers ∧
      (RowsFit file → RowsFit file1) := by
  obtain ⟨h0, h1⟩ := ensureColumn_index_bounds file name
  obtain ⟨file1, hok, hw1, hh⟩ := setCell_targetWide (ensureColumn file name).2 rowIdx
    (ensureColumn file name).1 v (ensureColumn_targetWide file name rowIdx hw) h0 h1
  exact ⟨file1, hok, hw1, hh, fun hfit =>
    setCell_rowsFit _ _ _ _ _ hok (ensureColumn_rowsFit file name hfit)⟩

theorem KiCadServer.length_makeCopy (n : Nat) (row : List String) :
    (makeCopy n row).length = n := by
  simp only [makeCopy, List.length_append, List.length_take, List.length_replicate]
  omega

theorem KiCadServer.padTargetRow_ok (file : CSVFile) (rowIdx : Nat)
    (hlt : rowIdx < file.Rows.length) :
    ∃ file1, padTargetRow file rowIdx = .ok file1 ∧ TargetWide file1 rowIdx ∧
      file1.Headers = file.Headers ∧ (RowsFit file → RowsFit file1) := by
  unfold padTargetRow
  have hrow : file.Rows[rowIdx]? = some file.Rows[rowIdx] := List.getElem?_eq_getElem hlt
  rw [hrow]
  by_cases hshort : file.Rows[rowIdx].length < file.Headers.length
  · simp only [hshort, if_true]
    refine ⟨_, rfl, ⟨makeCopy file.Headers.length file.Rows[rowIdx], ?_, ?_⟩, rfl, ?_⟩
    · simp [List.getElem?_set, hlt]
    · simp [length_makeCopy]
    · intro hfit r hr
      rcases List.mem_or_eq_of_mem_set hr with hr | rfl
      · exact hfit r hr
      · simp [length_makeCopy]
  · simp only [hshort, if_false]
    exact ⟨file, rfl, ⟨file.Rows[rowIdx], hrow, by omega⟩, rfl, fun h => h⟩

theorem KiCadServer.updateDescription_ok (file : CSVFile) (rowIdx : Nat) (req : PartUpdateRequest)
    (hw : TargetWide file rowIdx) :
    ∃ file1, updateDescription file rowIdx req = .ok file1 ∧ TargetWide file1 rowIdx ∧
      (RowsFit file → RowsFit file1) := by
  unfold updateDescription
  by_cases hd : req.Description = ""
  · simp only [hd, ne_eq, not_true_eq_false, if_false]
    exact ⟨file, rfl, hw, fun h => h⟩
  · simp only [ne_eq, hd, not_false_eq_true, if_true]
    obtain ⟨file1, hok, hw1, -, hfit⟩ := ensure_then_set file "Description" req.Description
      rowIdx hw
    exact ⟨file1, hok, hw1, hfit⟩

theorem KiCadServer.updateSource_ok (rowIdx : Nat) (file : CSVFile) (i : Nat) (src : PartSource)
    (hw : TargetWide file rowIdx) :
    ∃ file1, updateSource rowIdx file i src = .ok file1 ∧ TargetWide file1 rowIdx ∧
      (RowsFit file → RowsFit file1) := by
  unfold updateSource
  simp only
  set f1 := (ensureColumn file (sourceHeaders i).1).2 with hf1
  have hw1 : TargetWide f1 rowIdx := ensureColumn_targetWide file _ rowIdx hw
  set f2 := (ensureColumn f1 (sourceHeaders i).2).2 with hf2
  have hw2 : TargetWide f2 rowIdx := ensureColumn_targetWide f1 _ rowIdx hw1
  have hb1 := ensureColumn_index_bounds file (sourceHeaders i).1
  have hb2 := ensureColumn_index_bounds f1 (sourceHeaders i).2
  have hmono : (f1.Headers.length : Int) ≤ (f2.Headers.length : Int) := by
    by_cases hmem : (sourceHeaders i).2 ∈ f1.Headers
    · rw [hf2, ensureColumn_of_mem f1 _ hmem]
    · rw [hf2, ensureColumn_of_not_mem f1 _ hmem]; simp
  obtain ⟨f3, hok3, hw3, hh3⟩ := setCell_targetWide f2 rowIdx
    (ensureColumn file (sourceHeaders i).1).1 src.Manufacturer hw2 hb1.1
    (lt_of_lt_of_le hb1.2 hmono)
  obtain ⟨f4, hok4, hw4, -⟩ := setCell_targetWide f3 rowIdx
    (ensureColumn f1 (sourceHeaders i).2).1 src.MPN hw3 hb2.1 (by rw [hh3]; exact hb2.2)
  refine ⟨f4, ?_, hw4, ?_⟩
  · rw [hok3]; exact hok4
  · intro hfit
    exact setCell_rowsFit _ _ _ _ _ hok4 (setCell_rowsFit _ _ _ _ _ hok3
      (ensureColumn_rowsFit f1 _ (ensureColumn_rowsFit file _ hfit)))

theorem KiCadServer.updateSources_ok (rowIdx : Nat) (file : CSVFile) (i : Nat)
    (srcs : List PartSource)
    (hw : TargetWide file rowIdx) :
    ∃ file1, updateSources rowIdx file i srcs = .ok file1 ∧ TargetWide file1 rowIdx ∧
      (RowsFit file → RowsFit file1) := by
  induction srcs generalizing file i with
  | nil => exact ⟨file, rfl, hw, fun h => h⟩
  | cons src rest ih =>
    obtain ⟨f1, hok1, hw1, hfit1⟩ := updateSource_ok rowIdx file i src hw
    obtain ⟨f2, hok2, hw2, hfit2⟩ := ih f1 (i + 1) hw1
    refine ⟨f2, ?_, hw2, fun h => hfit2 (hfit1 h)⟩
    simp only [updateSources, hok1]
    exact hok2

theorem KiCadServer.updateRow_ok (file : CSVFile) (rowIdx : Nat) (req : PartUpdateRequest)
    (hlt : rowIdx < file.Rows.length) :
    ∃ file1, updateRow file rowIdx req = .ok file1 ∧ TargetWide file1 rowIdx ∧
      (RowsFit file → RowsFit file1) := by
  obtain ⟨f1, hok1, hw1, -, hfit1⟩ := padTargetRow_ok file rowIdx hlt
  obtain ⟨f2, hok2, hw2, hfit2⟩ := updateDescription_ok f1 rowIdx req hw1
  obtain ⟨f3, hok3, hw3, hfit3⟩ := updateSources_ok rowIdx f2 0 req.Sources hw2
  refine ⟨f3, ?_, hw3, fun h => hfit3 (hfit2 (hfit1 h))⟩
  simp only [updateRow, hok1, hok2]
  exact hok3

theorem KiCadServer.findRowFrom_some (ipnIdx : Int) (partID : String) (rows : List (List String))
    (i r : Nat) (hr : findRowFrom ipnIdx partID rows i = some r) :
    ∃ j row, r = i + j ∧ rows[j]? = some row ∧ 0 ≤ ipnIdx ∧
      ipnIdx < (row.length : Int) ∧
      row.getD ipnIdx.toNat "" = partID ∧
      ∀ j', j' < j → ∀ row', rows[j']? = some row' →
        ¬ (ipnIdx < (row'.length : Int) ∧ row'.getD ipnIdx.toNat "" = partID) := by
  induction rows generalizing i with
  | nil => simp [findRowFrom] at hr
  | cons row rest ih =>
    simp only [findRowFrom] at hr
    split_ifs at hr with hc
    · cases hr
      exact ⟨0, row, rfl, by simp, hc.1, hc.2.1, hc.2.2,
        fun j' hj' => absurd hj' (Nat.not_lt_zero j')⟩
    · obtain ⟨j, row1, hj, hget, h0, h1, h2, hfirst⟩ := ih (i + 1) hr
      refine ⟨j + 1, row1, by omega, by simpa using hget, h0, h1, h2, ?_⟩
      intro j' hj' row' hrow'
      cases j' with
      | zero =>
        simp only [List.getElem?_cons_zero, Option.some.injEq] at hrow'
        subst hrow'
        intro hcon
        exact hc ⟨h0, hcon.1, hcon.2⟩
      | succ j' => exact hfirst j' (by omega) row' (by simpa using hrow')

theorem KiCadServer.findPartFrom_some (partID : String) (files : List CSVFile) (k a r : Nat)
    (h : findPartFrom partID files k = some (a, r)) :
    ∃ j file, a = k + j ∧ files[j]? = some file ∧
      findRowFrom (findColumnIndex file "IPN") partID file.Rows 0 = some r := by
  induction files generalizing k with
  | nil => simp [findPartFrom] at h
  | cons file rest ih =>
    simp only [findPartFrom] at h
    cases hrow : findRowFrom (findColumnIndex file "IPN") partID file.Rows 0 with
    | some i =>
      rw [hrow] at h
      simp only [Option.some.injEq, Prod.mk.injEq] at h
      obtain ⟨rfl, rfl⟩ := h
      exact ⟨0, file, rfl, by simp, hrow⟩
    | none =>
      rw [hrow] at h
      obtain ⟨j, file1, hj, hget, hfound⟩ := ih (k + 1) h
      exact ⟨j + 1, file1, by omega, by simpa using hget, hfound⟩

/-- What `findPart` has located: a file of the collection and a row of it whose
IPN cell exists and equals `partID`. -/
theorem KiCadServer.findPart_some (files : List CSVFile) (partID : String) (k rowIdx : Nat)
    (h : findPart files partID = some (k, rowIdx)) :
    ∃ file row, files[k]? = some file ∧ file.Rows[rowIdx]? = some row ∧
      0 ≤ findColumnIndex file "IPN" ∧ findColumnIndex file "IPN" < (row.length : Int) ∧
      row.getD (findColumnIndex file "IPN").toNat "" = partID := by
  obtain ⟨j, file, hj, hget, hfound⟩ := findPartFrom_some partID files 0 k rowIdx h
  obtain ⟨i, row, hi, hrow, h0, h1, h2, -⟩ :=
    findRowFrom_some _ partID file.Rows 0 rowIdx hfound
  have hk : k = j := by omega
  have hr : rowIdx = i := by omega
  subst hk hr
  exact ⟨file, row, hget, hrow, h0, h1, h2⟩

theorem KiCadServer.rowsFit_set (files : List CSVFile) (k : Nat) (file1 : CSVFile)
    (hfit : ∀ file ∈ files, RowsFit file) (h1 : RowsFit file1) :
    ∀ file ∈ files.set k file1, RowsFit file := by
  intro file hfile
  rcases List.mem_or_eq_of_mem_set hfile with hm | rfl
  · exact hfit file hm
  · exact h1

/-- The in-memory part of `updatePart` succeeds on a located part; the located
row ends at least as wide as the header row, and the row-width invariant is
kept. -/
theorem KiCadServer.updatePart_ok (files : List CSVFile) (partID : String) (req : PartUpdateRequest)
    (k rowIdx : Nat) (hfound : findPart files partID = some (k, rowIdx)) :
    ∃ file file1, files[k]? = some file ∧ updateRow file rowIdx req = .ok file1 ∧
      updatePart files partID req = .ok (files.set k file1) ∧ TargetWide file1 rowIdx ∧
      (RowsFit file → RowsFit file1) := by
  obtain ⟨file, row, hfile, hrow, -, -, -⟩ := findPart_some files partID k rowIdx hfound
  have hlt : rowIdx < file.Rows.length := by
    by_contra hge
    rw [List.getElem?_eq_none (by omega)] at hrow
    cases hrow
  obtain ⟨file1, hok, hw, hfit⟩ := updateRow_ok file rowIdx req hlt
  refine ⟨file, file1, hfile, hok, ?_, hw, hfit⟩
  simp [updatePart, hfound, hfile, hok]

/-- The in-memory part of `startNewRevision` appends one row that is exactly
as wide as the header row. -/
theorem KiCadServer.startNewRevision_shape (files files' : List CSVFile) (partID newIPN : String)
    (h : startNewRevision files partID = .ok (files', newIPN)) :
    ∃ k file newRow, files[k]? = some file ∧ newRow.length = file.Headers.length ∧
      files' = files.set k { file with Rows := file.Rows ++ [newRow] } := by
  unfold startNewRevision at h
  cases hfound : findPart files partID with
  | none => simp [hfound] at h
  | some loc =>
    obtain ⟨k, rowIdx⟩ := loc
    simp only [hfound] at h
    cases hfile : files[k]? with
    | none => simp [hfile] at h
    | some file =>
      simp only [hfile] at h
      split_ifs at h with hneg
      cases hrow : file.Rows[rowIdx]? with
      | none => simp [hrow] at h
      | some row =>
        simp only [hrow] at h
        cases hcell : row[(findColumnIndex file "IPN").toNat]? with
        | none => simp [hcell] at h
        | some cell =>
          simp only [hcell] at h
          split at h
          · rename_i p0 p1 p2 hsplit
            cases hrev : atoi p2 with
            | none => simp [hrev] at h
            | some rev =>
              simp only [hrev] at h
              split_ifs at h with hlt
              simp only [Except.ok.injEq, Prod.mk.injEq] at h
              refine ⟨k, file, _, hfile, ?_, h.1.symm⟩
              simp [length_makeCopy]
          · cases h

/-- The in-memory part of `startNewRevision` never indexes out of range: it
returns an error before any write, or succeeds. -/
theorem KiCadServer.startNewRevision_no_panic (files : List CSVFile) (partID : String) :
    startNewRevision files partID ≠ .error .panic := by
  unfold startNewRevision
  cases hfound : findPart files partID with
  | none => simp
  | some loc =>
    obtain ⟨k, rowIdx⟩ := loc
    obtain ⟨file, row, hfile, hrow, h0, h1, -⟩ := findPart_some files partID k rowIdx hfound
    have hneg : ¬ findColumnIndex file "IPN" < 0 := by omega
    have hmem : "IPN" ∈ file.Headers := by
      by_contra hnot
      have := (findColumnIndex_eq_neg_one file "IPN").2 hnot
      omega
    obtain ⟨c, hc, hget, -⟩ := findColumnIndex_found file "IPN" hmem
    have hclt : c < file.Headers.length := by
      by_contra hge
      rw [List.getElem?_eq_none (by omega)] at hget
      cases hget
    have hcrow : c < row.length := by rw [hc] at h1; omega
    have hcell : row[c]? = some row[c] := List.getElem?_eq_getElem hcrow
    have hneg' : ¬ (c : Int) < 0 := by omega
    simp only [hfile, hrow, hc, hneg', if_false, Int.toNat_ofNat, hcell]
    split
    · cases atoi _ with
      | none => simp
      | some rev =>
        have hlt : c < (makeCopy file.Headers.length row).length := by
          rw [length_makeCopy]; exact hclt
        simp [hlt]
    · simp

/-! ## Claims on the catalog -/

/-- C1: when some row of the catalog has IPN `pn`, `findPartSources` succeeds
and the returned slice is a rearrangement of exactly the catalog entries whose
IPN is `pn` (each matching entry once, nothing else), in non-decreasing
`Priority` order; the call changes no row's IPN or Priority. -/
theorem findPartSources_exact_sorted (srt : (Nat → Nat → Bool) → List Nat → List Nat)
    (hs : SortContract srt) (h : Heap) (p : partmaster) (pn : String)
    (hm : ∃ l ∈ p, (h l).IPN = pn) :
    ∃ found h', findPartSources srt h p pn = .ok (found, h') ∧
      found.Perm (p.filter (fun l => decide ((h l).IPN = pn))) ∧
      (∀ a ∈ found, a ∈ p ∧ (h' a).IPN = pn) ∧
      (∀ a ∈ p, (h a).IPN = pn → a ∈ found) ∧
      found.Pairwise (fun a b => (h' a).Priority ≤ (h' b).Priority) ∧
      (∀ a, (h' a).IPN = (h a).IPN ∧ (h' a).Priority = (h a).Priority) := by
  obtain ⟨b, rest, hok, hperm, hsorted⟩ := findPartSources_sorted srt hs h p pn hm
  have hframe : ∀ a, (mergedHeap h b rest a).IPN = (h a).IPN ∧
      (mergedHeap h b rest a).Priority = (h a).Priority := fun a =>
    ⟨(mergedHeap_extends h b rest a).1, (mergedHeap_extends h b rest a).2.2.2.2.1⟩
  refine ⟨b :: rest, mergedHeap h b rest, hok, hperm, ?_, ?_, ?_, hframe⟩
  · intro a ha
    have := (List.mem_filter.1 (hperm.subset ha))
    exact ⟨this.1, by rw [(hframe a).1]; simpa using this.2⟩
  · intro a hap hpn
    exact hperm.symm.subset (List.mem_filter.2 ⟨hap, by simpa using hpn⟩)
  · refine hsorted.imp ?_
    intro x y hxy
    rw [(hframe x).2, (hframe y).2]; exact hxy

/-- Witness of C1 on the test catalog `pmIn`, for `CAP-001-1001`. -/
theorem findPartSources_exact_sorted_witness :
    ∃ found h', findPartSources insertionSortBy (heapOf pmIn) [0, 1, 2] "CAP-001-1001"
        = .ok (found, h') ∧
      found.Perm ([0, 1, 2].filter (fun l => decide ((heapOf pmIn l).IPN = "CAP-001-1001"))) ∧
      (∀ a ∈ found, a ∈ [0, 1, 2] ∧ (h' a).IPN = "CAP-001-1001") ∧
      (∀ a ∈ [0, 1, 2], (heapOf pmIn a).IPN = "CAP-001-1001" → a ∈ found) ∧
      found.Pairwise (fun a b => (h' a).Priority ≤ (h' b).Priority) ∧
      (∀ a, (h' a).IPN = (heapOf pmIn a).IPN ∧ (h' a).Priority = (heapOf pmIn a).Priority) :=
  findPartSources_exact_sorted insertionSortBy insertionSortBy_contract (heapOf pmIn) [0, 1, 2]
    "CAP-001-1001" ⟨0, by decide, by decide⟩

/-- C2 (the code at the failing input): two matching rows whose core fields
are all non-empty and different come back unchanged, so the returned entries
do not have the same Description, Footprint and Value. -/
theorem findPartSources_conflicting_sources :
    returnedLines (findPartSources insertionSortBy (heapOf conflictingSources) [0, 1]
        "RES-001-0001") =
      some [ ⟨"RES-001-0001", "10k resistor", "0603", "10k", "Yageo", "RC0603FR-0710KL", "", 1,
                ""⟩,
             ⟨"RES-001-0001", "RES 10K OHM 1%", "R_0603", "10k0", "Vishay",
                "CRCW060310K0FKEA", "", 2, ""⟩ ] := by
  decide

/-- C3: when some row has IPN `pn`, `findPart` returns the first entry `b` of
what `findPartSources` returns; `b` is a matching row of minimum Priority, the
other returned entries `rest` are the remaining matching rows in
non-decreasing Priority order, and each of `b`'s Description, Footprint and
Value is its own original value when that was non-empty and otherwise the
first non-empty original value of the field along `rest` (the empty string
when there is none). -/
theorem findPart_base_resolved (srt : (Nat → Nat → Bool) → List Nat → List Nat)
    (hs : SortContract srt) (h : Heap) (p : partmaster) (pn : String)
    (hm : ∃ l ∈ p, (h l).IPN = pn) :
    ∃ b rest h', findPartSources srt h p pn = .ok (b :: rest, h') ∧
      findPart srt h p pn = .ok (b, h') ∧
      (b :: rest).Perm (p.filter (fun l => decide ((h l).IPN = pn))) ∧
      b ∈ p ∧ (h b).IPN = pn ∧
      (∀ a ∈ p, (h a).IPN = pn → (h b).Priority ≤ (h a).Priority) ∧
      rest.Pairwise (fun x y => (h x).Priority ≤ (h y).Priority) ∧
      (h' b).Description =
        (if (h b).Description ≠ "" then (h b).Description
         else firstNonEmpty (rest.map (fun a => (h a).Description))) ∧
      (h' b).Footprint =
        (if (h b).Footprint ≠ "" then (h b).Footprint
         else firstNonEmpty (rest.map (fun a => (h a).Footprint))) ∧
      (h' b).Value =
        (if (h b).Value ≠ "" then (h b).Value
         else firstNonEmpty (rest.map (fun a => (h a).Value))) := by
  obtain ⟨b, rest, hok, hperm, hsorted⟩ := findPartSources_sorted srt hs h p pn hm
  rw [List.pairwise_cons] at hsorted
  have hb := List.mem_filter.1 (hperm.subset (List.mem_cons_self b rest))
  refine ⟨b, rest, mergedHeap h b rest, hok, ?_, hperm, hb.1, by simpa using hb.2, ?_,
    hsorted.2, ?_, ?_, ?_⟩
  · simp [findPart, hok]
  · intro a hap hpn
    have ha : a ∈ b :: rest :=
      hperm.symm.subset (List.mem_filter.2 ⟨hap, by simpa using hpn⟩)
    rcases List.mem_cons.1 ha with rfl | ha
    · exact le_refl _
    · exact hsorted.1 a ha
  · rw [mergedHeap_base]; exact resolvedBase_Description h b rest
  · rw [mergedHeap_base]; exact resolvedBase_Footprint h b rest
  · rw [mergedHeap_base]; exact resolvedBase_Value h b rest

/-- Witness of C3 on the test catalog `pmIn`, for `CAP-001-1001`. -/
theorem findPart_base_resolved_witness :
    ∃ b rest h', findPartSources insertionSortBy (heapOf pmIn) [0, 1, 2] "CAP-001-1001"
        = .ok (b :: rest, h') ∧
      findPart insertionSortBy (heapOf pmIn) [0, 1, 2] "CAP-001-1001" = .ok (b, h') ∧
      (b :: rest).Perm
        ([0, 1, 2].filter (fun l => decide ((heapOf pmIn l).IPN = "CAP-001-1001"))) ∧
      b ∈ [0, 1, 2] ∧ (heapOf pmIn b).IPN = "CAP-001-1001" ∧
      (∀ a ∈ [0, 1, 2], (heapOf pmIn a).IPN = "CAP-001-1001" →
        (heapOf pmIn b).Priority ≤ (heapOf pmIn a).Priority) ∧
      rest.Pairwise (fun x y => (heapOf pmIn x).Priority ≤ (heapOf pmIn y).Priority) ∧
      (h' b).Description =
        (if (heapOf pmIn b).Description ≠ "" then (heapOf pmIn b).Description
         else firstNonEmpty (rest.map (fun a => (heapOf pmIn a).Description))) ∧
      (h' b).Footprint =
        (if (heapOf pmIn b).Footprint ≠ "" then (heapOf pmIn b).Footprint
         else firstNonEmpty (rest.map (fun a => (heapOf pmIn a).Footprint))) ∧
      (h' b).Value =
        (if (heapOf pmIn b).Value ≠ "" then (heapOf pmIn b).Value
         else firstNonEmpty (rest.map (fun a => (heapOf pmIn a).Value))) :=
  findPart_base_resolved insertionSortBy insertionSortBy_contract (heapOf pmIn) [0, 1, 2]
    "CAP-001-1001" ⟨0, by decide, by decide⟩

/-- C4: every returned entry after the first keeps each of its Description,
Footprint and Value that was non-empty before the call, and where the field
was empty it holds the resolved value of that field of the first returned
entry (the base). -/
theorem findPartSources_others_backfilled (srt : (Nat → Nat → Bool) → List Nat → List Nat)
    (hs : SortContract srt) (h : Heap) (p : partmaster) (pn : String)
    (hm : ∃ l ∈ p, (h l).IPN = pn) :
    ∃ b rest h', findPartSources srt h p pn = .ok (b :: rest, h') ∧
      ∀ a ∈ rest,
        (h' a).Description =
          (if (h a).Description ≠ "" then (h a).Description else (h' b).Description) ∧
        (h' a).Footprint =
          (if (h a).Footprint ≠ "" then (h a).Footprint else (h' b).Footprint) ∧
        (h' a).Value =
          (if (h a).Value ≠ "" then (h a).Value else (h' b).Value) := by
  obtain ⟨b, rest, -, hok⟩ := findPartSources_ok srt hs h p pn hm
  refine ⟨b, rest, mergedHeap h b rest, hok, ?_⟩
  intro a ha
  rw [mergedHeap_rest h b rest a ha]
  refine ⟨?_, ?_, ?_⟩
  · by_cases hx : (h a).Description = "" <;> simp [fillBlank, hx]
  · by_cases hx : (h a).Footprint = "" <;> simp [fillBlank, hx]
  · by_cases hx : (h a).Value = "" <;> simp [fillBlank, hx]

/-- Witness of C4 on the test catalog `pmIn`, for `CAP-001-1001`. -/
theorem findPartSources_others_backfilled_witness :
    ∃ b rest h', findPartSources insertionSortBy (heapOf pmIn) [0, 1, 2] "CAP-001-1001"
        = .ok (b :: rest, h') ∧
      ∀ a ∈ rest,
        (h' a).Description =
          (if (heapOf pmIn a).Description ≠ "" then (heapOf pmIn a).Description
           else (h' b).Description) ∧
        (h' a).Footprint =
          (if (heapOf pmIn a).Footprint ≠ "" then (heapOf pmIn a).Footprint
           else (h' b).Footprint) ∧
        (h' a).Value =
          (if (heapOf pmIn a).Value ≠ "" then (heapOf pmIn a).Value else (h' b).Value) :=
  findPartSources_others_backfilled insertionSortBy insertionSortBy_contract (heapOf pmIn)
    [0, 1, 2] "CAP-001-1001" ⟨0, by decide, by decide⟩

/-- C5: `findPartSources` and `findPart` fail exactly when no catalog row has
IPN `pn`, the failure is the returned error "Part not found", and a slice
returned by `findPartSources` is never empty. -/
theorem findPart_not_found_iff (srt : (Nat → Nat → Bool) → List Nat → List Nat)
    (hs : SortContract srt) (h : Heap) (p : partmaster) (pn : String) :
    ((∃ e, findPartSources srt h p pn = .error e) ↔ ¬ ∃ l ∈ p, (h l).IPN = pn) ∧
    ((∃ e, findPart srt h p pn = .error e) ↔ ¬ ∃ l ∈ p, (h l).IPN = pn) ∧
    (∀ e, findPartSources srt h p pn = .error e → e = .error "Part not found") ∧
    (∀ e, findPart srt h p pn = .error e → e = .error "Part not found") ∧
    (∀ found h', findPartSources srt h p pn = .ok (found, h') → found ≠ []) := by
  by_cases hm : ∃ l ∈ p, (h l).IPN = pn
  · obtain ⟨b, rest, -, hok⟩ := findPartSources_ok srt hs h p pn hm
    have hfp : findPart srt h p pn = .ok (b, mergedHeap h b rest) := by simp [findPart, hok]
    refine ⟨?_, ?_, ?_, ?_, ?_⟩
    · simp [hok, hm]
    · simp [hfp, hm]
    · intro e he; rw [hok] at he; cases he
    · intro e he; rw [hfp] at he; cases he
    · intro found h' he
      rw [hok] at he
      cases he
      simp
  · have herr := findPartSources_error srt h p pn hm
    have hfp : findPart srt h p pn = .error (.error "Part not found") := by
      simp [findPart, herr]
    refine ⟨?_, ?_, ?_, ?_, ?_⟩
    · simp [herr, hm]
    · simp [hfp, hm]
    · intro e he; rw [herr] at he; cases he; rfl
    · intro e he; rw [hfp] at he; cases he; rfl
    · intro found h' he; rw [herr] at he; cases he

/-- Witness of C5 on the test catalog `pmIn`, for the absent part `CAP-001-1003`. -/
theorem findPart_not_found_iff_witness :
    ((∃ e, findPartSources insertionSortBy (heapOf pmIn) [0, 1, 2] "CAP-001-1003" = .error e) ↔
      ¬ ∃ l ∈ [0, 1, 2], (heapOf pmIn l).IPN = "CAP-001-1003") ∧
    ((∃ e, findPart insertionSortBy (heapOf pmIn) [0, 1, 2] "CAP-001-1003" = .error e) ↔
      ¬ ∃ l ∈ [0, 1, 2], (heapOf pmIn l).IPN = "CAP-001-1003") ∧
    (∀ e, findPartSources insertionSortBy (heapOf pmIn) [0, 1, 2] "CAP-001-1003" = .error e →
      e = .error "Part not found") ∧
    (∀ e, findPart insertionSortBy (heapOf pmIn) [0, 1, 2] "CAP-001-1003" = .error e →
      e = .error "Part not found") ∧
    (∀ found h', findPartSources insertionSortBy (heapOf pmIn) [0, 1, 2] "CAP-001-1003"
        = .ok (found, h') → found ≠ []) :=
  findPart_not_found_iff insertionSortBy insertionSortBy_contract (heapOf pmIn) [0, 1, 2]
    "CAP-001-1003"

/-- C6 (counterexample): with one source of priority `1` (row 0) and one
source whose Priority cell is empty (row 1), the row without a priority is
returned first, before the row with a parsable priority, and it is the row
`findPart` chooses.  The same order results from every sorting routine that
meets the contract of `sort.Sort`, and whatever integer `v` the field holds
for the empty cell when the sibling has the parsable priority `v + 1`. -/
theorem emptyPriority_sorts_first :
    returnedRows (findPartSources insertionSortBy (heapOf unrankedSource) [0, 1]
      "CAP-001-1001") = some [1, 0] ∧
    (returnedLine (findPart insertionSortBy (heapOf unrankedSource) [0, 1]
      "CAP-001-1001")).map (fun l => l.MPN) = some "abc2323" ∧
    (∀ (v : Int) (srt : (Nat → Nat → Bool) → List Nat → List Nat), SortContract srt →
      returnedRows (findPartSources srt (heapOf (unrankedSourceAt v)) [0, 1] "CAP-001-1001")
        = some [1, 0]) :=
  ⟨by decide, by decide, unranked_first_any_value⟩

/-- C6 (amended): a matching row whose Priority cell was empty holds
`emptyPriority = 0` in the `int` field and is ordered by that value like any
other row: in the returned slice it stands before every row of positive
priority and after every row of negative priority. -/
theorem emptyPriority_ordered_by_value (srt : (Nat → Nat → Bool) → List Nat → List Nat)
    (hs : SortContract srt) (h : Heap) (p : partmaster) (pn : String)
    (hm : ∃ l ∈ p, (h l).IPN = pn) :
    ∃ found h', findPartSources srt h p pn = .ok (found, h') ∧
      ∀ (i j : Nat) (hi : i < found.length) (hj : j < found.length),
        (h' found[i]).Priority = emptyPriority →
          (0 < (h' found[j]).Priority → i < j) ∧ ((h' found[j]).Priority < 0 → j < i) := by
  obtain ⟨b, rest, hok, -, hsorted⟩ := findPartSources_sorted srt hs h p pn hm
  refine ⟨b :: rest, mergedHeap h b rest, hok, ?_⟩
  have hprio : ∀ a, (mergedHeap h b rest a).Priority = (h a).Priority := fun a =>
    (mergedHeap_extends h b rest a).2.2.2.2.1
  intro i j hi hj hz
  rw [List.pairwise_iff_getElem] at hsorted
  simp only [emptyPriority, hprio] at hz
  simp only [hprio]
  constructor
  · intro hpos
    by_contra hij
    rcases Nat.lt_or_eq_of_le (Nat.le_of_not_lt hij) with hlt | heq
    · have := hsorted j i hj hi hlt
      omega
    · subst heq; omega
  · intro hneg
    by_contra hij
    rcases Nat.lt_or_eq_of_le (Nat.le_of_not_lt hij) with hlt | heq
    · have := hsorted i j hi hj hlt
      omega
    · subst heq; omega

/-- Witness of the amended C6 on `unrankedSource`. -/
theorem emptyPriority_ordered_by_value_witness :
    ∃ found h', findPartSources insertionSortBy (heapOf unrankedSource) [0, 1] "CAP-001-1001"
        = .ok (found, h') ∧
      ∀ (i j : Nat) (hi : i < found.length) (hj : j < found.length),
        (h' found[i]).Priority = emptyPriority →
          (0 < (h' found[j]).Priority → i < j) ∧ ((h' found[j]).Priority < 0 → j < i) :=
  emptyPriority_ordered_by_value insertionSortBy insertionSortBy_contract
    (heapOf unrankedSource) [0, 1] "CAP-001-1001" ⟨0, by decide, by decide⟩

/-- C7: the post-processing loop of `loadPartmasterFromDir` sets `Value` to
the row's `MPN` on exactly the rows of the file whose `Value` is empty and
whose `MPN` is non-empty (every other field of such a row is kept), leaves
every other row as it was, and running it again on its own output changes
nothing. -/
theorem postProcess_value_default (h : Heap) (temp : partmaster) :
    (∀ a ∈ temp, (h a).Value = "" → (h a).MPN ≠ "" →
      postProcess h temp a = { h a with Value := (h a).MPN }) ∧
    (∀ a, (a ∉ temp ∨ (h a).Value ≠ "" ∨ (h a).MPN = "") →
      postProcess h temp a = h a) ∧
    postProcess (postProcess h temp) temp = postProcess h temp ∧
    (∀ part, fixMissingValue (fixMissingValue h part) part = fixMissingValue h part) := by
  refine ⟨?_, ?_, ?_, ?_⟩
  · intro a ha hv hm
    rw [postProcess_apply]
    simp [ha, fixLine, hv, hm]
  · intro a ha
    rw [postProcess_apply]
    by_cases hat : a ∈ temp
    · rcases ha with ha | ha | ha
      · exact absurd hat ha
      · simp [hat, fixLine, ha]
      · simp [hat, fixLine, ha]
    · simp [hat]
  · funext a
    rw [postProcess_apply, postProcess_apply]
    by_cases hat : a ∈ temp <;> simp [hat, fixLine_idem]
  · intro part
    rw [fixMissingValue_eq, fixMissingValue_eq]
    simp [fixLine_idem]

/-! ## Claims on the store -/

/-- C8: calling `ensureColumn` a second time with the same name returns the
same index as the first call and leaves the file (name, headers and every
row) exactly as the first call left it. -/
theorem ensureColumn_twice (file : CSVFile) (name : String) :
    (KiCadServer.ensureColumn (KiCadServer.ensureColumn file name).2 name).1 =
      (KiCadServer.ensureColumn file name).1 ∧
    (KiCadServer.ensureColumn (KiCadServer.ensureColumn file name).2 name).2.Headers =
      (KiCadServer.ensureColumn file name).2.Headers ∧
    (KiCadServer.ensureColumn (KiCadServer.ensureColumn file name).2 name).2.Rows =
      (KiCadServer.ensureColumn file name).2.Rows ∧
    (KiCadServer.ensureColumn (KiCadServer.ensureColumn file name).2 name).2 =
      (KiCadServer.ensureColumn file name).2 := by
  rw [KiCadServer.ensureColumn_again]
  exact ⟨rfl, rfl, rfl, rfl⟩

/-- C9: if `name` is already a header, `ensureColumn` returns the position of
its first exact occurrence and leaves the file unchanged; otherwise it returns
the old header count, the headers become the old headers followed by `name`
and every row becomes its old cells followed by one empty cell.  In both
cases the number of rows is kept and every header and every cell that was
there keeps its position and value. -/
theorem ensureColumn_effect (file : CSVFile) (name : String) :
    (name ∈ file.Headers →
      (KiCadServer.ensureColumn file name).2 = file ∧
      ∃ k : Nat, (KiCadServer.ensureColumn file name).1 = (k : Int) ∧
        file.Headers[k]? = some name ∧ ∀ j, j < k → file.Headers[j]? ≠ some name) ∧
    (name ∉ file.Headers →
      (KiCadServer.ensureColumn file name).1 = (file.Headers.length : Int) ∧
      (KiCadServer.ensureColumn file name).2.Headers = file.Headers ++ [name] ∧
      (KiCadServer.ensureColumn file name).2.Rows = file.Rows.map (fun row => row ++ [""]) ∧
      (KiCadServer.ensureColumn file name).2.Name = file.Name) ∧
    (∀ (i : Nat) (x : String), file.Headers[i]? = some x →
      (KiCadServer.ensureColumn file name).2.Headers[i]? = some x) ∧
    (KiCadServer.ensureColumn file name).2.Rows.length = file.Rows.length ∧
    (∀ (r : Nat) (row : List String), file.Rows[r]? = some row →
      ∃ row', (KiCadServer.ensureColumn file name).2.Rows[r]? = some row' ∧
        ∀ (c : Nat) (v : String), row[c]? = some v → row'[c]? = some v) := by
  by_cases hmem : name ∈ file.Headers
  · rw [KiCadServer.ensureColumn_of_mem file name hmem]
    refine ⟨fun _ => ⟨rfl, KiCadServer.findColumnIndex_found file name hmem⟩,
      fun hn => absurd hmem hn, fun i x hx => hx, rfl,
      fun r row hr => ⟨row, hr, fun c v hv => hv⟩⟩
  · rw [KiCadServer.ensureColumn_of_not_mem file name hmem]
    refine ⟨fun hm => absurd hm hmem, fun _ => ⟨rfl, rfl, rfl, rfl⟩, ?_, by simp, ?_⟩
    · intro i x hx
      have hlt : i < file.Headers.length := by
        by_contra hge
        rw [List.getElem?_eq_none (by omega)] at hx
        cases hx
      simpa [List.getElem?_append_left hlt] using hx
    · intro r row hr
      refine ⟨row ++ [""], by simp [List.getElem?_map, hr], ?_⟩
      intro c v hv
      have hlt : c < row.length := by
        by_contra hge
        rw [List.getElem?_eq_none (by omega)] at hv
        cases hv
      simpa [List.getElem?_append_left hlt] using hv

/-- C10: if no row of any file has more cells than its file has headers, the
same holds after `ensureColumn`, after the in-memory part of `updatePart`
(which succeeds on every located part and leaves the located row with exactly
as many cells as there are headers) and after the in-memory part of
`startNewRevision` (which never panics: it returns an error before any write,
or appends a row). -/
theorem rowsFit_preserved (files : List CSVFile) (partID : String) (req : PartUpdateRequest)
    (name : String) (hfit : ∀ file ∈ files, RowsFit file) :
    (∀ file ∈ files, RowsFit (KiCadServer.ensureColumn file name).2) ∧
    (∀ k rowIdx, KiCadServer.findPart files partID = some (k, rowIdx) →
      ∃ files', KiCadServer.updatePart files partID req = .ok files' ∧
        (∀ file ∈ files', RowsFit file) ∧
        ∃ file' row, files'[k]? = some file' ∧ file'.Rows[rowIdx]? = some row ∧
          row.length = file'.Headers.length) ∧
    KiCadServer.startNewRevision files partID ≠ .error .panic ∧
    (∀ files' newIPN, KiCadServer.startNewRevision files partID = .ok (files', newIPN) →
      ∀ file ∈ files', RowsFit file) := by
  refine ⟨fun file hfile => KiCadServer.ensureColumn_rowsFit file name (hfit file hfile), ?_,
    KiCadServer.startNewRevision_no_panic files partID, ?_⟩
  · intro k rowIdx hfound
    obtain ⟨file, file1, hfile, -, hok, hw, hkeep⟩ :=
      KiCadServer.updatePart_ok files partID req k rowIdx hfound
    have hfit1 : RowsFit file1 := hkeep (hfit file (List.getElem?_mem hfile))
    refine ⟨_, hok, KiCadServer.rowsFit_set files k file1 hfit hfit1, ?_⟩
    obtain ⟨row, hrow, hge⟩ := hw
    have hk : k < files.length := by
      by_contra hge'
      rw [List.getElem?_eq_none (by omega)] at hfile
      cases hfile
    refine ⟨file1, row, by simp [List.getElem?_set, hk], hrow, ?_⟩
    exact le_antisymm (hfit1 row (List.getElem?_mem hrow)) hge
  · intro files' newIPN hok
    obtain ⟨k, file, newRow, hfile, hlen, rfl⟩ :=
      KiCadServer.startNewRevision_shape files files' partID newIPN hok
    refine KiCadServer.rowsFit_set files k _ hfit ?_
    intro row hrow
    simp only [List.mem_append, List.mem_singleton] at hrow
    rcases hrow with hrow | rfl
    · exact hfit file (List.getElem?_mem hfile) row hrow
    · exact le_of_eq hlen

/-- Witness of C10 on the store `capFile`: the update of `CAP-002-0001`, whose
row is shorter than the header row, and the new revision of `CAP-001-0004`. -/
theorem rowsFit_preserved_witness :
    (∀ file ∈ [capFile], RowsFit file) ∧
    ((∀ file ∈ [capFile], RowsFit (KiCadServer.ensureColumn file "MPN").2) ∧
      (∀ k rowIdx, KiCadServer.findPart [capFile] "CAP-002-0001" = some (k, rowIdx) →
        ∃ files', KiCadServer.updatePart [capFile] "CAP-002-0001"
            ⟨"tantalum 10u", [⟨"Kemet", "T491"⟩, ⟨"AVX", "TAJ"⟩]⟩ = .ok files' ∧
          (∀ file ∈ files', RowsFit file) ∧
          ∃ file' row, files'[k]? = some file' ∧ file'.Rows[rowIdx]? = some row ∧
            row.length = file'.Headers.length) ∧
      KiCadServer.startNewRevision [capFile] "CAP-002-0001" ≠ .error .panic ∧
      (∀ files' newIPN,
        KiCadServer.startNewRevision [capFile] "CAP-002-0001" = .ok (files', newIPN) →
        ∀ file ∈ files', RowsFit file)) ∧
    KiCadServer.findPart [capFile] "CAP-002-0001" = some (0, 1) ∧
    (KiCadServer.startNewRevision [capFile] "CAP-002-0001").toOption.map (fun r => r.2)
      = some "CAP-002-0002" :=
  ⟨by decide,
   rowsFit_preserved [capFile] "CAP-002-0001"
     ⟨"tantalum 10u", [⟨"Kemet", "T491"⟩, ⟨"AVX", "TAJ"⟩]⟩ "MPN" (by decide),
   by decide, by decide⟩

/-! ## Lemmas: what `findPart` finds -/

theorem KiCadServer.findRowFrom_eq_none (ipnIdx : Int) (partID : String)
    (rows : List (List String)) (i : Nat) :
    findRowFrom ipnIdx partID rows i = none ↔
      ∀ row ∈ rows, ¬ (0 ≤ ipnIdx ∧ ipnIdx < (row.length : Int) ∧
        row.getD ipnIdx.toNat "" = partID) := by
  induction rows generalizing i with
  | nil => simp [findRowFrom]
  | cons row rest ih =>
    simp only [findRowFrom, List.mem_cons, forall_eq_or_imp]
    split_ifs with hc
    · constructor
      · intro h; cases h
      · intro h; exact absurd ⟨hc.1, hc.2.1, hc.2.2⟩ h.1
    · rw [ih]
      constructor
      · intro h
        exact ⟨fun hcon => hc ⟨hcon.1, hcon.2.1, hcon.2.2⟩, h⟩
      · intro h; exact h.2

theorem KiCadServer.findPartFrom_eq_none (partID : String) (files : List CSVFile) (k : Nat) :
    findPartFrom partID files k = none ↔
      ∀ file ∈ files, findRowFrom (findColumnIndex file "IPN") partID file.Rows 0 = none := by
  induction files generalizing k with
  | nil => simp [findPartFrom]
  | cons file rest ih =>
    simp only [findPartFrom, List.mem_cons, forall_eq_or_imp]
    cases hrow : findRowFrom (findColumnIndex file "IPN") partID file.Rows 0 with
    | some i => simp
    | none => simp [ih]

/-- The return `nil, -1` of `findPart` means that no row of any file has the
identity-column value `partID`. -/
theorem KiCadServer.findPart_eq_none (files : List CSVFile) (partID : String) :
    findPart files partID = none ↔
      ∀ file ∈ files, ∀ row ∈ file.Rows, ipnCell file row ≠ some partID := by
  unfold findPart
  rw [findPartFrom_eq_none]
  constructor
  · intro h file hfile row hrow hcell
    have hnone := (findRowFrom_eq_none _ partID file.Rows 0).1 (h file hfile) row hrow
    unfold ipnCell at hcell
    split_ifs at hcell with hc
    simp only [Option.some.injEq] at hcell
    exact hnone ⟨hc.1, hc.2, hcell⟩
  · intro h file hfile
    rw [findRowFrom_eq_none]
    intro row hrow hc
    exact h file hfile row hrow (by rw [ipnCell, if_pos ⟨hc.1, hc.2.1⟩, hc.2.2])

/-- The row `findPart` has located carries `partID` in its identity column. -/
theorem KiCadServer.findPart_ipnCell (files : List CSVFile) (partID : String) (k rowIdx : Nat)
    (h : findPart files partID = some (k, rowIdx)) :
    ∃ file row, files[k]? = some file ∧ file.Rows[rowIdx]? = some row ∧
      ipnCell file row = some partID := by
  obtain ⟨file, row, hfile, hrow, h0, h1, h2⟩ := findPart_some files partID k rowIdx h
  exact ⟨file, row, hfile, hrow, by rw [ipnCell, if_pos ⟨h0, h1⟩, h2]⟩

/-- The in-memory part of `startNewRevision` on a located part, as a function
of `partID` alone: the identity value it splits is `partID` itself. -/
theorem KiCadServer.startNewRevision_located (files : List CSVFile) (partID : String)
    (k rowIdx : Nat) (h : findPart files partID = some (k, rowIdx)) :
    ∃ file row, ∃ c : Nat, files[k]? = some file ∧ file.Rows[rowIdx]? = some row ∧
      findColumnIndex file "IPN" = (c : Int) ∧ c < file.Headers.length ∧ c < row.length ∧
      row[c]? = some partID ∧
      startNewRevision files partID =
        match stringsSplitDash partID with
        | [p0, p1, p2] =>
          match atoi p2 with
          | none => .error (.error "invalid revision")
          | some rev =>
            .ok (files.set k
              { file with
                Rows := file.Rows ++
                  [(makeCopy file.Headers.length row).set c
                    (stringsJoinDash [p0, p1, sprintf04d (incrInt rev)])] },
              stringsJoinDash [p0, p1, sprintf04d (incrInt rev)])
        | _ => .error (.error "invalid IPN format") := by
  obtain ⟨file, row, hfile, hrow, h0, h1, h2⟩ := findPart_some files partID k rowIdx h
  have hmem : "IPN" ∈ file.Headers := by
    by_contra hnot
    have := (findColumnIndex_eq_neg_one file "IPN").2 hnot
    omega
  obtain ⟨c, hc, hget, -⟩ := findColumnIndex_found file "IPN" hmem
  have hclt : c < file.Headers.length := by
    by_contra hge
    rw [List.getElem?_eq_none (by omega)] at hget
    cases hget
  have hcrow : c < row.length := by rw [hc] at h1; omega
  have hcell : row[c]? = some partID := by
    rw [hc, Int.toNat_ofNat] at h2
    rw [List.getElem?_eq_getElem hcrow, ← h2, List.getD_eq_getElem _ _ hcrow]
  refine ⟨file, row, c, hfile, hrow, hc, hclt, hcrow, hcell, ?_⟩
  have hneg' : ¬ (c : Int) < 0 := by omega
  unfold startNewRevision
  simp only [h, hfile, hrow, hc, hneg', if_false, Int.toNat_ofNat, hcell]
  split
  · rename_i p0 p1 p2 hsplit
    cases atoi p2 with
    | none => rfl
    | some rev =>
      have hlt : c < (makeCopy file.Headers.length row).length := by
        rw [length_makeCopy]; exact hclt
      simp [hlt]
  · rfl

/-! ## Lemmas: decimal rendering -/

theorem digitsValue_append_singleton (pre : List Char) (d : Char) :
    digitsValue (pre ++ [d]) = digitsValue pre * 10 + (d.toNat - '0'.toNat) := by
  simp [digitsValue, List.foldl_append]

theorem digitChar_decimal (m : Nat) (hm : m < 10) :
    isDecimalDigit (Nat.digitChar m) = true ∧ (Nat.digitChar m).toNat - '0'.toNat = m ∧
      (0 < m → Nat.digitChar m ≠ '0') := by
  interval_cases m <;> decide

/-- The digits `Nat.toDigitsCore` puts in front of `ds`: decimal digits whose
value is `n`, without a leading zero unless `n = 0`. -/
theorem toDigitsCore_decimal (fuel n : Nat) (ds : List Char) (hf : n < fuel) :
    ∃ pre, Nat.toDigitsCore 10 fuel n ds = pre ++ ds ∧ pre.all isDecimalDigit = true ∧
      digitsValue pre = n ∧ pre ≠ [] ∧ (0 < n → pre.head? ≠ some '0') := by
  induction fuel generalizing n ds with
  | zero => omega
  | succ fuel ih =>
    obtain ⟨hd1, hd2, hd3⟩ := digitChar_decimal (n % 10) (Nat.mod_lt _ (by decide))
    simp only [Nat.toDigitsCore]
    by_cases hq : n / 10 = 0
    · simp only [hq, if_true]
      have hn : n < 10 := by omega
      have hmod : n % 10 = n := Nat.mod_eq_of_lt hn
      refine ⟨[Nat.digitChar (n % 10)], by simp, by simp [hd1], ?_, by simp, ?_⟩
      · simp [digitsValue]
        rw [← hmod] at hd2 ⊢
        simpa using hd2
      · intro hpos
        have h0 := hd3 (by omega)
        simpa using h0
    · simp only [hq, if_false]
      obtain ⟨pre, hpre, hall, hval, hne, hhead⟩ :=
        ih (n / 10) (Nat.digitChar (n % 10) :: ds) (by omega)
      refine ⟨pre ++ [Nat.digitChar (n % 10)], by simp [hpre], ?_, ?_, by simp, ?_⟩
      · simp [List.all_append, hall, hd1]
      · rw [digitsValue_append_singleton, hval, hd2]; omega
      · intro _
        have h0 := hhead (by omega)
        cases pre with
        | nil => exact absurd rfl hne
        | cons x xs => simpa using h0

/-- The decimal rendering `Nat.repr m`: decimal digits whose value is `m`,
without a leading zero unless `m = 0`. -/
theorem repr_decimal (m : Nat) :
    (Nat.repr m).toList.all isDecimalDigit = true ∧ digitsValue (Nat.repr m).toList = m ∧
      (Nat.repr m).toList ≠ [] ∧ (0 < m → (Nat.repr m).toList.head? ≠ some '0') := by
  obtain ⟨pre, hpre, hall, hval, hne, hhead⟩ := toDigitsCore_decimal (m + 1) m [] (by omega)
  have hrepr : (Nat.repr m).toList = pre := by
    simp [Nat.repr, Nat.toDigits, hpre, List.asString]
  rw [hrepr]
  exact ⟨hall, hval, hne, hhead⟩

theorem repr_injective (a b : Nat) (h : Nat.repr a = Nat.repr b) : a = b := by
  have ha := (repr_decimal a).2.1
  rw [h, (repr_decimal b).2.1] at ha
  exact ha.symm

theorem digitsValue_zeros (k : Nat) (ds : List Char) :
    digitsValue (List.replicate k '0' ++ ds) = digitsValue ds := by
  induction k with
  | zero => simp
  | succ k ih =>
    simp only [digitsValue, List.replicate_succ, List.cons_append, List.foldl_cons] at ih ⊢
    simpa using ih

/-- The rendering `%04d` of a non-negative number: decimal digits whose value
is the number, at least four of them, and more than four only without a
leading zero. -/
theorem padZeros_four_decimal (m : Nat) :
    (padZeros 4 (Nat.repr m)).toList.all isDecimalDigit = true ∧
      digitsValue (padZeros 4 (Nat.repr m)).toList = m ∧
      4 ≤ (padZeros 4 (Nat.repr m)).length ∧
      ((padZeros 4 (Nat.repr m)).length = 4 ∨
        (0 < m ∧ (padZeros 4 (Nat.repr m)).toList.head? ≠ some '0')) := by
  obtain ⟨hall, hval, hne, hhead⟩ := repr_decimal m
  have hlist : (padZeros 4 (Nat.repr m)).toList =
      List.replicate (4 - (Nat.repr m).length) '0' ++ (Nat.repr m).toList := by
    simp [padZeros, String.toList]
  have hlen : (padZeros 4 (Nat.repr m)).length =
      (4 - (Nat.repr m).length) + (Nat.repr m).length := by
    show (padZeros 4 (Nat.repr m)).toList.length = _
    rw [hlist, List.length_append, List.length_replicate]
    rfl
  refine ⟨?_, ?_, by omega, ?_⟩
  · rw [hlist, List.all_append, hall, Bool.and_true]
    exact List.all_eq_true.2 (fun c hc => by rw [List.eq_of_mem_replicate hc]; decide)
  · rw [hlist, digitsValue_zeros, hval]
  · by_cases hshort : (Nat.repr m).length ≤ 4
    · left; omega
    · right
      have hk : 4 - (Nat.repr m).length = 0 := by omega
      have hmpos : 0 < m := by
        by_contra h0
        have : m = 0 := by omega
        subst this
        exact hshort (by decide)
      refine ⟨hmpos, ?_⟩
      rw [hlist, hk]
      simpa using hhead hmpos

/-! ## Lemmas: `strings.Split`, `strconv.Atoi`, `rev++` -/

theorem splitDash_ne_nil (l : List Char) : splitDash l ≠ [] := by
  cases l with
  | nil => simp [splitDash]
  | cons c cs =>
    simp only [splitDash]
    split_ifs
    · simp
    · split <;> simp

theorem splitDash_no_dash (l : List Char) : ∀ part ∈ splitDash l, '-' ∉ part := by
  induction l with
  | nil => simp [splitDash]
  | cons c cs ih =>
    simp only [splitDash]
    split_ifs with hc
    · intro part hpart
      rcases List.mem_cons.1 hpart with rfl | hpart
      · simp
      · exact ih part hpart
    · split
      · rename_i hnil
        exact absurd hnil (splitDash_ne_nil cs)
      · rename_i part parts hsplit
        rw [hsplit] at ih
        intro q hq
        rcases List.mem_cons.1 hq with rfl | hq
        · intro hmem
          rcases List.mem_cons.1 hmem with h | h
          · exact hc h.symm
          · exact ih part (List.mem_cons_self _ _) h
        · exact ih q (List.mem_cons_of_mem _ hq)

/-- Joining the pieces of `strings.Split(s, "-")` with `-` gives `s` back. -/
theorem splitDash_intercalate (l : List Char) : List.intercalate ['-'] (splitDash l) = l := by
  induction l with
  | nil => rfl
  | cons c cs ih =>
    simp only [splitDash]
    split_ifs with hc
    · subst hc
      have hne := splitDash_ne_nil cs
      cases hs : splitDash cs with
      | nil => exact absurd hs hne
      | cons p ps =>
        rw [hs] at ih
        rw [← ih]
        simp [List.intercalate, List.intersperse]
    · split
      · rename_i hnil
        exact absurd hnil (splitDash_ne_nil cs)
      · rename_i part parts hsplit
        rw [hsplit] at ih
        rw [← ih]
        cases parts <;> simp [List.intercalate, List.intersperse]

theorem stringsSplitDash_no_dash (s : String) : ∀ part ∈ stringsSplitDash s, '-' ∉ part.toList := by
  intro part hpart
  simp only [stringsSplitDash, List.mem_map] at hpart
  obtain ⟨p, hp, rfl⟩ := hpart
  exact splitDash_no_dash s.toList p hp

theorem atoi_nonneg (s : String) (n : Int) (hdash : '-' ∉ s.toList) (h : atoi s = some n) :
    0 ≤ n := by
  unfold atoi at h
  split at h
  rename_i neg ds hmatch
  have hneg : neg = false := by
    split at hmatch
    · rename_i rest hs
      rw [hs] at hdash
      simp at hdash
    · simp only [Prod.mk.injEq] at hmatch; exact hmatch.1.symm
    · simp only [Prod.mk.injEq] at hmatch; exact hmatch.1.symm
  subst hneg
  by_cases hbad : (ds.isEmpty || !ds.all isDecimalDigit) = true
  · rw [if_pos hbad] at h; cases h
  · rw [if_neg hbad] at h
    simp only [Bool.false_eq_true, if_false] at h
    by_cases hr : (digitsValue ds : Int) < -(2 : Int) ^ 63 ∨ (2 : Int) ^ 63 - 1 < digitsValue ds
    · rw [if_pos hr] at h; cases h
    · rw [if_neg hr, Option.some.injEq] at h
      rw [← h]
      exact Int.ofNat_nonneg _

theorem atoi_lt (s : String) (n : Int) (h : atoi s = some n) :
    -(2 : Int) ^ 63 ≤ n ∧ n ≤ (2 : Int) ^ 63 - 1 := by
  unfold atoi at h
  split at h
  rename_i neg ds hmatch
  by_cases hbad : (ds.isEmpty || !ds.all isDecimalDigit) = true
  · rw [if_pos hbad] at h; cases h
  · rw [if_neg hbad] at h
    generalize (if neg = true then -(digitsValue ds : Int) else (digitsValue ds : Int)) = v at h
    by_cases hr : v < -(2 : Int) ^ 63 ∨ (2 : Int) ^ 63 - 1 < v
    · simp only [hr, if_true] at h; cases h
    · simp only [hr, if_false, Option.some.injEq] at h
      rw [← h]
      constructor <;> omega

theorem incrInt_eq (n : Int) (h0 : -(2 : Int) ^ 63 ≤ n) (h1 : n < (2 : Int) ^ 63 - 1) :
    incrInt n = n + 1 := by
  unfold incrInt
  norm_num at h0 h1 ⊢
  omega

theorem stringsJoinDash_three (a b c : String) :
    stringsJoinDash [a, b, c] = a ++ "-" ++ b ++ "-" ++ c := by
  simp [stringsJoinDash, String.intercalate, String.intercalate.go]

/-! ## Lemmas: the cells `updatePart` writes -/

theorem KiCadServer.findColumnIndexFrom_append_of_mem (name extra : String) (hs : List String)
    (i : Nat) (hmem : name ∈ hs) :
    findColumnIndexFrom name (hs ++ [extra]) i = findColumnIndexFrom name hs i := by
  induction hs generalizing i with
  | nil => cases hmem
  | cons x xs ih =>
    rw [List.cons_append]
    simp only [findColumnIndexFrom]
    split_ifs with hx
    · rfl
    · exact ih (i + 1) (by
        rcases List.mem_cons.1 hmem with h | h
        · exact absurd h.symm hx
        · exact h)

theorem KiCadServer.mem_headers_of_findColumnIndex (file : CSVFile) (name : String)
    (h : ¬ findColumnIndex file name < 0) : name ∈ file.Headers := by
  by_contra hnot
  have := (findColumnIndex_eq_neg_one file name).2 hnot
  omega

theorem KiCadServer.findColumnIndex_nonneg_of_mem (file : CSVFile) (name : String)
    (h : name ∈ file.Headers) : 0 ≤ findColumnIndex file name := by
  obtain ⟨k, hk, -, -⟩ := findColumnIndex_found file name h
  omega

/-- Two different names stand in two different columns. -/
theorem KiCadServer.findColumnIndex_ne (file : CSVFile) (n n' : String) (hne : n ≠ n')
    (hn : n ∈ file.Headers) (hn' : n' ∈ file.Headers) :
    findColumnIndex file n ≠ findColumnIndex file n' := by
  obtain ⟨k, hk, hget, -⟩ := findColumnIndex_found file n hn
  obtain ⟨k', hk', hget', -⟩ := findColumnIndex_found file n' hn'
  intro heq
  rw [hk, hk'] at heq
  have : k = k' := by omega
  subst this
  rw [hget] at hget'
  exact hne (Option.some.inj hget')

theorem KiCadServer.ensureColumn_headers (file : CSVFile) (name : String) :
    name ∈ (ensureColumn file name).2.Headers ∧
    (∀ m ∈ file.Headers, m ∈ (ensureColumn file name).2.Headers) ∧
    (∀ m ∈ (ensureColumn file name).2.Headers, m ∈ file.Headers ∨ m = name) := by
  by_cases hmem : name ∈ file.Headers
  · rw [ensureColumn_of_mem file name hmem]
    exact ⟨hmem, fun m hm => hm, fun m hm => Or.inl hm⟩
  · rw [ensureColumn_of_not_mem file name hmem]
    refine ⟨by simp, fun m hm => by simp [hm], fun m hm => ?_⟩
    simpa using hm

theorem KiCadServer.ensureColumn_findColumnIndex_of_mem (file : CSVFile) (name n' : String)
    (hmem : n' ∈ file.Headers) :
    findColumnIndex (ensureColumn file name).2 n' = findColumnIndex file n' := by
  by_cases hname : name ∈ file.Headers
  · rw [ensureColumn_of_mem file name hname]
  · rw [ensureColumn_of_not_mem file name hname]
    exact findColumnIndexFrom_append_of_mem n' name file.Headers 0 hmem

theorem KiCadServer.ensureColumn_findColumnIndex_self (file : CSVFile) (name : String) :
    findColumnIndex (ensureColumn file name).2 name = (ensureColumn file name).1 := by
  have h := ensureColumn_again file name
  rw [ensureColumn_of_mem _ name (ensureColumn_headers file name).1] at h
  exact congrArg Prod.fst h

/-- A cell that is there stays where it is, with its value, when a column is ensured. -/
theorem KiCadServer.ensureColumn_cellOf (file : CSVFile) (name n' x : String) (rowIdx : Nat)
    (h : cellOf file rowIdx n' = some x) :
    cellOf (ensureColumn file name).2 rowIdx n' = some x := by
  by_cases hname : name ∈ file.Headers
  · rw [ensureColumn_of_mem file name hname]; exact h
  · unfold cellOf at h ⊢
    cases hrow : file.Rows[rowIdx]? with
    | none => simp [hrow] at h
    | some row =>
      simp only [hrow] at h
      split_ifs at h with hneg
      have hmem := mem_headers_of_findColumnIndex file n' hneg
      have hidx := ensureColumn_findColumnIndex_of_mem file name n' hmem
      rw [hidx]
      rw [ensureColumn_of_not_mem file name hname]
      simp only [List.getElem?_map, hrow, Option.map_some', hneg, if_false]
      have hlt : (findColumnIndex file n').toNat < row.length := by
        by_contra hge
        rw [List.getElem?_eq_none (by omega)] at h
        cases h
      rw [List.getElem?_append_left hlt]
      exact h

/-- The cells of the row after the assignment `file.Rows[rowIdx][col] = v`. -/
theorem KiCadServer.setCell_cellOf (file file1 : CSVFile) (rowIdx : Nat) (col : Int)
    (v : String) (hok : setCell file rowIdx col v = .ok file1) :
    file1.Headers = file.Headers ∧
    ∀ n', cellOf file1 rowIdx n' =
      if findColumnIndex file n' = col then some v else cellOf file rowIdx n' := by
  unfold setCell at hok
  cases hrow : file.Rows[rowIdx]? with
  | none => simp [hrow] at hok
  | some row =>
    simp only [hrow] at hok
    split_ifs at hok with hc
    cases hok
    refine ⟨rfl, fun n' => ?_⟩
    have hlt : rowIdx < file.Rows.length := by
      by_contra hge
      rw [List.getElem?_eq_none (by omega)] at hrow
      cases hrow
    have hidx : findColumnIndex
        { file with Rows := file.Rows.set rowIdx (row.set col.toNat v) } n' =
        findColumnIndex file n' := rfl
    unfold cellOf
    rw [hidx]
    simp only [List.getElem?_set_self hlt, hrow]
    by_cases heq : findColumnIndex file n' = col
    · have hneg : ¬ findColumnIndex file n' < 0 := by omega
      rw [if_neg hneg, if_pos heq, heq, List.getElem?_set_self (by omega)]
    · rw [if_neg heq]
      by_cases hneg : findColumnIndex file n' < 0
      · rw [if_pos hneg, if_pos hneg]
      · rw [if_neg hneg, if_neg hneg, List.getElem?_set_ne (by omega)]

theorem KiCadServer.sourceHeaders_toList (i : Nat) :
    (sourceHeaders i).1.toList = "Manufacturer".toList ++ sourceSuffix i ∧
    (sourceHeaders i).2.toList = "MPN".toList ++ sourceSuffix i := by
  unfold sourceHeaders sourceSuffix sprintfd
  by_cases hi : i > 0
  · simp only [hi, if_true, String.toList, String.data_append, and_self]
  · simp only [hi, if_false, List.append_nil, and_self]

theorem KiCadServer.sourceSuffix_injective (i j : Nat) (h : sourceSuffix i = sourceSuffix j) :
    i = j := by
  unfold sourceSuffix at h
  by_cases hi : i > 0 <;> by_cases hj : j > 0
  · simp only [hi, hj, if_true] at h
    have := repr_injective (i + 1) (j + 1) (String.ext h)
    omega
  · simp only [hi, hj, if_true, if_false] at h
    exact absurd h (repr_decimal (i + 1)).2.2.1
  · simp only [hi, hj, if_true, if_false] at h
    exact absurd h.symm (repr_decimal (j + 1)).2.2.1
  · omega

/-- The column names of the sources are pairwise different, and none of them
is `Description`. -/
theorem KiCadServer.sourceHeaders_ne (i j : Nat) :
    (sourceHeaders i).1 ≠ (sourceHeaders j).2 ∧
    (i ≠ j → (sourceHeaders i).1 ≠ (sourceHeaders j).1 ∧
      (sourceHeaders i).2 ≠ (sourceHeaders j).2) ∧
    "Description" ≠ (sourceHeaders i).1 ∧ "Description" ≠ (sourceHeaders i).2 := by
  have hm : "Manufacturer".toList = ['M', 'a', 'n', 'u', 'f', 'a', 'c', 't', 'u', 'r', 'e', 'r'] :=
    by decide
  have hp : "MPN".toList = ['M', 'P', 'N'] := by decide
  have hd : "Description".toList = ['D', 'e', 's', 'c', 'r', 'i', 'p', 't', 'i', 'o', 'n'] :=
    by decide
  obtain ⟨hi1, hi2⟩ := sourceHeaders_toList i
  obtain ⟨hj1, hj2⟩ := sourceHeaders_toList j
  refine ⟨?_, ?_, ?_, ?_⟩
  · intro h
    have := congrArg String.toList h
    rw [hi1, hj2, hm, hp] at this
    simp at this
  · intro hij
    constructor
    · intro h
      have := congrArg String.toList h
      rw [hi1, hj1] at this
      exact hij (sourceSuffix_injective i j (List.append_cancel_left this))
    · intro h
      have := congrArg String.toList h
      rw [hi2, hj2] at this
      exact hij (sourceSuffix_injective i j (List.append_cancel_left this))
  · intro h
    have := congrArg String.toList h
    rw [hi1, hm, hd] at this
    simp at this
  · intro h
    have := congrArg String.toList h
    rw [hi2, hp, hd] at this
    simp at this

/-- One iteration of the loop over the sources: the two cells it writes, the
cells it keeps, and the headers it may add. -/
theorem KiCadServer.updateSource_cells (rowIdx : Nat) (file : CSVFile) (i : Nat)
    (src : PartSource) (hw : TargetWide file rowIdx) :
    ∃ file1, updateSource rowIdx file i src = .ok file1 ∧ TargetWide file1 rowIdx ∧
      cellOf file1 rowIdx (sourceHeaders i).1 = some src.Manufacturer ∧
      cellOf file1 rowIdx (sourceHeaders i).2 = some src.MPN ∧
      (∀ n' x, n' ≠ (sourceHeaders i).1 → n' ≠ (sourceHeaders i).2 →
        cellOf file rowIdx n' = some x → cellOf file1 rowIdx n' = some x) ∧
      (∀ m ∈ file1.Headers,
        m ∈ file.Headers ∨ m = (sourceHeaders i).1 ∨ m = (sourceHeaders i).2) := by
  unfold updateSource
  simp only
  set mfr := (sourceHeaders i).1 with hmfr
  set mpn := (sourceHeaders i).2 with hmpn
  have hne : mfr ≠ mpn := (sourceHeaders_ne i i).1
  set f1 := (ensureColumn file mfr).2 with hf1
  have hw1 : TargetWide f1 rowIdx := ensureColumn_targetWide file _ rowIdx hw
  set f2 := (ensureColumn f1 mpn).2 with hf2
  have hw2 : TargetWide f2 rowIdx := ensureColumn_targetWide f1 _ rowIdx hw1
  have hb1 := ensureColumn_index_bounds file mfr
  have hb2 := ensureColumn_index_bounds f1 mpn
  obtain ⟨hmfr1, hsub1, hnew1⟩ := ensureColumn_headers file mfr
  obtain ⟨hmpn2, hsub2, hnew2⟩ := ensureColumn_headers f1 mpn
  have hmfr2 : mfr ∈ f2.Headers := hsub2 mfr hmfr1
  have hidx1 : findColumnIndex f2 mfr = (ensureColumn file mfr).1 := by
    rw [hf2, ensureColumn_findColumnIndex_of_mem f1 mpn mfr hmfr1]
    exact ensureColumn_findColumnIndex_self file mfr
  have hidx2 : findColumnIndex f2 mpn = (ensureColumn f1 mpn).1 :=
    ensureColumn_findColumnIndex_self f1 mpn
  have hlt1 : (ensureColumn file mfr).1 < (f2.Headers.length : Int) := by
    rw [← hidx1]
    obtain ⟨k, hk, hget, -⟩ := findColumnIndex_found f2 mfr hmfr2
    have hlt : k < f2.Headers.length := by
      by_contra hge
      rw [List.getElem?_eq_none (by omega)] at hget
      cases hget
    omega
  obtain ⟨f3, hok3, hw3, hh3⟩ := setCell_targetWide f2 rowIdx
    (ensureColumn file mfr).1 src.Manufacturer hw2 hb1.1 hlt1
  obtain ⟨f4, hok4, hw4, hh4⟩ := setCell_targetWide f3 rowIdx
    (ensureColumn f1 mpn).1 src.MPN hw3 hb2.1 (by rw [hh3]; exact hb2.2)
  obtain ⟨-, hc3⟩ := setCell_cellOf f2 f3 rowIdx _ _ hok3
  obtain ⟨-, hc4⟩ := setCell_cellOf f3 f4 rowIdx _ _ hok4
  have hfci3 : ∀ n, findColumnIndex f3 n = findColumnIndex f2 n := by
    intro n; unfold findColumnIndex; rw [hh3]
  have hdiff : findColumnIndex f2 mfr ≠ findColumnIndex f2 mpn :=
    findColumnIndex_ne f2 mfr mpn hne hmfr2 hmpn2
  refine ⟨f4, ?_, hw4, ?_, ?_, ?_, ?_⟩
  · rw [hok3]; exact hok4
  · rw [hc4, hfci3, if_neg (by rw [← hidx2]; exact hdiff), hc3, if_pos hidx1]
  · rw [hc4, hfci3, if_pos hidx2]
  · intro n' x hn1 hn2 hcell
    have hcell1 := ensureColumn_cellOf file mfr n' x rowIdx hcell
    have hcell2 : cellOf f2 rowIdx n' = some x := ensureColumn_cellOf f1 mpn n' x rowIdx hcell1
    have hmem2 : n' ∈ f2.Headers := by
      unfold cellOf at hcell2
      cases hrow : f2.Rows[rowIdx]? with
      | none => simp [hrow] at hcell2
      | some row =>
        simp only [hrow] at hcell2
        split_ifs at hcell2 with hneg
        exact mem_headers_of_findColumnIndex f2 n' hneg
    have hd1 : findColumnIndex f2 n' ≠ (ensureColumn file mfr).1 := by
      rw [← hidx1]; exact findColumnIndex_ne f2 n' mfr hn1 hmem2 hmfr2
    have hd2 : findColumnIndex f2 n' ≠ (ensureColumn f1 mpn).1 := by
      rw [← hidx2]; exact findColumnIndex_ne f2 n' mpn hn2 hmem2 hmpn2
    rw [hc4, hfci3, if_neg hd2, hc3, if_neg hd1]
    exact hcell2
  · intro m hm
    rw [hh4, hh3] at hm
    rcases hnew2 m hm with h | h
    · rcases hnew1 m h with h | h
      · exact Or.inl h
      · exact Or.inr (Or.inl h)
    · exact Or.inr (Or.inr h)

/-- The loop over the sources, from index `i`: every source ends in its two
columns, and the cells of all other columns are kept. -/
theorem KiCadServer.updateSources_cells (rowIdx : Nat) (file : CSVFile) (i : Nat)
    (srcs : List PartSource) (hw : TargetWide file rowIdx) :
    ∃ file1, updateSources rowIdx file i srcs = .ok file1 ∧ TargetWide file1 rowIdx ∧
      (∀ (j : Nat) (src : PartSource), srcs[j]? = some src →
        cellOf file1 rowIdx (sourceHeaders (i + j)).1 = some src.Manufacturer ∧
        cellOf file1 rowIdx (sourceHeaders (i + j)).2 = some src.MPN) ∧
      (∀ n' x, (∀ j, j < srcs.length →
          n' ≠ (sourceHeaders (i + j)).1 ∧ n' ≠ (sourceHeaders (i + j)).2) →
        cellOf file rowIdx n' = some x → cellOf file1 rowIdx n' = some x) ∧
      (∀ m ∈ file1.Headers,
        m ∈ file.Headers ∨ ∃ j, m = (sourceHeaders j).1 ∨ m = (sourceHeaders j).2) := by
  induction srcs generalizing file i with
  | nil =>
    refine ⟨file, rfl, hw, ?_, fun n' x _ h => h, fun m hm => Or.inl hm⟩
    intro j src hj
    simp at hj
  | cons src rest ih =>
    obtain ⟨f1, hok1, hw1, hm1, hp1, hkeep1, hhead1⟩ := updateSource_cells rowIdx file i src hw
    obtain ⟨f2, hok2, hw2, hcells2, hkeep2, hhead2⟩ := ih f1 (i + 1) hw1
    refine ⟨f2, ?_, hw2, ?_, ?_, ?_⟩
    · simp only [updateSources, hok1]
      exact hok2
    · intro j s hj
      cases j with
      | zero =>
        simp only [List.getElem?_cons_zero, Option.some.injEq] at hj
        subst hj
        have hother : ∀ j, j < rest.length →
            ((sourceHeaders i).1 ≠ (sourceHeaders (i + 1 + j)).1 ∧
              (sourceHeaders i).1 ≠ (sourceHeaders (i + 1 + j)).2) ∧
            ((sourceHeaders i).2 ≠ (sourceHeaders (i + 1 + j)).1 ∧
              (sourceHeaders i).2 ≠ (sourceHeaders (i + 1 + j)).2) := by
          intro j _
          have hij : i ≠ i + 1 + j := by omega
          have h1 := sourceHeaders_ne i (i + 1 + j)
          have h2 := sourceHeaders_ne (i + 1 + j) i
          exact ⟨⟨(h1.2.1 hij).1, h1.1⟩, ⟨fun h => h2.1 h.symm, (h1.2.1 hij).2⟩⟩
        exact ⟨hkeep2 _ _ (fun j hj => (hother j hj).1) hm1,
          hkeep2 _ _ (fun j hj => (hother j hj).2) hp1⟩
      | succ j =>
        have hj' : rest[j]? = some s := by simpa using hj
        have hidx : i + (j + 1) = i + 1 + j := by omega
        rw [hidx]
        exact hcells2 j s hj'
    · intro n' x hne hcell
      have h0 := hne 0 (by simp)
      refine hkeep2 n' x ?_ (hkeep1 n' x h0.1 h0.2 hcell)
      intro j hj
      have := hne (j + 1) (by simp; omega)
      have hidx : i + (j + 1) = i + 1 + j := by omega
      rw [hidx] at this
      exact this
    · intro m hm
      rcases hhead2 m hm with h | h
      · rcases hhead1 m h with h | h | h
        · exact Or.inl h
        · exact Or.inr ⟨i, Or.inl h⟩
        · exact Or.inr ⟨i, Or.inr h⟩
      · exact Or.inr h

/-- After the padding, the located row has a cell in every column, holding
what the row held there, and the empty string where the row was too short. -/
theorem KiCadServer.padTargetRow_cells (file : CSVFile) (rowIdx : Nat) (row : List String)
    (hrow : file.Rows[rowIdx]? = some row) :
    ∃ file1, padTargetRow file rowIdx = .ok file1 ∧ TargetWide file1 rowIdx ∧
      file1.Headers = file.Headers ∧
      ∀ n' ∈ file.Headers,
        cellOf file1 rowIdx n' = some (row.getD (findColumnIndex file n').toNat "") := by
  have hlt : rowIdx < file.Rows.length := by
    by_contra hge
    rw [List.getElem?_eq_none (by omega)] at hrow
    cases hrow
  unfold padTargetRow
  rw [hrow]
  by_cases hshort : row.length < file.Headers.length
  · simp only [hshort, if_true]
    refine ⟨_, rfl, ⟨makeCopy file.Headers.length row, by simp [List.getElem?_set, hlt],
      by simp [length_makeCopy]⟩, rfl, ?_⟩
    intro n' hn'
    obtain ⟨k, hk, hget, -⟩ := findColumnIndex_found file n' hn'
    have hklt : k < file.Headers.length := by
      by_contra hge
      rw [List.getElem?_eq_none (by omega)] at hget
      cases hget
    have hidx : findColumnIndex
        { file with Rows := file.Rows.set rowIdx (makeCopy file.Headers.length row) } n' =
        findColumnIndex file n' := rfl
    unfold cellOf
    rw [hidx, hk]
    simp only [List.getElem?_set_self hlt, Int.toNat_ofNat]
    rw [if_neg (by omega), makeCopy, List.take_of_length_le (by omega)]
    by_cases hkrow : k < row.length
    · rw [List.getElem?_append_left hkrow, List.getD_eq_getElem _ _ hkrow,
        List.getElem?_eq_getElem hkrow]
    · rw [List.getElem?_append_right (by omega), List.getD_eq_default _ _ (by omega),
        List.getElem?_replicate]
      simp only [ite_eq_left_iff, not_lt]
      intro h; omega
  · simp only [hshort, if_false]
    refine ⟨file, rfl, ⟨row, hrow, by omega⟩, rfl, ?_⟩
    intro n' hn'
    obtain ⟨k, hk, hget, -⟩ := findColumnIndex_found file n' hn'
    have hklt : k < file.Headers.length := by
      by_contra hge
      rw [List.getElem?_eq_none (by omega)] at hget
      cases hget
    have hkrow : k < row.length := by omega
    unfold cellOf
    rw [hrow, hk]
    simp only [Int.toNat_ofNat]
    rw [if_neg (by omega), List.getD_eq_getElem _ _ hkrow, List.getElem?_eq_getElem hkrow]

/-- The cells of the located row after the in-memory part of `updatePart`. -/
theorem KiCadServer.updateRow_cells (file : CSVFile) (rowIdx : Nat) (row : List String)
    (req : PartUpdateRequest) (hrow : file.Rows[rowIdx]? = some row) :
    ∃ file1, updateRow file rowIdx req = .ok file1 ∧
      (∀ (i : Nat) (src : PartSource), req.Sources[i]? = some src →
        cellOf file1 rowIdx (sourceHeaders i).1 = some src.Manufacturer ∧
        cellOf file1 rowIdx (sourceHeaders i).2 = some src.MPN) ∧
      (req.Description ≠ "" → cellOf file1 rowIdx "Description" = some req.Description) ∧
      (req.Description = "" →
        ("Description" ∈ file.Headers →
          cellOf file1 rowIdx "Description" =
            some (row.getD (findColumnIndex file "Description").toNat "")) ∧
        ("Description" ∉ file.Headers → "Description" ∉ file1.Headers)) := by
  obtain ⟨f1, hok1, hw1, hh1, hcells1⟩ := padTargetRow_cells file rowIdx row hrow
  have hdesc_ne : ∀ j, j < req.Sources.length →
      "Description" ≠ (sourceHeaders (0 + j)).1 ∧ "Description" ≠ (sourceHeaders (0 + j)).2 :=
    fun j _ => ⟨(sourceHeaders_ne (0 + j) 0).2.2.1, (sourceHeaders_ne (0 + j) 0).2.2.2⟩
  by_cases hd : req.Description = ""
  · have hok2 : updateDescription f1 rowIdx req = .ok f1 := by
      simp [updateDescription, hd]
    obtain ⟨f3, hok3, -, hsrc, hkeep, hhead⟩ := updateSources_cells rowIdx f1 0 req.Sources hw1
    refine ⟨f3, ?_, ?_, fun h => absurd hd h, fun _ => ⟨?_, ?_⟩⟩
    · simp only [updateRow, hok1, hok2]; exact hok3
    · intro i src hi
      have := hsrc i src hi
      rwa [Nat.zero_add] at this
    · intro hmem
      exact hkeep _ _ hdesc_ne (hcells1 "Description" hmem)
    · intro hnot hmem
      rcases hhead _ hmem with h | ⟨j, h | h⟩
      · rw [hh1] at h; exact hnot h
      · exact (sourceHeaders_ne j 0).2.2.1 h
      · exact (sourceHeaders_ne j 0).2.2.2 h
  · obtain ⟨f2, hok2, hw2, -, -⟩ := ensure_then_set f1 "Description" req.Description rowIdx hw1
    have hok2' : updateDescription f1 rowIdx req = .ok f2 := by
      simp only [updateDescription, ne_eq, hd, not_false_eq_true, if_true]
      exact hok2
    have hcell2 : cellOf f2 rowIdx "Description" = some req.Description := by
      rw [(setCell_cellOf _ f2 rowIdx _ _ hok2).2,
        if_pos (ensureColumn_findColumnIndex_self f1 "Description")]
    obtain ⟨f3, hok3, -, hsrc, hkeep, -⟩ := updateSources_cells rowIdx f2 0 req.Sources hw2
    refine ⟨f3, ?_, ?_, fun _ => hkeep _ _ hdesc_ne hcell2, fun h => absurd h hd⟩
    · simp only [updateRow, hok1, hok2']; exact hok3
    · intro i src hi
      have := hsrc i src hi
      rwa [Nat.zero_add] at this

/-! ## Lemmas: the sorted keys of a map -/

theorem stringLess_irrefl (a : String) : ¬ stringLess a a := by
  unfold stringLess; exact lt_irrefl _

theorem stringLess_trans {a b c : String} (hab : stringLess a b) (hbc : stringLess b c) :
    stringLess a c := by
  unfold stringLess at *; exact lt_trans hab hbc

theorem charCodes_injective (a b : String)
    (h : a.toList.map Char.toNat = b.toList.map Char.toNat) : a = b := by
  have hinj : Function.Injective Char.toNat := by
    intro x y hxy
    apply Char.ext
    apply UInt32.ext
    simpa [Char.toNat, UInt32.toNat] using hxy
  exact String.ext (List.map_injective_iff.2 hinj h)

theorem stringLess_of_not {a b : String} (h : ¬ stringLess a b) (hne : a ≠ b) :
    stringLess b a := by
  unfold stringLess at *
  rcases lt_trichotomy (a.toList.map Char.toNat) (b.toList.map Char.toNat) with hlt | heq | hgt
  · exact absurd hlt h
  · exact absurd (charCodes_injective a b heq) hne
  · exact hgt

theorem mem_insertKey (k m : String) (l : List String) :
    m ∈ insertKey k l ↔ m = k ∨ m ∈ l := by
  induction l with
  | nil => simp [insertKey]
  | cons x xs ih =>
    simp only [insertKey]
    split_ifs with h1 h2
    · simp
    · subst h2; simp
    · simp only [List.mem_cons, ih]
      tauto

theorem insertKey_sorted (k : String) (l : List String) (hl : l.Pairwise stringLess) :
    (insertKey k l).Pairwise stringLess := by
  induction l with
  | nil => simp [insertKey]
  | cons x xs ih =>
    rw [List.pairwise_cons] at hl
    simp only [insertKey]
    split_ifs with h1 h2
    · refine List.pairwise_cons.2 ⟨?_, List.pairwise_cons.2 hl⟩
      intro m hm
      rcases List.mem_cons.1 hm with rfl | hm
      · exact h1
      · exact stringLess_trans h1 (hl.1 m hm)
    · exact List.pairwise_cons.2 hl
    · refine List.pairwise_cons.2 ⟨?_, ih hl.2⟩
      intro m hm
      rcases (mem_insertKey k m xs).1 hm with rfl | hm
      · exact stringLess_of_not h1 h2
      · exact hl.1 m hm

theorem foldl_insertKey (keys acc : List String) (hacc : acc.Pairwise stringLess) :
    (keys.foldl (fun acc k => insertKey k acc) acc).Pairwise stringLess ∧
    ∀ m, m ∈ keys.foldl (fun acc k => insertKey k acc) acc ↔ m ∈ keys ∨ m ∈ acc := by
  induction keys generalizing acc with
  | nil => simp [hacc]
  | cons k ks ih =>
    simp only [List.foldl_cons]
    obtain ⟨h1, h2⟩ := ih (insertKey k acc) (insertKey_sorted k acc hacc)
    refine ⟨h1, fun m => ?_⟩
    rw [h2, mem_insertKey, List.mem_cons]
    tauto

/-- The sorted keys are strictly increasing and are exactly the inserted keys. -/
theorem sortedKeys_spec (keys : List String) :
    (sortedKeys keys).Pairwise stringLess ∧ ∀ m, m ∈ sortedKeys keys ↔ m ∈ keys := by
  obtain ⟨h1, h2⟩ := foldl_insertKey keys [] List.Pairwise.nil
  exact ⟨h1, fun m => by rw [sortedKeys, h2]; simp⟩

/-- A strictly increasing list is determined by its members: whatever order
the keys of the map come in and however they are sorted, the result is
`sortedKeys`. -/
theorem sorted_unique (l₁ l₂ : List String) (h₁ : l₁.Pairwise stringLess)
    (h₂ : l₂.Pairwise stringLess) (hmem : ∀ m, m ∈ l₁ ↔ m ∈ l₂) : l₁ = l₂ := by
  induction l₁ generalizing l₂ with
  | nil =>
    cases l₂ with
    | nil => rfl
    | cons y ys => exact absurd ((hmem y).2 (List.mem_cons_self _ _)) (List.not_mem_nil _)
  | cons x xs ih =>
    cases l₂ with
    | nil => exact absurd ((hmem x).1 (List.mem_cons_self _ _)) (List.not_mem_nil _)
    | cons y ys =>
      rw [List.pairwise_cons] at h₁ h₂
      have hxy : x = y := by
        by_contra hne
        have hx : x ∈ ys := by
          rcases List.mem_cons.1 ((hmem x).1 (List.mem_cons_self _ _)) with h | h
          · exact absurd h hne
          · exact h
        have hy : y ∈ xs := by
          rcases List.mem_cons.1 ((hmem y).2 (List.mem_cons_self _ _)) with h | h
          · exact absurd h.symm hne
          · exact h
        exact stringLess_irrefl x (stringLess_trans (h₁.1 y hy) (h₂.1 x hx))
      subst hxy
      congr 1
      refine ih ys h₁.2 h₂.2 (fun m => ?_)
      constructor
      · intro hm
        rcases List.mem_cons.1 ((hmem m).1 (List.mem_cons_of_mem _ hm)) with h | h
        · subst h; exact absurd (h₁.1 m hm) (stringLess_irrefl m)
        · exact h
      · intro hm
        rcases List.mem_cons.1 ((hmem m).2 (List.mem_cons_of_mem _ hm)) with h | h
        · subst h; exact absurd (h₂.1 m hm) (stringLess_irrefl m)
        · exact h

/-! ## Lemmas: the IPN pattern -/

/-- The pattern of `extractCategory` matches exactly the strings of the
grammar `CCC-NNN-VVVV`. -/
theorem matchClasses_ipnPattern (s : String) :
    matchClasses ipnPattern s.toList = true ↔ IpnGrammar s := by
  unfold IpnGrammar
  constructor
  · intro h
    rcases hl : s.toList with _ | ⟨c1, _ | ⟨c2, _ | ⟨c3, _ | ⟨d1, _ | ⟨n1, _ | ⟨n2, _ |
      ⟨n3, _ | ⟨d2, _ | ⟨v1, _ | ⟨v2, _ | ⟨v3, _ | ⟨v4, _ | ⟨x, rest⟩⟩⟩⟩⟩⟩⟩⟩⟩⟩⟩⟩⟩ <;>
      rw [hl] at h <;> simp only [matchClasses, ipnPattern, Bool.and_eq_true, beq_iff_eq,
        Bool.false_eq_true, and_false, false_and] at h
    obtain ⟨h1, h2, h3, h4, h5, h6, h7, h8, h9, h10, h11, h12, -⟩ := h
    subst h4 h8
    exact ⟨c1, c2, c3, n1, n2, n3, v1, v2, v3, v4, rfl, h1, h2, h3, h5, h6, h7, h9, h10, h11,
      h12⟩
  · rintro ⟨c1, c2, c3, n1, n2, n3, v1, v2, v3, v4, hl, h1, h2, h3, h5, h6, h7, h9, h10, h11,
      h12⟩
    rw [hl]
    simp [matchClasses, ipnPattern, h1, h2, h3, h5, h6, h7, h9, h10, h11, h12]

theorem KiCadServer.extractCategory_eq (v : String) :
    (IpnGrammar v → extractCategory v = String.mk (v.toList.take 3) ∧ extractCategory v ≠ "") ∧
    (¬ IpnGrammar v → extractCategory v = "") := by
  constructor
  · intro hg
    have hm := (matchClasses_ipnPattern v).2 hg
    have heq : extractCategory v = String.mk (v.toList.take 3) := by
      rw [extractCategory, if_pos hm]
    refine ⟨heq, ?_⟩
    rw [heq]
    obtain ⟨c1, c2, c3, n1, n2, n3, v1, v2, v3, v4, hl, -⟩ := hg
    rw [hl]
    intro h
    have := congrArg String.toList h
    simp at this
  · intro hg
    have hm : ¬ matchClasses ipnPattern v.toList = true := fun h =>
      hg ((matchClasses_ipnPattern v).1 h)
    rw [extractCategory, if_neg hm]

/-! ## Claims on the mutations -/

/-- C12: `updatePart` returns the error "part not found" exactly when no row
of any file has the identity-column value `partID`; the collection in memory
is then the one the call started with and no file is handed to `saveCSVFile`.
When some row matches, the in-memory part does not fail. -/
theorem updatePart_not_found (files : List CSVFile) (partID : String)
    (req : PartUpdateRequest) :
    (KiCadServer.findPart files partID = none ↔
      ∀ file ∈ files, ∀ row ∈ file.Rows, KiCadServer.ipnCell file row ≠ some partID) ∧
    (KiCadServer.findPart files partID = none →
      KiCadServer.updatePart files partID req = .error (.error "part not found") ∧
      KiCadServer.memoryAfter files (KiCadServer.updatePart files partID req) = some files ∧
      KiCadServer.updatePartSaved files partID req = []) ∧
    (KiCadServer.findPart files partID ≠ none →
      ∃ files', KiCadServer.updatePart files partID req = .ok files') := by
  refine ⟨KiCadServer.findPart_eq_none files partID, ?_, ?_⟩
  · intro hnone
    have herr : KiCadServer.updatePart files partID req = .error (.error "part not found") := by
      simp [KiCadServer.updatePart, hnone]
    refine ⟨herr, ?_, ?_⟩
    · rw [herr]; rfl
    · simp [KiCadServer.updatePartSaved, hnone]
  · intro hsome
    cases hfound : KiCadServer.findPart files partID with
    | none => exact absurd hfound hsome
    | some loc =>
      obtain ⟨k, rowIdx⟩ := loc
      obtain ⟨file, file1, -, -, hok, -, -⟩ :=
        KiCadServer.updatePart_ok files partID req k rowIdx hfound
      exact ⟨_, hok⟩

/-- C15: the in-memory part of `startNewRevision` fails exactly when no row
has the identity value `partID` ("part not found"), or `partID`, the identity
value of the located row, does not split on `-` into exactly three pieces
("invalid IPN format"), or its third piece is not an integer for
`strconv.Atoi` ("invalid revision").  On every failure the collection in
memory is the one the call started with and no file is handed to
`saveCSVFile`. -/
theorem startNewRevision_failure_iff (files : List CSVFile) (partID : String) :
    ((∃ e, KiCadServer.startNewRevision files partID = .error e) ↔
      (KiCadServer.findPart files partID = none ∨ (stringsSplitDash partID).length ≠ 3 ∨
        ∃ a b c, stringsSplitDash partID = [a, b, c] ∧ atoi c = none)) ∧
    (KiCadServer.findPart files partID = none →
      KiCadServer.startNewRevision files partID = .error (.error "part not found")) ∧
    (KiCadServer.findPart files partID ≠ none → (stringsSplitDash partID).length ≠ 3 →
      KiCadServer.startNewRevision files partID = .error (.error "invalid IPN format")) ∧
    (KiCadServer.findPart files partID ≠ none →
      ∀ a b c, stringsSplitDash partID = [a, b, c] → atoi c = none →
        KiCadServer.startNewRevision files partID = .error (.error "invalid revision")) ∧
    (∀ k rowIdx, KiCadServer.findPart files partID = some (k, rowIdx) →
      ∃ file row, files[k]? = some file ∧ file.Rows[rowIdx]? = some row ∧
        KiCadServer.ipnCell file row = some partID) ∧
    (∀ e, KiCadServer.startNewRevision files partID = .error e →
      KiCadServer.memoryAfter files
        ((KiCadServer.startNewRevision files partID).map Prod.fst) = some files ∧
      KiCadServer.startNewRevisionSaved files partID = []) := by
  have hnf : KiCadServer.findPart files partID = none →
      KiCadServer.startNewRevision files partID = .error (.error "part not found") := by
    intro hnone
    simp [KiCadServer.startNewRevision, hnone]
  have hlast : ∀ e, KiCadServer.startNewRevision files partID = .error e →
      e ≠ .panic →
      KiCadServer.memoryAfter files
        ((KiCadServer.startNewRevision files partID).map Prod.fst) = some files ∧
      KiCadServer.startNewRevisionSaved files partID = [] := by
    intro e he hne
    constructor
    · rw [he]
      cases e with
      | error msg => rfl
      | panic => exact absurd rfl hne
    · unfold KiCadServer.startNewRevisionSaved
      rw [he]
      cases KiCadServer.findPart files partID with
      | none => rfl
      | some loc => rfl
  have hpanic := KiCadServer.startNewRevision_no_panic files partID
  cases hfound : KiCadServer.findPart files partID with
  | none =>
    have herr := hnf hfound
    refine ⟨?_, fun _ => herr, fun h => absurd rfl h, fun h => absurd rfl h, ?_, ?_⟩
    · simp [herr]
    · intro k rowIdx h; cases h
    · intro e he
      exact hlast e he (by rintro rfl; exact hpanic he)
  | some loc =>
    obtain ⟨k, rowIdx⟩ := loc
    obtain ⟨file, row, c, hfile, hrow, hc, hclt, hcrow, hcell, hrun⟩ :=
      KiCadServer.startNewRevision_located files partID k rowIdx hfound
    have hid := KiCadServer.findPart_ipnCell files partID k rowIdx hfound
    have hlast' : ∀ e, KiCadServer.startNewRevision files partID = .error e →
        KiCadServer.memoryAfter files
          ((KiCadServer.startNewRevision files partID).map Prod.fst) = some files ∧
        KiCadServer.startNewRevisionSaved files partID = [] := fun e he =>
      hlast e he (by rintro rfl; exact hpanic he)
    refine ⟨?_, ?_, ?_, ?_, ?_, hlast'⟩
    · rcases hsp : stringsSplitDash partID with _ | ⟨a, _ | ⟨b, _ | ⟨c3, _ | ⟨d, rest⟩⟩⟩⟩
      · rw [hsp] at hrun; simp [hrun]
      · rw [hsp] at hrun; simp [hrun]
      · rw [hsp] at hrun; simp [hrun]
      · rw [hsp] at hrun
        cases hat : atoi c3 with
        | none =>
          simp only [hat] at hrun
          constructor
          · intro _; right; right; exact ⟨a, b, c3, rfl, hat⟩
          · intro _; exact ⟨_, hrun⟩
        | some rev =>
          simp only [hat] at hrun
          constructor
          · rintro ⟨e, he⟩
            rw [hrun] at he
            cases he
          · rintro (h | h | ⟨a', b', c', habc, hnone⟩)
            · cases h
            · exact absurd rfl h
            · simp only [List.cons.injEq, and_true] at habc
              obtain ⟨-, -, rfl⟩ := habc
              rw [hat] at hnone
              cases hnone
      · rw [hsp] at hrun; simp [hrun]
    · intro h; cases h
    · intro _ hlen
      rcases hsp : stringsSplitDash partID with _ | ⟨a, _ | ⟨b, _ | ⟨c3, _ | ⟨d, rest⟩⟩⟩⟩
      · rw [hsp] at hrun; exact hrun
      · rw [hsp] at hrun; exact hrun
      · rw [hsp] at hrun; exact hrun
      · rw [hsp] at hlen; exact absurd rfl hlen
      · rw [hsp] at hrun; exact hrun
    · intro _ a b c3 hsp hat
      rw [hsp] at hrun
      simp only [hat] at hrun
      exact hrun
    · intro k' rowIdx' h
      simp only [Option.some.injEq, Prod.mk.injEq] at h
      obtain ⟨rfl, rfl⟩ := h
      exact hid

/-- C13 (counterexample): the identity value `CAP-001-9223372036854775807`
splits into three pieces and its third piece is an integer for `strconv.Atoi`,
the largest an `int` holds; `rev++` wraps around and the new identity value is
`CAP-001--9223372036854775808`, not `CAP-001-` followed by the decimal
rendering of that integer plus one. -/
theorem startNewRevision_wraps_around :
    stringsSplitDash "CAP-001-9223372036854775807" = ["CAP", "001", "9223372036854775807"] ∧
    atoi "9223372036854775807" = some 9223372036854775807 ∧
    (KiCadServer.startNewRevision [overflowFile] "CAP-001-9223372036854775807").map Prod.snd
      = .ok "CAP-001--9223372036854775808" ∧
    (KiCadServer.startNewRevision [overflowFile] "CAP-001-9223372036854775807").map Prod.snd
      ≠ .ok ("CAP-001-" ++ padZeros 4 (Nat.repr (9223372036854775807 + 1))) := by
  decide

/-- C13 (amended): for a located part whose identity value splits on `-` into
exactly three pieces `a`, `b`, `c` with `c` an integer `n` for `strconv.Atoi`
and `n + 1` still an `int` (`n < 2^63 - 1`), `startNewRevision` succeeds and
the appended row carries the identity value `a-b-r`, where `r` consists of
decimal digits whose value is `n + 1`, at least four of them, and more than
four only without a leading zero. -/
theorem startNewRevision_new_ipn (files : List CSVFile) (partID a b c : String) (n : Int)
    (k rowIdx : Nat) (hloc : KiCadServer.findPart files partID = some (k, rowIdx))
    (hsplit : stringsSplitDash partID = [a, b, c]) (hn : atoi c = some n)
    (hmax : n < (2 : Int) ^ 63 - 1) :
    0 ≤ n ∧
    (∃ files' file' newRow,
      KiCadServer.startNewRevision files partID =
        .ok (files', a ++ "-" ++ b ++ "-" ++ padZeros 4 (Nat.repr (n + 1).toNat)) ∧
      files'[k]? = some file' ∧ file'.Rows.getLast? = some newRow ∧
      KiCadServer.ipnCell file' newRow =
        some (a ++ "-" ++ b ++ "-" ++ padZeros 4 (Nat.repr (n + 1).toNat))) ∧
    (padZeros 4 (Nat.repr (n + 1).toNat)).toList.all isDecimalDigit = true ∧
    (digitsValue (padZeros 4 (Nat.repr (n + 1).toNat)).toList : Int) = n + 1 ∧
    4 ≤ (padZeros 4 (Nat.repr (n + 1).toNat)).length ∧
    ((padZeros 4 (Nat.repr (n + 1).toNat)).length = 4 ∨
      (padZeros 4 (Nat.repr (n + 1).toNat)).toList.head? ≠ some '0') := by
  have hdash : '-' ∉ c.toList :=
    stringsSplitDash_no_dash partID c (by rw [hsplit]; simp)
  have h0 : 0 ≤ n := atoi_nonneg c n hdash hn
  have hincr : incrInt n = n + 1 := incrInt_eq n (by norm_num; omega) hmax
  have hfmt : sprintf04d (incrInt n) = padZeros 4 (Nat.repr (n + 1).toNat) := by
    rw [hincr, sprintf04d, if_neg (by omega)]
  obtain ⟨file, row, col, hfile, hrow, hcol, hclt, hcrow, hcell, hrun⟩ :=
    KiCadServer.startNewRevision_located files partID k rowIdx hloc
  rw [hsplit] at hrun
  simp only [hn, hfmt, stringsJoinDash_three] at hrun
  obtain ⟨hall, hval, hlen, hhead⟩ := padZeros_four_decimal (n + 1).toNat
  have hk : k < files.length := by
    by_contra hge
    rw [List.getElem?_eq_none (by omega)] at hfile
    cases hfile
  refine ⟨h0, ⟨_, { file with Rows := file.Rows ++ [(makeCopy file.Headers.length row).set col
      (a ++ "-" ++ b ++ "-" ++ padZeros 4 (Nat.repr (n + 1).toNat))] },
    (makeCopy file.Headers.length row).set col
      (a ++ "-" ++ b ++ "-" ++ padZeros 4 (Nat.repr (n + 1).toNat)),
    hrun, by simp [List.getElem?_set, hk], by simp, ?_⟩, hall, ?_, hlen, ?_⟩
  · have hlt : col < ((makeCopy file.Headers.length row).set col
        (a ++ "-" ++ b ++ "-" ++ padZeros 4 (Nat.repr (n + 1).toNat))).length := by
      rw [List.length_set, KiCadServer.length_makeCopy]; exact hclt
    have hidx : KiCadServer.findColumnIndex
        { file with Rows := file.Rows ++ [(makeCopy file.Headers.length row).set col
          (a ++ "-" ++ b ++ "-" ++ padZeros 4 (Nat.repr (n + 1).toNat))] } "IPN" = (col : Int) :=
      hcol
    rw [KiCadServer.ipnCell, hidx, if_pos ⟨by omega, by omega⟩, Int.toNat_ofNat,
      List.getD_eq_getElem _ _ hlt]
    simp
  · rw [hval]; omega
  · rcases hhead with h | h
    · left; exact h
    · right; exact h.2

/-- Witness of the amended C13: `CAP-001-0004` yields `CAP-001-0005`; also,
`RES-010-9999` yields `RES-010-10000`. -/
theorem startNewRevision_new_ipn_witness :
    (0 ≤ (4 : Int) ∧
    (∃ files' file' newRow,
      KiCadServer.startNewRevision [capFile] "CAP-001-0004" =
        .ok (files', "CAP" ++ "-" ++ "001" ++ "-" ++ padZeros 4 (Nat.repr ((4 : Int) + 1).toNat)) ∧
      files'[0]? = some file' ∧ file'.Rows.getLast? = some newRow ∧
      KiCadServer.ipnCell file' newRow =
        some ("CAP" ++ "-" ++ "001" ++ "-" ++ padZeros 4 (Nat.repr ((4 : Int) + 1).toNat))) ∧
    (padZeros 4 (Nat.repr ((4 : Int) + 1).toNat)).toList.all isDecimalDigit = true ∧
    (digitsValue (padZeros 4 (Nat.repr ((4 : Int) + 1).toNat)).toList : Int) = 4 + 1 ∧
    4 ≤ (padZeros 4 (Nat.repr ((4 : Int) + 1).toNat)).length ∧
    ((padZeros 4 (Nat.repr ((4 : Int) + 1).toNat)).length = 4 ∨
      (padZeros 4 (Nat.repr ((4 : Int) + 1).toNat)).toList.head? ≠ some '0')) ∧
    "CAP" ++ "-" ++ "001" ++ "-" ++ padZeros 4 (Nat.repr ((4 : Int) + 1).toNat) = "CAP-001-0005" ∧
    (KiCadServer.startNewRevision [lastRevisionFile] "RES-010-9999").map Prod.snd
      = .ok "RES-010-10000" :=
  ⟨startNewRevision_new_ipn [capFile] "CAP-001-0004" "CAP" "001" "0004" 4 0 0
    (by decide) (by decide) (by decide) (by decide), by decide, by decide⟩

/-- C14: when no row is wider than its header row and the in-memory part of
`startNewRevision` succeeds, the collection afterwards is the old one with
the located file replaced by the same file (same name, same headers) whose
rows are the old rows followed by exactly one new row.  The new row is the
located row, filled up with empty cells to the width of the header row, with
the cell of the identity column replaced by the new IPN: it agrees with the
located row in every other column.  Every other file is unchanged. -/
theorem startNewRevision_frame (files files' : List CSVFile) (partID newIPN : String)
    (hfit : ∀ file ∈ files, RowsFit file)
    (hok : KiCadServer.startNewRevision files partID = .ok (files', newIPN)) :
    ∃ (k rowIdx c : Nat) (file : CSVFile) (row newRow : List String),
      KiCadServer.findPart files partID = some (k, rowIdx) ∧
      files[k]? = some file ∧ file.Rows[rowIdx]? = some row ∧
      KiCadServer.findColumnIndex file "IPN" = (c : Int) ∧
      files' = files.set k { file with Rows := file.Rows ++ [newRow] } ∧
      files'.length = files.length ∧
      (∀ j : Nat, j ≠ k → files'[j]? = files[j]?) ∧
      newRow = (row ++ List.replicate (file.Headers.length - row.length) "").set c newIPN ∧
      newRow.length = file.Headers.length ∧
      newRow[c]? = some newIPN ∧
      (∀ j : Nat, j < file.Headers.length → j ≠ c → newRow[j]? = some (row.getD j "")) := by
  cases hfound : KiCadServer.findPart files partID with
  | none =>
    have : KiCadServer.startNewRevision files partID = .error (.error "part not found") := by
      simp [KiCadServer.startNewRevision, hfound]
    rw [this] at hok
    cases hok
  | some loc =>
    obtain ⟨k, rowIdx⟩ := loc
    obtain ⟨file, row, c, hfile, hrow, hc, hclt, hcrow, hcell, hrun⟩ :=
      KiCadServer.startNewRevision_located files partID k rowIdx hfound
    have hrowfit : row.length ≤ file.Headers.length :=
      hfit file (List.getElem?_mem hfile) row (List.getElem?_mem hrow)
    have hcopy : makeCopy file.Headers.length row =
        row ++ List.replicate (file.Headers.length - row.length) "" := by
      rw [makeCopy, List.take_of_length_le hrowfit]
    have hlen : (row ++ List.replicate (file.Headers.length - row.length) "").length =
        file.Headers.length := by
      rw [← hcopy, KiCadServer.length_makeCopy]
    rw [hok] at hrun
    rcases hsp : stringsSplitDash partID with _ | ⟨a, _ | ⟨b, _ | ⟨c3, _ | ⟨d, rest⟩⟩⟩⟩ <;>
      rw [hsp] at hrun <;> try cases hrun
    cases hat : atoi c3 with
    | none => simp [hat] at hrun
    | some rev =>
      simp only [hat, Except.ok.injEq, Prod.mk.injEq] at hrun
      obtain ⟨hfiles, hipn⟩ := hrun
      rw [← hipn, hcopy] at hfiles
      refine ⟨k, rowIdx, c, file, row, _, rfl, hfile, hrow, hc, hfiles, ?_, ?_, rfl, ?_, ?_, ?_⟩
      · rw [hfiles, List.length_set]
      · intro j hj
        rw [hfiles, List.getElem?_set_ne (fun h => hj h.symm)]
      · rw [List.length_set, hlen]
      · rw [List.getElem?_set_self (by rw [hlen]; exact hclt)]
      · intro j hj hjc
        rw [List.getElem?_set_ne (fun h => hjc h.symm)]
        by_cases hjrow : j < row.length
        · rw [List.getElem?_append_left hjrow, List.getD_eq_getElem _ _ hjrow,
            List.getElem?_eq_getElem hjrow]
        · rw [List.getElem?_append_right (by omega), List.getD_eq_default _ _ (by omega),
            List.getElem?_replicate]
          simp only [ite_eq_left_iff, not_lt]
          intro h; omega

/-- Witness of C14: the new revision of `CAP-002-0001` in `capFile`, whose row
is shorter than the header row. -/
theorem startNewRevision_frame_witness :
    ∃ (k rowIdx c : Nat) (file : CSVFile) (row newRow : List String),
      KiCadServer.findPart [capFile] "CAP-002-0001" = some (k, rowIdx) ∧
      [capFile][k]? = some file ∧ file.Rows[rowIdx]? = some row ∧
      KiCadServer.findColumnIndex file "IPN" = (c : Int) ∧
      [{ capFile with
          Rows := capFile.Rows ++ [["CAP-002-0002", "tantalum cap", ""]] }] =
        [capFile].set k { file with Rows := file.Rows ++ [newRow] } ∧
      [{ capFile with
          Rows := capFile.Rows ++ [["CAP-002-0002", "tantalum cap", ""]] }].length =
        [capFile].length ∧
      (∀ j : Nat, j ≠ k →
        [{ capFile with
          Rows := capFile.Rows ++ [["CAP-002-0002", "tantalum cap", ""]] }][j]? =
          [capFile][j]?) ∧
      newRow = (row ++ List.replicate (file.Headers.length - row.length) "").set c
        "CAP-002-0002" ∧
      newRow.length = file.Headers.length ∧
      newRow[c]? = some "CAP-002-0002" ∧
      (∀ j : Nat, j < file.Headers.length → j ≠ c → newRow[j]? = some (row.getD j "")) :=
  startNewRevision_frame [capFile]
    [{ capFile with Rows := capFile.Rows ++ [["CAP-002-0002", "tantalum cap", ""]] }]
    "CAP-002-0001" "CAP-002-0002" (by decide) (by decide)

/-- C11: on a located part the in-memory part of `updatePart` succeeds and the
located row then holds, for the source at index `i`, its manufacturer in the
column `Manufacturer` and its part number in the column `MPN` when `i = 0`,
and in the columns `Manufacturer<i+1>` and `MPN<i+1>` when `i ≥ 1`
(`Manufacturer2`, `MPN2` for the second source); it holds `req.Description`
in the column `Description` when that is non-empty; and when it is empty the
cell of the column `Description` is what the row held there (the empty string
where the row was too short), no such column being added if there was none. -/
theorem updatePart_writes (files : List CSVFile) (partID : String) (req : PartUpdateRequest)
    (k rowIdx : Nat) (hloc : KiCadServer.findPart files partID = some (k, rowIdx)) :
    ∃ files' file file' row,
      KiCadServer.updatePart files partID req = .ok files' ∧
      files[k]? = some file ∧ file.Rows[rowIdx]? = some row ∧ files'[k]? = some file' ∧
      (∀ (i : Nat) (src : PartSource), req.Sources[i]? = some src →
        KiCadServer.cellOf file' rowIdx (KiCadServer.sourceHeaders i).1 = some src.Manufacturer ∧
        KiCadServer.cellOf file' rowIdx (KiCadServer.sourceHeaders i).2 = some src.MPN) ∧
      KiCadServer.sourceHeaders 0 = ("Manufacturer", "MPN") ∧
      KiCadServer.sourceHeaders 1 = ("Manufacturer2", "MPN2") ∧
      (∀ i : Nat, 1 ≤ i → KiCadServer.sourceHeaders i =
        ("Manufacturer" ++ Nat.repr (i + 1), "MPN" ++ Nat.repr (i + 1))) ∧
      (req.Description ≠ "" →
        KiCadServer.cellOf file' rowIdx "Description" = some req.Description) ∧
      (req.Description = "" →
        ("Description" ∈ file.Headers →
          KiCadServer.cellOf file' rowIdx "Description" =
            some (row.getD (KiCadServer.findColumnIndex file "Description").toNat "")) ∧
        ("Description" ∉ file.Headers → "Description" ∉ file'.Headers)) := by
  obtain ⟨file, row, hfile, hrow, -, -, -⟩ :=
    KiCadServer.findPart_some files partID k rowIdx hloc
  obtain ⟨file1, hok, hsrc, hdesc, hkeep⟩ := KiCadServer.updateRow_cells file rowIdx row req hrow
  have hk : k < files.length := by
    by_contra hge
    rw [List.getElem?_eq_none (by omega)] at hfile
    cases hfile
  refine ⟨files.set k file1, file, file1, row, ?_, hfile, hrow, ?_, hsrc, by decide, by decide,
    ?_, hdesc, hkeep⟩
  · simp [KiCadServer.updatePart, hloc, hfile, hok]
  · simp [List.getElem?_set, hk]
  · intro i hi
    have hpos : i > 0 := hi
    simp [KiCadServer.sourceHeaders, hpos, sprintfd]

/-- Witness of C11: the update of `CAP-002-0001` in `capFile` with a
description and two sources. -/
theorem updatePart_writes_witness :
    ∃ files' file file' row,
      KiCadServer.updatePart [capFile] "CAP-002-0001"
        ⟨"tantalum 10u", [⟨"Kemet", "T491"⟩, ⟨"AVX", "TAJ"⟩]⟩ = .ok files' ∧
      [capFile][0]? = some file ∧ file.Rows[1]? = some row ∧ files'[0]? = some file' ∧
      (∀ (i : Nat) (src : PartSource),
        (PartUpdateRequest.mk "tantalum 10u" [⟨"Kemet", "T491"⟩, ⟨"AVX", "TAJ"⟩]).Sources[i]?
          = some src →
        KiCadServer.cellOf file' 1 (KiCadServer.sourceHeaders i).1 = some src.Manufacturer ∧
        KiCadServer.cellOf file' 1 (KiCadServer.sourceHeaders i).2 = some src.MPN) ∧
      KiCadServer.sourceHeaders 0 = ("Manufacturer", "MPN") ∧
      KiCadServer.sourceHeaders 1 = ("Manufacturer2", "MPN2") ∧
      (∀ i : Nat, 1 ≤ i → KiCadServer.sourceHeaders i =
        ("Manufacturer" ++ Nat.repr (i + 1), "MPN" ++ Nat.repr (i + 1))) ∧
      ((PartUpdateRequest.mk "tantalum 10u" [⟨"Kemet", "T491"⟩, ⟨"AVX", "TAJ"⟩]).Description
          ≠ "" →
        KiCadServer.cellOf file' 1 "Description" = some
          (PartUpdateRequest.mk "tantalum 10u" [⟨"Kemet", "T491"⟩, ⟨"AVX", "TAJ"⟩]).Description) ∧
      ((PartUpdateRequest.mk "tantalum 10u" [⟨"Kemet", "T491"⟩, ⟨"AVX", "TAJ"⟩]).Description
          = "" →
        ("Description" ∈ file.Headers →
          KiCadServer.cellOf file' 1 "Description" =
            some (row.getD (KiCadServer.findColumnIndex file "Description").toNat "")) ∧
        ("Description" ∉ file.Headers → "Description" ∉ file'.Headers)) :=
  updatePart_writes [capFile] "CAP-002-0001"
    ⟨"tantalum 10u", [⟨"Kemet", "T491"⟩, ⟨"AVX", "TAJ"⟩]⟩ 0 1 (by decide)

/-! ## Lemmas: the keys of `getCategories` -/

theorem KiCadServer.mem_rowCategoryKeys (ipnIdx : Int) (rows : List (List String))
    (m : String) :
    m ∈ rowCategoryKeys ipnIdx rows ↔
      ∃ row ∈ rows, (row.length : Int) > ipnIdx ∧ row.getD ipnIdx.toNat "" ≠ "" ∧
        extractCategory (row.getD ipnIdx.toNat "") = m ∧ m ≠ "" := by
  induction rows with
  | nil => simp [rowCategoryKeys]
  | cons row rest ih =>
    simp only [rowCategoryKeys, List.mem_cons, exists_eq_or_imp]
    by_cases hc : (row.length : Int) > ipnIdx ∧ row.getD ipnIdx.toNat "" ≠ ""
    · rw [if_pos hc]
      by_cases he : extractCategory (row.getD ipnIdx.toNat "") ≠ ""
      · dsimp only
        rw [if_pos he, List.mem_cons, ih]
        constructor
        · rintro (h | h)
          · left; exact ⟨hc.1, hc.2, h.symm, by rw [h]; exact he⟩
          · right; exact h
        · rintro (h | h)
          · left; exact h.2.2.1.symm
          · right; exact h
      · dsimp only
        rw [if_neg he, ih]
        constructor
        · intro h; right; exact h
        · rintro (h | h)
          · exact absurd (by rw [h.2.2.1]; exact h.2.2.2) he
          · exact h
    · rw [if_neg hc, ih]
      constructor
      · intro h; right; exact h
      · rintro (h | h)
        · exact absurd ⟨h.1, h.2.1⟩ hc
        · exact h

theorem KiCadServer.mem_fileCategoryKeys (toUpper : String → String) (file : CSVFile)
    (m : String) :
    m ∈ fileCategoryKeys toUpper file ↔
      (stringsTrimSuffix (toUpper file.Name) ".CSV" = m ∧ m.utf8ByteSize = 3) ∨
      (∃ row ∈ file.Rows, ∃ v, ipnCell file row = some v ∧ v ≠ "" ∧ IpnGrammar v ∧
        m = String.mk (v.toList.take 3)) := by
  unfold fileCategoryKeys
  simp only [List.mem_append]
  have hleft : (m ∈ (if upperBaseName toUpper file ≠ "" ∧
        (upperBaseName toUpper file).utf8ByteSize = 3 then [upperBaseName toUpper file] else [])) ↔
      (stringsTrimSuffix (toUpper file.Name) ".CSV" = m ∧ m.utf8ByteSize = 3) := by
    have hname : upperBaseName toUpper file = stringsTrimSuffix (toUpper file.Name) ".CSV" := rfl
    rw [hname]
    by_cases h3 : (stringsTrimSuffix (toUpper file.Name) ".CSV").utf8ByteSize = 3
    · have hne : stringsTrimSuffix (toUpper file.Name) ".CSV" ≠ "" := by
        intro h; rw [h] at h3; exact absurd h3 (by decide)
      rw [if_pos ⟨hne, h3⟩, List.mem_singleton]
      constructor
      · intro h; rw [h]; exact ⟨rfl, h3⟩
      · intro h; exact h.1.symm
    · rw [if_neg (fun h => h3 h.2)]
      constructor
      · intro h; cases h
      · intro h; rw [h.1] at h3; exact absurd h.2 h3
  have hright : (m ∈ (if findColumnIndex file "IPN" ≥ 0 then
        rowCategoryKeys (findColumnIndex file "IPN") file.Rows else [])) ↔
      (∃ row ∈ file.Rows, ∃ v, ipnCell file row = some v ∧ v ≠ "" ∧ IpnGrammar v ∧
        m = String.mk (v.toList.take 3)) := by
    by_cases hidx : findColumnIndex file "IPN" ≥ 0
    · rw [if_pos hidx, mem_rowCategoryKeys]
      constructor
      · rintro ⟨row, hrow, hlen, hne, hcat, hm⟩
        have hg : IpnGrammar (row.getD (findColumnIndex file "IPN").toNat "") := by
          by_contra hng
          rw [((extractCategory_eq _).2 hng)] at hcat
          exact hm hcat.symm
        refine ⟨row, hrow, _, ?_, hne, hg, ?_⟩
        · rw [ipnCell, if_pos ⟨hidx, hlen⟩]
        · rw [← hcat, ((extractCategory_eq _).1 hg).1]
      · rintro ⟨row, hrow, v, hcell, hne, hg, hm⟩
        unfold ipnCell at hcell
        split_ifs at hcell with hc
        simp only [Option.some.injEq] at hcell
        subst hcell
        refine ⟨row, hrow, hc.2, hne, ?_, ?_⟩
        · rw [hm, ((extractCategory_eq _).1 hg).1]
        · rw [hm, ← ((extractCategory_eq _).1 hg).1]
          exact ((extractCategory_eq _).1 hg).2
    · rw [if_neg hidx]
      constructor
      · intro h; cases h
      · rintro ⟨row, hrow, v, hcell, -⟩
        unfold ipnCell at hcell
        split_ifs at hcell with hc
        exact absurd hc.1 hidx
  rw [hleft, hright]

/-! ## Lemmas: the loops of `getPartsByCategory` -/

theorem KiCadServer.ipnCell_cases (file : CSVFile) (row : List String) :
    (findColumnIndex file "IPN" ≥ 0 ∧ (row.length : Int) > findColumnIndex file "IPN" ∧
        row.getD (findColumnIndex file "IPN").toNat "" ≠ "" →
      ipnCell file row = some (row.getD (findColumnIndex file "IPN").toNat "")) ∧
    (¬ (findColumnIndex file "IPN" ≥ 0 ∧ (row.length : Int) > findColumnIndex file "IPN" ∧
        row.getD (findColumnIndex file "IPN").toNat "" ≠ "") →
      ipnCell file row = none ∨ ipnCell file row = some "") := by
  constructor
  · intro h
    rw [ipnCell, if_pos ⟨h.1, h.2.1⟩]
  · intro h
    unfold ipnCell
    by_cases hc : 0 ≤ findColumnIndex file "IPN" ∧ findColumnIndex file "IPN" < (row.length : Int)
    · rw [if_pos hc]
      right
      by_contra hne
      exact h ⟨hc.1, hc.2, fun he => hne (by rw [he])⟩
    · rw [if_neg hc]; left; rfl

theorem KiCadServer.partCategory_eq (toUpper : String → String) (file : CSVFile)
    (row : List String) :
    (if findColumnIndex file "IPN" ≥ 0 ∧ (row.length : Int) > findColumnIndex file "IPN" ∧
        row.getD (findColumnIndex file "IPN").toNat "" ≠ "" then
      extractCategory (row.getD (findColumnIndex file "IPN").toNat "")
    else storeCategory toUpper file) = effectiveCategory toUpper file row := by
  unfold effectiveCategory
  by_cases hc : findColumnIndex file "IPN" ≥ 0 ∧
      (row.length : Int) > findColumnIndex file "IPN" ∧
      row.getD (findColumnIndex file "IPN").toNat "" ≠ ""
  · rw [if_pos hc, (ipnCell_cases file row).1 hc]
    simp only [ne_eq, hc.2.2, not_false_eq_true, if_true]
  · rw [if_neg hc]
    rcases (ipnCell_cases file row).2 hc with h | h <;> simp [h]

theorem KiCadServer.partID_eq (categoryID : String) (n : Nat) (file : CSVFile)
    (row : List String) :
    (if findColumnIndex file "IPN" ≥ 0 ∧ (row.length : Int) > findColumnIndex file "IPN" ∧
        row.getD (findColumnIndex file "IPN").toNat "" ≠ "" then
      row.getD (findColumnIndex file "IPN").toNat ""
    else categoryID ++ "-unknown-" ++ sprintfd n) = (summaryOf categoryID n file row).ID := by
  unfold summaryOf sprintfd
  by_cases hc : findColumnIndex file "IPN" ≥ 0 ∧
      (row.length : Int) > findColumnIndex file "IPN" ∧
      row.getD (findColumnIndex file "IPN").toNat "" ≠ ""
  · rw [if_pos hc, (ipnCell_cases file row).1 hc]
    simp only [ne_eq, hc.2.2, not_false_eq_true, if_true]
  · rw [if_neg hc]
    rcases (ipnCell_cases file row).2 hc with h | h <;> simp [h]

theorem KiCadServer.length_numbered (categoryID : String) (n : Nat)
    (l : List (CSVFile × List String)) : (numbered categoryID n l).length = l.length := by
  induction l generalizing n with
  | nil => rfl
  | cons fr rest ih =>
    obtain ⟨file, row⟩ := fr
    simp [numbered, ih]

theorem KiCadServer.numbered_append (categoryID : String) (n : Nat)
    (l₁ l₂ : List (CSVFile × List String)) :
    numbered categoryID n (l₁ ++ l₂) =
      numbered categoryID n l₁ ++ numbered categoryID (n + l₁.length) l₂ := by
  induction l₁ generalizing n with
  | nil => simp [numbered]
  | cons fr rest ih =>
    obtain ⟨file, row⟩ := fr
    have hidx : n + 1 + rest.length = n + (rest.length + 1) := by omega
    rw [List.cons_append]
    simp only [numbered, List.length_cons, List.cons_append]
    rw [ih, hidx]

theorem KiCadServer.numbered_getElem? (categoryID : String) (n j : Nat)
    (l : List (CSVFile × List String)) (file : CSVFile) (row : List String)
    (h : l[j]? = some (file, row)) :
    (numbered categoryID n l)[j]? = some (summaryOf categoryID (n + j) file row) := by
  induction l generalizing n j with
  | nil => simp at h
  | cons fr rest ih =>
    obtain ⟨file0, row0⟩ := fr
    cases j with
    | zero =>
      simp only [List.getElem?_cons_zero, Option.some.injEq, Prod.mk.injEq] at h
      obtain ⟨rfl, rfl⟩ := h
      simp [numbered]
    | succ j =>
      simp only [List.getElem?_cons_succ] at h
      simp only [numbered, List.getElem?_cons_succ]
      rw [ih (n + 1) j h]
      congr 2
      omega

theorem KiCadServer.partsInRows_eq (toUpper : String → String) (categoryID : String)
    (file : CSVFile) (rows : List (List String)) (parts : List KiCadPartSummary) :
    partsInRows categoryID (storeCategory toUpper file) (findColumnIndex file "IPN")
        (findColumnIndex file "Description") rows parts =
      parts ++ numbered categoryID parts.length
        ((rows.filter (fun row =>
          decide (row ≠ [] ∧ effectiveCategory toUpper file row = categoryID))).map
          (fun row => (file, row))) := by
  induction rows generalizing parts with
  | nil => simp [partsInRows, numbered]
  | cons row rest ih =>
    simp only [partsInRows]
    by_cases hlen : row.length = 0
    · have hnil : row = [] := List.length_eq_zero.1 hlen
      rw [if_pos hlen, ih, List.filter_cons_of_neg (by simp [hnil])]
    · have hne : row ≠ [] := fun h => hlen (by rw [h]; rfl)
      rw [if_neg hlen, partCategory_eq toUpper file row]
      by_cases hcat : effectiveCategory toUpper file row = categoryID
      · rw [if_pos hcat, ih, List.filter_cons_of_pos (by simp [hne, hcat]), List.map_cons,
          numbered, partID_eq categoryID parts.length file row]
        have hname : (if findColumnIndex file "Description" ≥ 0 ∧
            (row.length : Int) > findColumnIndex file "Description" then
            row.getD (findColumnIndex file "Description").toNat "" else "") =
            descriptionCell file row := rfl
        rw [hname]
        simp [summaryOf]
      · rw [if_neg hcat, ih, List.filter_cons_of_neg (by simp [hcat])]

theorem KiCadServer.partsInFiles_eq (toUpper : String → String) (categoryID : String)
    (files : List CSVFile) (parts : List KiCadPartSummary) :
    partsInFiles toUpper categoryID files parts =
      parts ++ numbered categoryID parts.length (categoryRows toUpper files categoryID) := by
  induction files generalizing parts with
  | nil => simp [partsInFiles, categoryRows, numbered]
  | cons file rest ih =>
    have hcat : (if (upperBaseName toUpper file).utf8ByteSize = 3 then
        upperBaseName toUpper file else "") = storeCategory toUpper file := rfl
    simp only [partsInFiles, hcat]
    rw [ih, partsInRows_eq]
    simp only [categoryRows, List.flatMap_cons, numbered_append, List.length_append,
      length_numbered, List.append_assoc]

/-! ## Lemmas: the detail of a part -/

theorem mapGet_mapSet (fields : List (String × KiCadPartField)) (k k' : String)
    (v : KiCadPartField) :
    mapGet (mapSet fields k v) k' = if k = k' then some v else mapGet fields k' := by
  induction fields with
  | nil =>
    simp only [mapSet, mapGet]
  | cons kv rest ih =>
    obtain ⟨k0, v0⟩ := kv
    simp only [mapSet]
    by_cases h0 : k0 = k
    · subst h0
      simp only [if_true, mapGet]
      by_cases h1 : k0 = k' <;> simp [h1]
    · simp only [h0, if_false, mapGet, ih]
      by_cases h1 : k0 = k'
      · subst h1
        simp [Ne.symm h0]
      · simp [h1]

theorem KiCadServer.rowCellAt_of_not_mem (headers cells : List String) (h : String)
    (hnot : h ∉ headers) : rowCellAt headers cells h = none := by
  induction headers generalizing cells with
  | nil => cases cells <;> rfl
  | cons header rest ih =>
    cases cells with
    | nil => rfl
    | cons cell cs =>
      simp only [rowCellAt]
      rw [if_neg (fun e => hnot (by simp [e])), ih cs (fun e => hnot (by simp [e]))]

/-- Under distinct headers, the cell under the header `h` is the cell at the
position of `h`. -/
theorem KiCadServer.rowCellAt_eq_some (headers cells : List String) (h v : String)
    (hnd : headers.Nodup) :
    rowCellAt headers cells h = some v ↔
      ∃ i : Nat, headers[i]? = some h ∧ cells[i]? = some v := by
  induction headers generalizing cells with
  | nil => cases cells <;> simp [rowCellAt]
  | cons header rest ih =>
    rw [List.nodup_cons] at hnd
    cases cells with
    | nil => simp [rowCellAt]
    | cons cell cs =>
      simp only [rowCellAt]
      by_cases hh : header = h
      · subst hh
        rw [if_pos rfl]
        constructor
        · intro hv
          exact ⟨0, by simp, by simpa using hv⟩
        · rintro ⟨i, hi, hc⟩
          cases i with
          | zero => simpa using hc
          | succ i =>
            simp only [List.getElem?_cons_succ] at hi
            exact absurd (List.getElem?_mem hi) hnd.1
      · rw [if_neg hh, ih cs hnd.2]
        constructor
        · rintro ⟨i, hi, hc⟩
          exact ⟨i + 1, by simpa using hi, by simpa using hc⟩
        · rintro ⟨i, hi, hc⟩
          cases i with
          | zero =>
            simp only [List.getElem?_cons_zero, Option.some.injEq] at hi
            exact absurd hi hh
          | succ i => exact ⟨i, by simpa using hi, by simpa using hc⟩

/-- The loop over the headers, under distinct headers: the entry of each
header and the name, from the state the loop starts in. -/
theorem KiCadServer.detailFields_spec (headers cells : List String)
    (fields : List (String × KiCadPartField)) (partName : String) (hnd : headers.Nodup) :
    (∀ h, mapGet (detailFields headers cells (fields, partName)).1 h =
      match rowCellAt headers cells h with
      | some v => if v ≠ "" ∧ h ≠ "" then some ⟨v, ""⟩ else mapGet fields h
      | none => mapGet fields h) ∧
    (detailFields headers cells (fields, partName)).2 =
      match rowCellAt headers cells "Description" with
      | some v => if v ≠ "" then v else partName
      | none => partName := by
  induction headers generalizing cells fields partName with
  | nil => cases cells <;> simp [detailFields, rowCellAt]
  | cons header rest ih =>
    rw [List.nodup_cons] at hnd
    cases cells with
    | nil => simp [detailFields, rowCellAt]
    | cons cell cs =>
      simp only [detailFields, rowCellAt]
      by_cases hc : cell ≠ "" ∧ header ≠ ""
      · rw [if_pos hc]
        obtain ⟨ih1, ih2⟩ := ih cs (mapSet fields header ⟨cell, ""⟩)
          (if header = "Description" then cell else partName) hnd.2
        constructor
        · intro h
          rw [ih1 h]
          by_cases hh : header = h
          · subst hh
            rw [rowCellAt_of_not_mem rest cs header hnd.1]
            simp only [mapGet_mapSet, if_true]
            rw [if_pos hc]
          · rw [if_neg hh]
            have hset : mapGet (mapSet fields header ⟨cell, ""⟩) h = mapGet fields h := by
              rw [mapGet_mapSet, if_neg hh]
            rw [hset]
        · rw [ih2]
          by_cases hd : header = "Description"
          · rw [hd] at hnd
            rw [if_pos hd, if_pos hd, rowCellAt_of_not_mem rest cs "Description" hnd.1]
            simp only [ne_eq, hc.1, not_false_eq_true, if_true]
          · rw [if_neg hd, if_neg hd]
      · rw [if_neg hc]
        obtain ⟨ih1, ih2⟩ := ih cs fields partName hnd.2
        constructor
        · intro h
          rw [ih1 h]
          by_cases hh : header = h
          · subst hh
            rw [rowCellAt_of_not_mem rest cs header hnd.1]
            simp only [if_true]
            rw [if_neg hc]
          · rw [if_neg hh]
        · rw [ih2]
          by_cases hd : header = "Description"
          · have hcell : cell = "" := by
              by_contra hne
              exact hc ⟨hne, by rw [hd]; decide⟩
            rw [hd] at hnd
            rw [if_pos hd, rowCellAt_of_not_mem rest cs "Description" hnd.1]
            simp only [hcell, ne_eq, not_true_eq_false, if_false]
          · rw [if_neg hd]

theorem KiCadServer.detailInRows_some (partID : String) (file : CSVFile)
    (rows : List (List String)) (d : KiCadPartDetail)
    (h : detailInRows partID file (findColumnIndex file "IPN") rows = some d) :
    ∃ row ∈ rows, row ≠ [] ∧ (ipnCell file row).getD "" = partID ∧
      d = buildDetail partID file row := by
  induction rows with
  | nil => simp [detailInRows] at h
  | cons row rest ih =>
    simp only [detailInRows] at h
    by_cases hlen : row.length = 0
    · rw [if_pos hlen] at h
      obtain ⟨r, hr, hrest⟩ := ih h
      exact ⟨r, List.mem_cons_of_mem _ hr, hrest⟩
    · rw [if_neg hlen] at h
      have hid : (if findColumnIndex file "IPN" ≥ 0 ∧
          (row.length : Int) > findColumnIndex file "IPN" then
          row.getD (findColumnIndex file "IPN").toNat "" else "") =
          (ipnCell file row).getD "" := by
        unfold ipnCell
        by_cases hc : 0 ≤ findColumnIndex file "IPN" ∧
            findColumnIndex file "IPN" < (row.length : Int)
        · rw [if_pos hc, if_pos hc]; rfl
        · rw [if_neg hc, if_neg hc]; rfl
      rw [hid] at h
      by_cases heq : (ipnCell file row).getD "" = partID
      · rw [if_pos heq] at h
        simp only [Option.some.injEq] at h
        exact ⟨row, List.mem_cons_self _ _, fun hnil => hlen (by rw [hnil]; rfl), heq, h.symm⟩
      · rw [if_neg heq] at h
        obtain ⟨r, hr, hrest⟩ := ih h
        exact ⟨r, List.mem_cons_of_mem _ hr, hrest⟩

/-- The row `getPartDetail` has built its detail from. -/
theorem KiCadServer.getPartDetail_some (files : List CSVFile) (partID : String)
    (d : KiCadPartDetail) (h : getPartDetail files partID = some d) :
    ∃ file ∈ files, ∃ row ∈ file.Rows, row ≠ [] ∧ (ipnCell file row).getD "" = partID ∧
      d = buildDetail partID file row := by
  induction files with
  | nil => simp [getPartDetail] at h
  | cons file rest ih =>
    simp only [getPartDetail] at h
    cases hrows : detailInRows partID file (findColumnIndex file "IPN") file.Rows with
    | some d0 =>
      rw [hrows] at h
      simp only [Option.some.injEq] at h
      subst h
      obtain ⟨row, hrow, hrest⟩ := detailInRows_some partID file file.Rows d0 hrows
      exact ⟨file, List.mem_cons_self _ _, row, hrow, hrest⟩
    | none =>
      rw [hrows] at h
      obtain ⟨f, hf, hrest⟩ := ih h
      exact ⟨f, List.mem_cons_of_mem _ hf, hrest⟩

/-! ## Lemmas: `getPartDetail` against `findPart` -/

theorem KiCadServer.detailInRows_eq_findRowFrom (partID : String) (hid : partID ≠ "")
    (file : CSVFile) (ipnIdx : Int) (rows : List (List String)) (i : Nat) :
    detailInRows partID file ipnIdx rows =
      match findRowFrom ipnIdx partID rows i with
      | none => none
      | some r => (rows[r - i]?).map (buildDetail partID file) := by
  induction rows generalizing i with
  | nil => simp [detailInRows, findRowFrom]
  | cons row rest ih =>
    have hstep : ∀ r, findRowFrom ipnIdx partID rest (i + 1) = some r →
        (row :: rest)[r - i]? = rest[r - (i + 1)]? := by
      intro r hr
      obtain ⟨j, _, hj, -⟩ := findRowFrom_some ipnIdx partID rest (i + 1) r hr
      have hri : r - i = (r - (i + 1)) + 1 := by omega
      rw [hri, List.getElem?_cons_succ]
    have hrest : detailInRows partID file ipnIdx rest =
        match findRowFrom ipnIdx partID rest (i + 1) with
        | none => none
        | some r => ((row :: rest)[r - i]?).map (buildDetail partID file) := by
      rw [ih (i + 1)]
      cases hr : findRowFrom ipnIdx partID rest (i + 1) with
      | none => rfl
      | some r =>
        simp only
        rw [hstep r hr]
    by_cases hc : ipnIdx ≥ 0 ∧ (row.length : Int) > ipnIdx ∧ row.getD ipnIdx.toNat "" = partID
    · have hlen : ¬ row.length = 0 := by
        intro h0
        have h1 := hc.1
        have h2 := hc.2.1
        rw [h0] at h2
        omega
      simp only [detailInRows, findRowFrom]
      have hrp : (if ipnIdx ≥ 0 ∧ (row.length : Int) > ipnIdx then row.getD ipnIdx.toNat ""
          else "") = partID := by
        rw [if_pos ⟨hc.1, hc.2.1⟩]
        exact hc.2.2
      rw [if_neg hlen, if_pos hc, if_pos hrp]
      simp
    · simp only [detailInRows, findRowFrom]
      rw [if_neg hc]
      by_cases hlen : row.length = 0
      · rw [if_pos hlen]
        exact hrest
      · rw [if_neg hlen]
        have hrp : ¬ (if ipnIdx ≥ 0 ∧ (row.length : Int) > ipnIdx then
            row.getD ipnIdx.toNat "" else "") = partID := by
          by_cases h1 : ipnIdx ≥ 0 ∧ (row.length : Int) > ipnIdx
          · rw [if_pos h1]
            exact fun h2 => hc ⟨h1.1, h1.2, h2⟩
          · rw [if_neg h1]
            exact fun h2 => hid h2.symm
        rw [if_neg hrp]
        exact hrest

theorem KiCadServer.getPartDetail_eq_findPartFrom (partID : String) (hid : partID ≠ "")
    (files : List CSVFile) (k : Nat) :
    getPartDetail files partID =
      match findPartFrom partID files k with
      | none => none
      | some (a, r) =>
        match files[a - k]? with
        | none => none
        | some file => (file.Rows[r]?).map (buildDetail partID file) := by
  induction files generalizing k with
  | nil => simp [getPartDetail, findPartFrom]
  | cons file rest ih =>
    simp only [getPartDetail, findPartFrom]
    rw [detailInRows_eq_findRowFrom partID hid file _ file.Rows 0]
    cases hrow : findRowFrom (findColumnIndex file "IPN") partID file.Rows 0 with
    | some i =>
      obtain ⟨j, row, hj, hget, -⟩ := findRowFrom_some _ partID file.Rows 0 i hrow
      have hij : i = j := by omega
      subst hij
      simp [hget]
    | none =>
      simp only
      rw [ih (k + 1)]
      cases hrest : findPartFrom partID rest (k + 1) with
      | none => rfl
      | some p =>
        obtain ⟨a, r⟩ := p
        obtain ⟨j, _, hj, -⟩ := findPartFrom_some partID rest (k + 1) a r hrest
        have hak : a - k = (a - (k + 1)) + 1 := by omega
        simp only
        rw [hak, List.getElem?_cons_succ]

/-- For an id other than the empty string, `getPartDetail` returns a detail
exactly when `findPart` locates a row, and the detail is built from that row. -/
theorem KiCadServer.getPartDetail_eq_findPart (files : List CSVFile) (partID : String)
    (hid : partID ≠ "") :
    getPartDetail files partID =
      match findPart files partID with
      | none => none
      | some (k, r) =>
        match files[k]? with
        | none => none
        | some file => (file.Rows[r]?).map (buildDetail partID file) := by
  rw [getPartDetail_eq_findPartFrom partID hid files 0]
  rfl

/-! ## Lemmas: the grammar of `newIpn` -/

/-- The counted grammar of the specification and the pattern of
`extractCategory` accept the same strings. -/
theorem matchCounted_ipnGrammar (l : List Char) :
    matchCounted ipnCounted l = matchClasses ipnPattern l := by
  rcases l with _ | ⟨c1, _ | ⟨c2, _ | ⟨c3, _ | ⟨d1, _ | ⟨n1, _ | ⟨n2, _ | ⟨n3, _ | ⟨d2, _ |
    ⟨v1, _ | ⟨v2, _ | ⟨v3, _ | ⟨v4, _ | ⟨x, rest⟩⟩⟩⟩⟩⟩⟩⟩⟩⟩⟩⟩⟩ <;>
    simp [matchCounted, ipnCounted, matchClasses, ipnPattern, Bool.and_assoc]

theorem isLower_iff (c : Char) : c.isLower = decide (97 ≤ c.toNat ∧ c.toNat ≤ 122) := by
  unfold Char.isLower
  have h1 : (c.val ≥ 97) ↔ 97 ≤ c.toNat := by
    show (97 : UInt32) ≤ c.val ↔ _
    rw [UInt32.le_def]
    rfl
  have h2 : (c.val ≤ 122) ↔ c.toNat ≤ 122 := by
    rw [UInt32.le_def]
    rfl
  simp only [h1, h2, Bool.decide_and]

theorem isUpperAZ_not_lower (c : Char) (h : isUpperAZ c = true) :
    c ≠ '-' ∧ c.isLower = false := by
  simp only [isUpperAZ, decide_eq_true_eq] at h
  have hA : 'A'.toNat = 65 := rfl
  have hZ : 'Z'.toNat = 90 := rfl
  rw [hA, hZ] at h
  constructor
  · rintro rfl
    revert h
    decide
  · rw [isLower_iff]
    simp only [decide_eq_false_iff_not]
    omega

theorem isDecimalDigit_not_lower (c : Char) (h : isDecimalDigit c = true) :
    c ≠ '-' ∧ c.isLower = false := by
  simp only [isDecimalDigit, decide_eq_true_eq] at h
  have h0 : '0'.toNat = 48 := rfl
  have h9 : '9'.toNat = 57 := rfl
  rw [h0, h9] at h
  constructor
  · rintro rfl
    revert h
    decide
  · rw [isLower_iff]
    simp only [decide_eq_false_iff_not]
    omega

/-- A string of the grammar has no lowercase letter, and its dashes cut it
into three components of 3, 3 and 4 characters. -/
theorem IpnGrammar_shape (s : String) (h : IpnGrammar s) :
    s.toList.any Char.isLower = false ∧
      (stringsSplitDash s).map String.length = [3, 3, 4] := by
  obtain ⟨c1, c2, c3, n1, n2, n3, v1, v2, v3, v4, hl, h1, h2, h3, h5, h6, h7, h9, h10, h11,
    h12⟩ := h
  have a1 := isUpperAZ_not_lower c1 h1
  have a2 := isUpperAZ_not_lower c2 h2
  have a3 := isUpperAZ_not_lower c3 h3
  have a5 := isDecimalDigit_not_lower n1 h5
  have a6 := isDecimalDigit_not_lower n2 h6
  have a7 := isDecimalDigit_not_lower n3 h7
  have a9 := isDecimalDigit_not_lower v1 h9
  have a10 := isDecimalDigit_not_lower v2 h10
  have a11 := isDecimalDigit_not_lower v3 h11
  have a12 := isDecimalDigit_not_lower v4 h12
  constructor
  · rw [hl]
    simp [a1.2, a2.2, a3.2, a5.2, a6.2, a7.2, a9.2, a10.2, a11.2, a12.2]
  · rw [stringsSplitDash, hl]
    simp [splitDash, a1.1, a2.1, a3.1, a5.1, a6.1, a7.1, a9.1, a10.1, a11.1, a12.1,
      String.length]

/-- The two outcomes of `newIpn`. -/
theorem newIpn_eq (s : String) :
    newIpn s =
      if matchClasses ipnPattern s.toList = true then .ok s
      else .error (.error "InvalidFormat") := by
  rw [newIpn, matchCounted_ipnGrammar]

/-! ## Lemmas: the name of a store -/

theorem length_le_utf8ByteSize_go (cs : List Char) : cs.length ≤ String.utf8ByteSize.go cs := by
  induction cs with
  | nil => simp [String.utf8ByteSize.go]
  | cons c cs ih =>
    have hpos := Char.utf8Size_pos c
    simp only [String.utf8ByteSize.go, List.length_cons]
    omega

/-- A string has at most as many characters as bytes. -/
theorem length_le_utf8ByteSize (s : String) : s.toList.length ≤ s.utf8ByteSize :=
  length_le_utf8ByteSize_go s.data

/-- The call `strings.TrimSuffix(name, ".CSV")` returns a string `code` of
three bytes exactly when `name` is `code` followed by `.CSV`, or `name` is
`code` itself. -/
theorem stringsTrimSuffix_csv (name code : String) (h3 : code.utf8ByteSize = 3) :
    stringsTrimSuffix name ".CSV" = code ↔ (name = code ++ ".CSV" ∨ name = code) := by
  have hlen : code.toList.length ≤ 3 := by
    have := length_le_utf8ByteSize code
    omega
  have hsuf : ".CSV".toList = ['.', 'C', 'S', 'V'] := rfl
  constructor
  · intro h
    unfold stringsTrimSuffix at h
    by_cases hs : (".CSV".toList.isSuffixOf name.toList) = true
    · rw [if_pos hs] at h
      left
      rw [List.isSuffixOf_iff_suffix] at hs
      obtain ⟨pre, hpre⟩ := hs
      have htake : name.toList.take (name.toList.length - ".CSV".toList.length) = pre := by
        rw [← hpre]
        simp
      rw [htake] at h
      rw [← h]
      apply String.ext
      show name.data = (String.mk pre ++ ".CSV").data
      rw [String.data_append]
      exact hpre.symm
    · rw [if_neg hs] at h
      exact Or.inr h
  · rintro (h | h)
    · subst h
      unfold stringsTrimSuffix
      have hs : (".CSV".toList.isSuffixOf (code ++ ".CSV").toList) = true := by
        rw [List.isSuffixOf_iff_suffix]
        exact ⟨code.toList, by simp [String.toList, String.data_append]⟩
      rw [if_pos hs]
      apply String.ext
      simp [String.toList, String.data_append]
    · subst h
      unfold stringsTrimSuffix
      have hs : ¬ (".CSV".toList.isSuffixOf name.toList) = true := by
        rw [List.isSuffixOf_iff_suffix]
        rintro ⟨pre, hpre⟩
        have := congrArg List.length hpre
        rw [List.length_append, hsuf] at this
        simp only [List.length_cons, List.length_nil] at this
        omega
      rw [if_neg hs]

/-- The category a store stands for by its name, without reference to how
the name is trimmed: the three-byte string `c` such that the upper-cased name
is `c` or `c` followed by `.CSV`, and the empty string when there is none. -/
theorem KiCadServer.storeCategory_eq (toUpper : String → String) (file : CSVFile)
    (c : String) :
    storeCategory toUpper file = c ↔
      (c.utf8ByteSize = 3 ∧
        (toUpper file.Name = c ++ ".CSV" ∨ toUpper file.Name = c)) ∨
      (c = "" ∧ ∀ d : String, d.utf8ByteSize = 3 →
        toUpper file.Name ≠ d ++ ".CSV" ∧ toUpper file.Name ≠ d) := by
  unfold storeCategory upperBaseName
  by_cases h3 : (stringsTrimSuffix (toUpper file.Name) ".CSV").utf8ByteSize = 3
  · rw [if_pos h3]
    constructor
    · intro h
      subst h
      exact Or.inl ⟨h3, (stringsTrimSuffix_csv (toUpper file.Name) _ h3).1 rfl⟩
    · rintro (⟨hc3, hor⟩ | ⟨-, hall⟩)
      · exact (stringsTrimSuffix_csv (toUpper file.Name) c hc3).2 hor
      · have hor := (stringsTrimSuffix_csv (toUpper file.Name) _ h3).1 rfl
        obtain ⟨hn1, hn2⟩ := hall _ h3
        rcases hor with h | h
        · exact absurd h hn1
        · exact absurd h hn2
  · rw [if_neg h3]
    constructor
    · intro h
      refine Or.inr ⟨h.symm, ?_⟩
      intro d hd
      constructor
      · intro hname
        have htrim := (stringsTrimSuffix_csv (toUpper file.Name) d hd).2 (Or.inl hname)
        rw [htrim] at h3
        exact h3 hd
      · intro hname
        have htrim := (stringsTrimSuffix_csv (toUpper file.Name) d hd).2 (Or.inr hname)
        rw [htrim] at h3
        exact h3 hd
    · rintro (⟨hc3, hor⟩ | ⟨hc, -⟩)
      · have htrim := (stringsTrimSuffix_csv (toUpper file.Name) c hc3).2 hor
        rw [htrim] at h3
        exact absurd hc3 h3
      · exact hc.symm

/-! ## Claims on the listings -/

/-- C16 (counterexample): the length that decides whether the name of a store
is a category is the length in bytes, not in characters.  The store `AÉ.csv`,
whose only row has an empty identity value, gives the id `AÉ`, a name of two
characters (three bytes); the store `ÄÖÜ.csv`, a name of three characters
(six bytes), gives no id. -/
theorem getCategories_counts_bytes :
    (KiCadServer.getCategories asciiUpper [accentFile]).map (fun c => c.ID) = ["AÉ"] ∧
    asciiUpper accentFile.Name = "AÉ" ++ ".CSV" ∧
    "AÉ".length = 2 ∧ "AÉ".utf8ByteSize = 3 ∧
    (∀ row ∈ accentFile.Rows, KiCadServer.ipnCell accentFile row = some "") ∧
    (KiCadServer.getCategories asciiUpper [umlautFile]).map (fun c => c.ID) = [] ∧
    asciiUpper umlautFile.Name = "ÄÖÜ" ++ ".CSV" ∧
    "ÄÖÜ".length = 3 ∧ "ÄÖÜ".utf8ByteSize = 6 := by
  decide

/-- C16 (amended): the ids `getCategories` returns are in strictly increasing
order (sorted, no duplicates), and a code is among them exactly when it is
three bytes long (the `len` of the code) and the upper-cased name of some
store is the code followed by `.CSV` or the code itself, or it is the first
three letters of a non-empty identity-column value of some row that matches
the grammar `CCC-NNN-VVVV`. -/
theorem getCategories_ids (toUpper : String → String) (files : List CSVFile) :
    ((KiCadServer.getCategories toUpper files).map (fun c => c.ID)).Pairwise stringLess ∧
    ((KiCadServer.getCategories toUpper files).map (fun c => c.ID)).Nodup ∧
    ∀ code, code ∈ (KiCadServer.getCategories toUpper files).map (fun c => c.ID) ↔
      (∃ file ∈ files, code.utf8ByteSize = 3 ∧
        (toUpper file.Name = code ++ ".CSV" ∨ toUpper file.Name = code)) ∨
      (∃ file ∈ files, ∃ row ∈ file.Rows, ∃ v,
        KiCadServer.ipnCell file row = some v ∧ v ≠ "" ∧ IpnGrammar v ∧
        code = String.mk (v.toList.take 3)) := by
  have hids : (KiCadServer.getCategories toUpper files).map (fun c => c.ID) =
      sortedKeys (files.flatMap (KiCadServer.fileCategoryKeys toUpper)) := by
    simp [KiCadServer.getCategories, List.map_map, Function.comp_def]
  rw [hids]
  obtain ⟨hsorted, hmem⟩ := sortedKeys_spec (files.flatMap (KiCadServer.fileCategoryKeys toUpper))
  refine ⟨hsorted, ?_, ?_⟩
  · unfold List.Nodup
    refine hsorted.imp ?_
    intro a b hab heq
    subst heq
    exact stringLess_irrefl a hab
  · intro code
    rw [hmem, List.mem_flatMap]
    constructor
    · rintro ⟨file, hfile, hcode⟩
      rcases (KiCadServer.mem_fileCategoryKeys toUpper file code).1 hcode with h | h
      · exact Or.inl ⟨file, hfile, h.2,
          (stringsTrimSuffix_csv (toUpper file.Name) code h.2).1 h.1⟩
      · exact Or.inr ⟨file, hfile, h⟩
    · rintro (⟨file, hfile, h3, hname⟩ | ⟨file, hfile, h⟩)
      · exact ⟨file, hfile, (KiCadServer.mem_fileCategoryKeys toUpper file code).2
          (Or.inl ⟨(stringsTrimSuffix_csv (toUpper file.Name) code h3).2 hname, h3⟩)⟩
      · exact ⟨file, hfile, (KiCadServer.mem_fileCategoryKeys toUpper file code).2 (Or.inr h)⟩

/-- C17 (counterexample): the store `ÄÖÜ.csv` has a name of three characters
and a row with at least one cell and an empty identity value, and
`getPartsByCategory` lists that row for the empty category and not for `ÄÖÜ`:
the name is six bytes long.  The store `AÉ.csv`, a name of two characters in
three bytes, has its row listed for `AÉ`. -/
theorem getPartsByCategory_counts_bytes :
    KiCadServer.getPartsByCategory asciiUpper [umlautFile] "ÄÖÜ" = [] ∧
    KiCadServer.getPartsByCategory asciiUpper [umlautFile] "" =
      [⟨"-unknown-0", "umlaut part", "umlaut part"⟩] ∧
    asciiUpper umlautFile.Name = "ÄÖÜ" ++ ".CSV" ∧ "ÄÖÜ".length = 3 ∧
    umlautFile.Rows = [["", "umlaut part"]] ∧
    KiCadServer.ipnCell umlautFile ["", "umlaut part"] = some "" ∧
    KiCadServer.getPartsByCategory asciiUpper [accentFile] "AÉ" =
      [⟨"AÉ-unknown-0", "accent part", "accent part"⟩] ∧
    asciiUpper accentFile.Name = "AÉ" ++ ".CSV" ∧ "AÉ".length = 2 := by
  decide

/-- C17 (amended): `getPartsByCategory` returns one summary for each row that
has at least one cell and whose effective category is `categoryID`, in file
order and then row order: the summary at position `n` belongs to the `n`-th
such row.  The effective category of a row with a non-empty identity value is
the category of that value alone (its first three letters when the value
matches the grammar, the empty string when it does not).  Otherwise it is the
three-byte string `c` such that the upper-cased name of the store is `c`
followed by `.CSV` or `c` itself, and the empty string when there is no such
`c`.  The id of the summary is the identity value when there is a non-empty
one and `<categoryID>-unknown-<n>` otherwise; its name and its description are
both the cell of the column `Description` (empty when there is none). -/
theorem getPartsByCategory_lists (toUpper : String → String) (files : List CSVFile)
    (categoryID : String) :
    (KiCadServer.getPartsByCategory toUpper files categoryID).length =
      (KiCadServer.categoryRows toUpper files categoryID).length ∧
    (∀ file row, (file, row) ∈ KiCadServer.categoryRows toUpper files categoryID ↔
      file ∈ files ∧ row ∈ file.Rows ∧ row ≠ [] ∧
        KiCadServer.effectiveCategory toUpper file row = categoryID) ∧
    (∀ file row,
      (∀ v, KiCadServer.ipnCell file row = some v → v ≠ "" →
        KiCadServer.effectiveCategory toUpper file row = KiCadServer.extractCategory v ∧
        (IpnGrammar v →
          KiCadServer.effectiveCategory toUpper file row = String.mk (v.toList.take 3)) ∧
        (¬ IpnGrammar v → KiCadServer.effectiveCategory toUpper file row = "")) ∧
      (KiCadServer.ipnCell file row = none ∨ KiCadServer.ipnCell file row = some "" →
        ∀ c, KiCadServer.effectiveCategory toUpper file row = c ↔
          (c.utf8ByteSize = 3 ∧
            (toUpper file.Name = c ++ ".CSV" ∨ toUpper file.Name = c)) ∨
          (c = "" ∧ ∀ d : String, d.utf8ByteSize = 3 →
            toUpper file.Name ≠ d ++ ".CSV" ∧ toUpper file.Name ≠ d))) ∧
    (∀ (n : Nat) (file : CSVFile) (row : List String),
      (KiCadServer.categoryRows toUpper files categoryID)[n]? = some (file, row) →
      ∃ s, (KiCadServer.getPartsByCategory toUpper files categoryID)[n]? = some s ∧
        s.Name = KiCadServer.descriptionCell file row ∧
        s.Description = KiCadServer.descriptionCell file row ∧
        (∀ v, KiCadServer.ipnCell file row = some v → v ≠ "" → s.ID = v) ∧
        (KiCadServer.ipnCell file row = none ∨ KiCadServer.ipnCell file row = some "" →
          s.ID = categoryID ++ "-unknown-" ++ Nat.repr n)) := by
  have heq : KiCadServer.getPartsByCategory toUpper files categoryID =
      KiCadServer.numbered categoryID 0 (KiCadServer.categoryRows toUpper files categoryID) := by
    rw [KiCadServer.getPartsByCategory, KiCadServer.partsInFiles_eq]
    simp
  refine ⟨?_, ?_, ?_, ?_⟩
  · rw [heq, KiCadServer.length_numbered]
  · intro file row
    simp only [KiCadServer.categoryRows, List.mem_flatMap, List.mem_map, List.mem_filter,
      decide_eq_true_eq, Prod.mk.injEq]
    constructor
    · rintro ⟨f, hf, r, ⟨hr, hne, hcat⟩, rfl, rfl⟩
      exact ⟨hf, hr, hne, hcat⟩
    · rintro ⟨hf, hr, hne, hcat⟩
      exact ⟨file, hf, row, ⟨hr, hne, hcat⟩, rfl, rfl⟩
  · intro file row
    constructor
    · intro v hv hne
      have hcat : KiCadServer.effectiveCategory toUpper file row =
          KiCadServer.extractCategory v := by
        simp [KiCadServer.effectiveCategory, hv, hne]
      refine ⟨hcat, ?_, ?_⟩
      · intro hg
        rw [hcat]
        exact ((KiCadServer.extractCategory_eq v).1 hg).1
      · intro hg
        rw [hcat]
        exact (KiCadServer.extractCategory_eq v).2 hg
    · intro hcell c
      have hstore : KiCadServer.effectiveCategory toUpper file row =
          KiCadServer.storeCategory toUpper file := by
        rcases hcell with h | h <;> simp [KiCadServer.effectiveCategory, h]
      rw [hstore]
      exact KiCadServer.storeCategory_eq toUpper file c
  · intro n file row hrow
    refine ⟨KiCadServer.summaryOf categoryID n file row, ?_, rfl, rfl, ?_, ?_⟩
    · rw [heq, KiCadServer.numbered_getElem? categoryID 0 n _ file row hrow, Nat.zero_add]
    · intro v hv hne
      simp [KiCadServer.summaryOf, hv, hne]
    · rintro (h | h) <;> simp [KiCadServer.summaryOf, h]

/-- C18 (the code at the failing input): in a store without an identity
column no row has an identity-column value, and `findPart` locates nothing for
the empty id; yet `getPartDetail` returns a detail for the empty id, built
from the first row that has a cell. -/
theorem getPartDetail_empty_id :
    KiCadServer.getPartDetail [notesFile] "" =
      some { ID := "", Name := "loose part", SymbolIDStr := "Device:Device",
             ExcludeFromBOM := "false",
             Fields := [("Description", ⟨"loose part", ""⟩), ("Value", ⟨"1k", ""⟩)],
             Revision := "" } ∧
    KiCadServer.findPart [notesFile] "" = none ∧
    (∀ file ∈ [notesFile], ∀ row ∈ file.Rows, KiCadServer.ipnCell file row = none) := by
  decide

/-- C19: the detail `getPartDetail` returns is built from a row of a file of
the collection that has at least one cell and whose identity value (the empty
string when it has none) is the requested id; its id is the requested id and
its exclude-from-BOM flag is "false".  When the headers of the file are
distinct, the field mapping has an entry for a header `h` exactly when `h` is
not the empty string and the row has a non-empty cell in the column of `h`,
and the value of the entry is that cell; the name is the row's cell in the
column `Description`, and it is empty when the file has no such column or the
row does not reach it. -/
theorem getPartDetail_fields (files : List CSVFile) (partID : String) (d : KiCadPartDetail)
    (hd : KiCadServer.getPartDetail files partID = some d) :
    ∃ file ∈ files, ∃ row ∈ file.Rows, row ≠ [] ∧
      (KiCadServer.ipnCell file row).getD "" = partID ∧
      d.ID = partID ∧ d.ExcludeFromBOM = "false" ∧
      (file.Headers.Nodup →
        (∀ (h : String) (f : KiCadPartField), mapGet d.Fields h = some f ↔
          (h ≠ "" ∧ f.Value ≠ "" ∧ f.Visible = "" ∧
            ∃ i : Nat, file.Headers[i]? = some h ∧ row[i]? = some f.Value)) ∧
        (∀ (i : Nat) (v : String), file.Headers[i]? = some "Description" →
          row[i]? = some v → d.Name = v) ∧
        ((¬ ∃ (i : Nat) (v : String), file.Headers[i]? = some "Description" ∧
          row[i]? = some v) → d.Name = "")) := by
  obtain ⟨file, hfile, row, hrow, hne, hid, hbuild⟩ :=
    KiCadServer.getPartDetail_some files partID d hd
  refine ⟨file, hfile, row, hrow, hne, hid, ?_, ?_, ?_⟩
  · rw [hbuild]; rfl
  · rw [hbuild]; rfl
  · intro hnd
    obtain ⟨hfields, hname⟩ := KiCadServer.detailFields_spec file.Headers row [] "" hnd
    have hF : d.Fields = (KiCadServer.detailFields file.Headers row ([], "")).1 := by
      rw [hbuild]; rfl
    have hN : d.Name = (KiCadServer.detailFields file.Headers row ([], "")).2 := by
      rw [hbuild]; rfl
    refine ⟨?_, ?_, ?_⟩
    · intro h f
      rw [hF, hfields h]
      cases hcell : KiCadServer.rowCellAt file.Headers row h with
      | none =>
        simp only [mapGet]
        constructor
        · intro hcon; cases hcon
        · rintro ⟨-, -, -, i, hi, hv⟩
          have := (KiCadServer.rowCellAt_eq_some file.Headers row h f.Value hnd).2 ⟨i, hi, hv⟩
          rw [hcell] at this
          cases this
      | some v =>
        have hv := (KiCadServer.rowCellAt_eq_some file.Headers row h v hnd).1 hcell
        simp only [mapGet]
        by_cases hc : v ≠ "" ∧ h ≠ ""
        · rw [if_pos hc]
          constructor
          · intro hf
            simp only [Option.some.injEq] at hf
            subst hf
            exact ⟨hc.2, hc.1, rfl, hv⟩
          · rintro ⟨-, -, hvis, i, hi, hval⟩
            have := (KiCadServer.rowCellAt_eq_some file.Headers row h f.Value hnd).2
              ⟨i, hi, hval⟩
            rw [hcell] at this
            simp only [Option.some.injEq] at this
            obtain ⟨fv, fvis⟩ := f
            simp only at this hvis
            subst this hvis
            rfl
        · rw [if_neg hc]
          constructor
          · intro hcon; cases hcon
          · rintro ⟨hh, hval, -, i, hi, hvi⟩
            have := (KiCadServer.rowCellAt_eq_some file.Headers row h f.Value hnd).2
              ⟨i, hi, hvi⟩
            rw [hcell] at this
            simp only [Option.some.injEq] at this
            exact absurd ⟨by rw [this]; exact hval, hh⟩ hc
    · intro i v hi hv
      have hcell := (KiCadServer.rowCellAt_eq_some file.Headers row "Description" v hnd).2
        ⟨i, hi, hv⟩
      rw [hN, hname, hcell]
      by_cases hve : v = ""
      · simp [hve]
      · simp [hve]
    · intro hnone
      rw [hN, hname]
      cases hcell : KiCadServer.rowCellAt file.Headers row "Description" with
      | none => rfl
      | some v =>
        obtain ⟨i, hi, hv⟩ :=
          (KiCadServer.rowCellAt_eq_some file.Headers row "Description" v hnd).1 hcell
        exact absurd ⟨i, v, hi, hv⟩ hnone

/-- Witness of C19: the detail of `CAP-002-0001` in `capFile`, a row that does
not reach the column `Value`. -/
theorem getPartDetail_fields_witness :
    ∃ file ∈ [mixedFile, capFile], ∃ row ∈ file.Rows, row ≠ [] ∧
      (KiCadServer.ipnCell file row).getD "" = "CAP-002-0001" ∧
      (KiCadPartDetail.mk "CAP-002-0001" "tantalum cap" "Device:C" "false"
        [("IPN", ⟨"CAP-002-0001", ""⟩), ("Description", ⟨"tantalum cap", ""⟩)] "0001").ID
        = "CAP-002-0001" ∧
      (KiCadPartDetail.mk "CAP-002-0001" "tantalum cap" "Device:C" "false"
        [("IPN", ⟨"CAP-002-0001", ""⟩), ("Description", ⟨"tantalum cap", ""⟩)]
        "0001").ExcludeFromBOM = "false" ∧
      (file.Headers.Nodup →
        (∀ (h : String) (f : KiCadPartField),
          mapGet (KiCadPartDetail.mk "CAP-002-0001" "tantalum cap" "Device:C" "false"
            [("IPN", ⟨"CAP-002-0001", ""⟩), ("Description", ⟨"tantalum cap", ""⟩)]
            "0001").Fields h = some f ↔
          (h ≠ "" ∧ f.Value ≠ "" ∧ f.Visible = "" ∧
            ∃ i : Nat, file.Headers[i]? = some h ∧ row[i]? = some f.Value)) ∧
        (∀ (i : Nat) (v : String), file.Headers[i]? = some "Description" →
          row[i]? = some v →
          (KiCadPartDetail.mk "CAP-002-0001" "tantalum cap" "Device:C" "false"
            [("IPN", ⟨"CAP-002-0001", ""⟩), ("Description", ⟨"tantalum cap", ""⟩)]
            "0001").Name = v) ∧
        ((¬ ∃ (i : Nat) (v : String), file.Headers[i]? = some "Description" ∧
          row[i]? = some v) →
          (KiCadPartDetail.mk "CAP-002-0001" "tantalum cap" "Device:C" "false"
            [("IPN", ⟨"CAP-002-0001", ""⟩), ("Description", ⟨"tantalum cap", ""⟩)]
            "0001").Name = "")) :=
  getPartDetail_fields [mixedFile, capFile] "CAP-002-0001"
    (KiCadPartDetail.mk "CAP-002-0001" "tantalum cap" "Device:C" "false"
      [("IPN", ⟨"CAP-002-0001", ""⟩), ("Description", ⟨"tantalum cap", ""⟩)] "0001")
    (by decide)

/-! ## Claims on the identifier -/

/-- C20: `newIpn s` succeeds exactly when `s` consists of three uppercase
ASCII letters, a dash, three decimal digits, a dash and four decimal digits
and nothing else, which are the strings the pattern of `extractCategory`
matches; it then returns `s`, and otherwise it fails with `InvalidFormat`.
A string with a lowercase letter is rejected, and so is one that its dashes
do not cut into components of 3, 3 and 4 characters (a wrong digit count, a
missing separator).  On the inputs of `TestNewIpn` and of the specification:
`PCA-001-0001` is accepted; `BAD`, `pcB-001-0001`, identifiers with a digit
too few or too many, without separators, or with a character before or after
the identifier are rejected. -/
theorem newIpn_accepts_grammar (s : String) :
    ((∃ i, newIpn s = .ok i) ↔ IpnGrammar s) ∧
    ((∃ i, newIpn s = .ok i) ↔ matchClasses ipnPattern s.toList = true) ∧
    (newIpn s = .ok s ∨ newIpn s = .error (.error "InvalidFormat")) ∧
    (s.toList.any Char.isLower = false ∨ newIpn s = .error (.error "InvalidFormat")) ∧
    ((stringsSplitDash s).map String.length = [3, 3, 4] ∨
      newIpn s = .error (.error "InvalidFormat")) ∧
    newIpn "PCA-001-0001" = .ok "PCA-001-0001" ∧
    newIpn "BAD" = .error (.error "InvalidFormat") ∧
    newIpn "pcB-001-0001" = .error (.error "InvalidFormat") ∧
    newIpn "PCA-01-0001" = .error (.error "InvalidFormat") ∧
    newIpn "PCA-0001-0001" = .error (.error "InvalidFormat") ∧
    newIpn "PCA-001-001" = .error (.error "InvalidFormat") ∧
    newIpn "PCA-001-00001" = .error (.error "InvalidFormat") ∧
    newIpn "PCA0010001" = .error (.error "InvalidFormat") ∧
    newIpn "PCA-0010001" = .error (.error "InvalidFormat") ∧
    newIpn "PCA 001 0001" = .error (.error "InvalidFormat") ∧
    newIpn "PCA-001-0001\n" = .error (.error "InvalidFormat") ∧
    newIpn " PCA-001-0001" = .error (.error "InvalidFormat") := by
  have hmatch : (∃ i, newIpn s = .ok i) ↔ matchClasses ipnPattern s.toList = true := by
    rw [newIpn_eq]
    by_cases hm : matchClasses ipnPattern s.toList = true
    · rw [if_pos hm]
      exact ⟨fun _ => hm, fun _ => ⟨s, rfl⟩⟩
    · rw [if_neg hm]
      constructor
      · rintro ⟨i, hi⟩
        cases hi
      · intro h
        exact absurd h hm
  have hcases : (IpnGrammar s ∧ newIpn s = .ok s) ∨
      newIpn s = .error (.error "InvalidFormat") := by
    rw [newIpn_eq]
    by_cases hm : matchClasses ipnPattern s.toList = true
    · rw [if_pos hm]
      exact Or.inl ⟨(matchClasses_ipnPattern s).1 hm, rfl⟩
    · rw [if_neg hm]
      exact Or.inr rfl
  refine ⟨hmatch.trans (matchClasses_ipnPattern s), hmatch, ?_, ?_, ?_, by decide, by decide,
    by decide, by decide, by decide, by decide, by decide, by decide, by decide, by decide,
    by decide, by decide⟩
  · rcases hcases with h | h
    · exact Or.inl h.2
    · exact Or.inr h
  · rcases hcases with h | h
    · exact Or.inl (IpnGrammar_shape s h.1).1
    · exact Or.inr h
  · rcases hcases with h | h
    · exact Or.inl (IpnGrammar_shape s h.1).2
    · exact Or.inr h

/-! ## Lemmas: identifiers of the grammar -/

/-- A run of decimal digits is below the power of ten of its length. -/
theorem digitsValue_lt (ds : List Char) (hall : ds.all isDecimalDigit = true) :
    digitsValue ds < 10 ^ ds.length := by
  induction ds using List.reverseRecOn with
  | nil => simp [digitsValue]
  | append_singleton pre d ih =>
    rw [List.all_append, Bool.and_eq_true] at hall
    have hpre := ih hall.1
    have hd : d.toNat - '0'.toNat ≤ 9 := by
      have h9 := hall.2
      simp only [List.all_cons, List.all_nil, Bool.and_true, isDecimalDigit,
        decide_eq_true_eq] at h9
      have h0 : '0'.toNat = 48 := rfl
      have h9' : '9'.toNat = 57 := rfl
      omega
    rw [digitsValue_append_singleton, List.length_append, List.length_singleton, pow_succ]
    omega

/-- The rendering `%0wd` of a number below `10 ^ w`: exactly `w` decimal
digits whose value is the number. -/
theorem padZeros_decimal (w m : Nat) (hw : 0 < w) (hm : m < 10 ^ w) :
    (padZeros w (Nat.repr m)).toList.all isDecimalDigit = true ∧
      digitsValue (padZeros w (Nat.repr m)).toList = m ∧
      (padZeros w (Nat.repr m)).toList.length = w := by
  obtain ⟨hall, hval, -, -⟩ := repr_decimal m
  have hlist : (padZeros w (Nat.repr m)).toList =
      List.replicate (w - (Nat.repr m).length) '0' ++ (Nat.repr m).toList := by
    simp [padZeros, String.toList]
  have hle : (Nat.repr m).toList.length ≤ w := Nat.repr_length m w hw hm
  have hlen : (Nat.repr m).length = (Nat.repr m).toList.length := rfl
  refine ⟨?_, ?_, ?_⟩
  · rw [hlist, List.all_append, Bool.and_eq_true]
    exact ⟨List.all_eq_true.2 (fun c hc => by rw [List.eq_of_mem_replicate hc]; decide), hall⟩
  · rw [hlist, digitsValue_zeros, hval]
  · rw [hlist, List.length_append, List.length_replicate, hlen]
    omega

/-- The call `strconv.Atoi` on a run of decimal digits within the range of
`int`. -/
theorem atoi_digits (ds : List Char) (hne : ds ≠ []) (hall : ds.all isDecimalDigit = true)
    (hb : (digitsValue ds : Int) ≤ (2 : Int) ^ 63 - 1) :
    atoi (String.mk ds) = some (digitsValue ds : Int) := by
  obtain ⟨d, rest, rfl⟩ := List.exists_cons_of_ne_nil hne
  have hd : isDecimalDigit d = true := by
    simp only [List.all_cons, Bool.and_eq_true] at hall
    exact hall.1
  have hminus : d ≠ '-' := by
    rintro rfl
    revert hd
    decide
  have hplus : d ≠ '+' := by
    rintro rfl
    revert hd
    decide
  have hmatch : (match (String.mk (d :: rest)).toList with
      | '-' :: rest => (true, rest)
      | '+' :: rest => (false, rest)
      | cs => (false, cs)) = (false, d :: rest) := by
    show (match d :: rest with
      | '-' :: rest => (true, rest)
      | '+' :: rest => (false, rest)
      | cs => (false, cs)) = (false, d :: rest)
    split
    · rename_i r h
      simp only [List.cons.injEq] at h
      exact absurd h.1 hminus
    · rename_i r h
      simp only [List.cons.injEq] at h
      exact absurd h.1 hplus
    · rfl
  unfold atoi
  rw [hmatch]
  simp only [List.isEmpty_cons, hall, Bool.not_true, Bool.or_self, Bool.false_eq_true, if_false]
  have h0 : (0 : Int) ≤ (digitsValue (d :: rest) : Int) := Int.natCast_nonneg _
  rw [if_neg (by norm_num at hb ⊢; omega)]

theorem splitDash_three (c1 c2 c3 n1 n2 n3 v1 v2 v3 v4 : Char)
    (h1 : c1 ≠ '-') (h2 : c2 ≠ '-') (h3 : c3 ≠ '-') (h4 : n1 ≠ '-') (h5 : n2 ≠ '-')
    (h6 : n3 ≠ '-') (h7 : v1 ≠ '-') (h8 : v2 ≠ '-') (h9 : v3 ≠ '-') (h10 : v4 ≠ '-') :
    splitDash [c1, c2, c3, '-', n1, n2, n3, '-', v1, v2, v3, v4] =
      [[c1, c2, c3], [n1, n2, n3], [v1, v2, v3, v4]] := by
  simp [splitDash, h1, h2, h3, h4, h5, h6, h7, h8, h9, h10]

/-- The pieces of an identifier of the grammar: `strings.Split` cuts it into
its three components, and `strconv.Atoi` reads the last one as the value of
its digits. -/
theorem IpnGrammar_parts (s : String) (hg : IpnGrammar s) :
    ∃ c₁ c₂ c₃ n₁ n₂ n₃ v₁ v₂ v₃ v₄ : Char,
      s.toList = [c₁, c₂, c₃, '-', n₁, n₂, n₃, '-', v₁, v₂, v₃, v₄] ∧
      isUpperAZ c₁ = true ∧ isUpperAZ c₂ = true ∧ isUpperAZ c₃ = true ∧
      isDecimalDigit n₁ = true ∧ isDecimalDigit n₂ = true ∧ isDecimalDigit n₃ = true ∧
      [v₁, v₂, v₃, v₄].all isDecimalDigit = true ∧
      stringsSplitDash s =
        [String.mk [c₁, c₂, c₃], String.mk [n₁, n₂, n₃], String.mk [v₁, v₂, v₃, v₄]] ∧
      atoi (String.mk [v₁, v₂, v₃, v₄]) = some (digitsValue [v₁, v₂, v₃, v₄] : Int) ∧
      digitsValue [v₁, v₂, v₃, v₄] < 10000 := by
  obtain ⟨c1, c2, c3, n1, n2, n3, v1, v2, v3, v4, hl, h1, h2, h3, h5, h6, h7, h9, h10, h11,
    h12⟩ := hg
  have hall : [v1, v2, v3, v4].all isDecimalDigit = true := by
    simp [h9, h10, h11, h12]
  have hlt : digitsValue [v1, v2, v3, v4] < 10000 := by
    have hpow := digitsValue_lt [v1, v2, v3, v4] hall
    simp only [List.length_cons, List.length_nil] at hpow
    norm_num at hpow
    exact hpow
  refine ⟨c1, c2, c3, n1, n2, n3, v1, v2, v3, v4, hl, h1, h2, h3, h5, h6, h7, hall, ?_, ?_, hlt⟩
  · rw [stringsSplitDash, hl, splitDash_three c1 c2 c3 n1 n2 n3 v1 v2 v3 v4
      (isUpperAZ_not_lower c1 h1).1 (isUpperAZ_not_lower c2 h2).1 (isUpperAZ_not_lower c3 h3).1
      (isDecimalDigit_not_lower n1 h5).1 (isDecimalDigit_not_lower n2 h6).1
      (isDecimalDigit_not_lower n3 h7).1 (isDecimalDigit_not_lower v1 h9).1
      (isDecimalDigit_not_lower v2 h10).1 (isDecimalDigit_not_lower v3 h11).1
      (isDecimalDigit_not_lower v4 h12).1]
    rfl
  · refine atoi_digits [v1, v2, v3, v4] (by simp) hall ?_
    norm_num
    omega

/-- A list of four decimal digits, spelled out. -/
theorem four_digits (l : List Char) (hlen : l.length = 4) (hall : l.all isDecimalDigit = true) :
    ∃ w₁ w₂ w₃ w₄ : Char, l = [w₁, w₂, w₃, w₄] ∧ isDecimalDigit w₁ = true ∧
      isDecimalDigit w₂ = true ∧ isDecimalDigit w₃ = true ∧ isDecimalDigit w₄ = true := by
  rcases l with _ | ⟨w1, _ | ⟨w2, _ | ⟨w3, _ | ⟨w4, _ | ⟨x, rest⟩⟩⟩⟩⟩ <;>
    simp only [List.length_nil, List.length_cons] at hlen <;> try omega
  simp only [List.all_cons, List.all_nil, Bool.and_true, Bool.and_eq_true] at hall
  exact ⟨w1, w2, w3, w4, rfl, hall.1, hall.2.1, hall.2.2.1, hall.2.2.2⟩

/-- A list of three decimal digits, spelled out. -/
theorem three_digits (l : List Char) (hlen : l.length = 3)
    (hall : l.all isDecimalDigit = true) :
    ∃ w₁ w₂ w₃ : Char, l = [w₁, w₂, w₃] ∧ isDecimalDigit w₁ = true ∧
      isDecimalDigit w₂ = true ∧ isDecimalDigit w₃ = true := by
  rcases l with _ | ⟨w1, _ | ⟨w2, _ | ⟨w3, _ | ⟨x, rest⟩⟩⟩⟩ <;>
    simp only [List.length_nil, List.length_cons] at hlen <;> try omega
  simp only [List.all_cons, List.all_nil, Bool.and_true, Bool.and_eq_true] at hall
  exact ⟨w1, w2, w3, rfl, hall.1, hall.2.1, hall.2.2⟩

/-- The two extractions on an identifier of the grammar. -/
theorem KiCadServer.extract_of_grammar (s : String) (hg : IpnGrammar s) :
    extractCategory s = String.mk (s.toList.take 3) ∧
      extractRevision s = String.mk (s.toList.drop 8) := by
  have hm := (matchClasses_ipnPattern s).2 hg
  exact ⟨by rw [extractCategory, if_pos hm], by rw [extractRevision, if_pos hm]⟩

/-- The accessors on an identifier of the grammar. -/
theorem ipn_accessors (i : String) (hg : IpnGrammar i) :
    newIpn i = .ok i ∧ ipn.c i = .ok (String.mk (i.toList.take 3)) ∧
      ipn.n i = .ok (digitsValue ((i.toList.drop 4).take 3) : Int) ∧
      ipn.v i = .ok (digitsValue (i.toList.drop 8) : Int) := by
  have hm : matchCounted ipnCounted i.toList = true := by
    rw [matchCounted_ipnGrammar]
    exact (matchClasses_ipnPattern i).2 hg
  exact ⟨by rw [newIpn, if_pos hm], by rw [ipn.c, if_pos hm], by rw [ipn.n, if_pos hm],
    by rw [ipn.v, if_pos hm]⟩

/-- What `newIpnParts` returns on components in range. -/
theorem newIpnParts_ok (c : String) (n v : Int)
    (hc : c.length = 3 ∧ c.toList.all isUpperAZ = true) (hn : 0 ≤ n ∧ n ≤ 999)
    (hv : 0 ≤ v ∧ v ≤ 9999) :
    newIpnParts c n v =
      .ok (c ++ "-" ++ padZeros 3 (Nat.repr n.toNat) ++ "-" ++ padZeros 4 (Nat.repr v.toNat)) := by
  rw [newIpnParts, if_neg (not_not.2 hc), if_neg (by omega), if_neg (by omega), sprintf03d,
    if_neg (by omega), sprintf04d, if_neg (by omega)]

/-! ## Lemmas: listings against each other -/

theorem KiCadServer.mem_numbered (categoryID : String) (n : Nat)
    (l : List (CSVFile × List String)) (s : KiCadPartSummary)
    (h : s ∈ numbered categoryID n l) :
    ∃ j file row, l[j]? = some (file, row) ∧ s = summaryOf categoryID (n + j) file row := by
  induction l generalizing n with
  | nil => simp [numbered] at h
  | cons fr rest ih =>
    obtain ⟨file0, row0⟩ := fr
    simp only [numbered, List.mem_cons] at h
    rcases h with h | h
    · exact ⟨0, file0, row0, by simp, h⟩
    · obtain ⟨j, file, row, hj, hs⟩ := ih (n + 1) h
      refine ⟨j + 1, file, row, by simpa using hj, ?_⟩
      rw [hs]
      congr 1
      omega

theorem KiCadServer.mem_categoryRows (toUpper : String → String) (files : List CSVFile)
    (categoryID : String) (file : CSVFile) (row : List String) :
    (file, row) ∈ categoryRows toUpper files categoryID ↔
      file ∈ files ∧ row ∈ file.Rows ∧ row ≠ [] ∧
        effectiveCategory toUpper file row = categoryID := by
  simp only [categoryRows, List.mem_flatMap, List.mem_map, List.mem_filter,
    decide_eq_true_eq, Prod.mk.injEq]
  constructor
  · rintro ⟨f, hf, r, ⟨hr, hne, hcat⟩, rfl, rfl⟩
    exact ⟨hf, hr, hne, hcat⟩
  · rintro ⟨hf, hr, hne, hcat⟩
    exact ⟨file, hf, row, ⟨hr, hne, hcat⟩, rfl, rfl⟩

/-- A placeholder id has a lowercase letter. -/
theorem placeholder_has_lower (categoryID tail : String) :
    (categoryID ++ "-unknown-" ++ tail).toList.any Char.isLower = true := by
  have hu : "-unknown-".data.any Char.isLower = true := by decide
  simp only [String.toList, String.data_append, List.any_append, hu, Bool.or_true,
    Bool.true_or]

/-! ## Claims across the operations -/

/-- C22: whatever the lengths of the rows, the in-memory steps of `updatePart`
and of `startNewRevision` never index out of range (the model returns
`Failure.panic` at every index that is out of range, and neither method ever
returns it).  In `updatePart` the located row is at least as wide as the
header row once it has been padded, every `ensureColumn` keeps it so and
returns an index below the length of the located row, and every cell write
keeps it so; in `startNewRevision` the index of the identity column is below
the length of the located row and below the length of the new row.  The
branch "IPN column missing" of `startNewRevision` is never taken. -/
theorem mutations_index_in_range (files : List CSVFile) (partID : String)
    (req : PartUpdateRequest) :
    KiCadServer.updatePart files partID req ≠ .error .panic ∧
    KiCadServer.startNewRevision files partID ≠ .error .panic ∧
    KiCadServer.startNewRevision files partID ≠ .error (.error "IPN column missing") ∧
    (∀ k rowIdx, KiCadServer.findPart files partID = some (k, rowIdx) →
      ∃ file row, files[k]? = some file ∧ file.Rows[rowIdx]? = some row ∧
        0 ≤ KiCadServer.findColumnIndex file "IPN" ∧
        KiCadServer.findColumnIndex file "IPN" < (row.length : Int) ∧
        KiCadServer.findColumnIndex file "IPN" <
          ((makeCopy file.Headers.length row).length : Int) ∧
        ∃ file1, KiCadServer.padTargetRow file rowIdx = .ok file1 ∧
          KiCadServer.TargetWide file1 rowIdx ∧
          ∃ file2, KiCadServer.updateRow file rowIdx req = .ok file2) ∧
    (∀ (file : CSVFile) (rowIdx : Nat) (name v : String), KiCadServer.TargetWide file rowIdx →
      KiCadServer.TargetWide (KiCadServer.ensureColumn file name).2 rowIdx ∧
      (∃ row, (KiCadServer.ensureColumn file name).2.Rows[rowIdx]? = some row ∧
        0 ≤ (KiCadServer.ensureColumn file name).1 ∧
        (KiCadServer.ensureColumn file name).1 < (row.length : Int)) ∧
      ∃ file1, KiCadServer.setCell (KiCadServer.ensureColumn file name).2 rowIdx
          (KiCadServer.ensureColumn file name).1 v = .ok file1 ∧
        KiCadServer.TargetWide file1 rowIdx) := by
  refine ⟨?_, KiCadServer.startNewRevision_no_panic files partID, ?_, ?_, ?_⟩
  · cases hfound : KiCadServer.findPart files partID with
    | none =>
      simp only [KiCadServer.updatePart, hfound]
      intro hcon
      cases hcon
    | some loc =>
      obtain ⟨k, rowIdx⟩ := loc
      obtain ⟨file, file1, -, -, hok, -, -⟩ :=
        KiCadServer.updatePart_ok files partID req k rowIdx hfound
      rw [hok]
      intro hcon
      cases hcon
  · cases hfound : KiCadServer.findPart files partID with
    | none =>
      simp only [KiCadServer.startNewRevision, hfound]
      simp
    | some loc =>
      obtain ⟨k, rowIdx⟩ := loc
      obtain ⟨file, row, c, -, -, -, -, -, -, hrun⟩ :=
        KiCadServer.startNewRevision_located files partID k rowIdx hfound
      rw [hrun]
      split
      · rename_i p0 p1 p2 hsplit
        cases atoi p2 with
        | none => simp
        | some rev =>
          intro hcon
          cases hcon
      · simp
  · intro k rowIdx hfound
    obtain ⟨file, row, hfile, hrow, h0, h1, -⟩ :=
      KiCadServer.findPart_some files partID k rowIdx hfound
    have hlt : rowIdx < file.Rows.length := by
      by_contra hge
      rw [List.getElem?_eq_none (by omega)] at hrow
      cases hrow
    have hmem : "IPN" ∈ file.Headers := by
      by_contra hnot
      have := (KiCadServer.findColumnIndex_eq_neg_one file "IPN").2 hnot
      omega
    obtain ⟨c, hc, hget, -⟩ := KiCadServer.findColumnIndex_found file "IPN" hmem
    have hclt : c < file.Headers.length := by
      by_contra hge
      rw [List.getElem?_eq_none (by omega)] at hget
      cases hget
    obtain ⟨file1, hpad, hwide, -, -⟩ := KiCadServer.padTargetRow_ok file rowIdx hlt
    obtain ⟨file2, hupd, -, -⟩ := KiCadServer.updateRow_ok file rowIdx req hlt
    refine ⟨file, row, hfile, hrow, h0, h1, ?_, file1, hpad, hwide, file2, hupd⟩
    rw [KiCadServer.length_makeCopy, hc]
    exact_mod_cast hclt
  · intro file rowIdx name v hw
    have hw1 := KiCadServer.ensureColumn_targetWide file name rowIdx hw
    obtain ⟨h0, h1⟩ := KiCadServer.ensureColumn_index_bounds file name
    obtain ⟨file1, hok, hwide, -, -⟩ := KiCadServer.ensure_then_set file name v rowIdx hw
    refine ⟨hw1, ?_, file1, hok, hwide⟩
    obtain ⟨row, hrow, hlen⟩ := hw1
    exact ⟨row, hrow, h0, by omega⟩

/-- C23: for a located part whose identity value matches the grammar
`CCC-NNN-VVVV` with a revision `v < 9999`, `startNewRevision` succeeds and the
identity value it writes into the appended row matches the grammar too, has
the same category and the same sequence digits (the first eight characters
are kept), and its revision, as `extractRevision` gives it, is `v + 1` padded
with zeros to four digits; `extractCategory` and `extractRevision` of the new
identifier are both non-empty. -/
theorem startNewRevision_keeps_grammar (files : List CSVFile) (partID : String)
    (k rowIdx v : Nat) (hloc : KiCadServer.findPart files partID = some (k, rowIdx))
    (hg : IpnGrammar partID)
    (hrev : digitsValue (KiCadServer.extractRevision partID).toList = v) (hv : v < 9999) :
    ∃ files' newIPN file' newRow,
      KiCadServer.startNewRevision files partID = .ok (files', newIPN) ∧
      files'[k]? = some file' ∧ file'.Rows.getLast? = some newRow ∧
      KiCadServer.ipnCell file' newRow = some newIPN ∧
      IpnGrammar newIPN ∧
      KiCadServer.extractCategory newIPN = KiCadServer.extractCategory partID ∧
      newIPN.toList.take 8 = partID.toList.take 8 ∧
      KiCadServer.extractRevision newIPN = padZeros 4 (Nat.repr (v + 1)) ∧
      (KiCadServer.extractRevision newIPN).toList.length = 4 ∧
      (KiCadServer.extractRevision newIPN).toList.all isDecimalDigit = true ∧
      digitsValue (KiCadServer.extractRevision newIPN).toList = v + 1 ∧
      KiCadServer.extractCategory newIPN ≠ "" ∧ KiCadServer.extractRevision newIPN ≠ "" := by
  obtain ⟨c1, c2, c3, n1, n2, n3, v1, v2, v3, v4, hl, h1, h2, h3, h5, h6, h7, hall, hsplit,
    hatoi, hlt⟩ := IpnGrammar_parts partID hg
  obtain ⟨hcat, hrevOld⟩ := KiCadServer.extract_of_grammar partID hg
  have hval : digitsValue [v1, v2, v3, v4] = v := by
    rw [hrevOld, hl] at hrev
    exact hrev
  rw [hval] at hatoi
  have hincr : incrInt (v : Int) = (v : Int) + 1 :=
    incrInt_eq (v : Int) (by norm_num; omega) (by norm_num; omega)
  have hnat : ((v : Int) + 1).toNat = v + 1 := by omega
  have hfmt : sprintf04d (incrInt (v : Int)) = padZeros 4 (Nat.repr (v + 1)) := by
    rw [hincr, sprintf04d, if_neg (by omega), hnat]
  obtain ⟨file, row, col, hfile, hrow, hcol, hclt, hcrow, hcell, hrun⟩ :=
    KiCadServer.startNewRevision_located files partID k rowIdx hloc
  rw [hsplit] at hrun
  simp only [hatoi, hfmt, stringsJoinDash_three] at hrun
  obtain ⟨hdig, hnew, hlen⟩ := padZeros_decimal 4 (v + 1) (by decide) (by norm_num; omega)
  obtain ⟨w1, w2, w3, w4, hw, g1, g2, g3, g4⟩ :=
    four_digits (padZeros 4 (Nat.repr (v + 1))).toList hlen hdig
  have hlist : (String.mk [c1, c2, c3] ++ "-" ++ String.mk [n1, n2, n3] ++ "-" ++
      padZeros 4 (Nat.repr (v + 1))).toList =
      [c1, c2, c3, '-', n1, n2, n3, '-', w1, w2, w3, w4] := by
    have hdata : (padZeros 4 (Nat.repr (v + 1))).data = [w1, w2, w3, w4] := hw
    simp only [String.toList, String.data_append, hdata]
    rfl
  have hgnew : IpnGrammar (String.mk [c1, c2, c3] ++ "-" ++ String.mk [n1, n2, n3] ++ "-" ++
      padZeros 4 (Nat.repr (v + 1))) :=
    ⟨c1, c2, c3, n1, n2, n3, w1, w2, w3, w4, hlist, h1, h2, h3, h5, h6, h7, g1, g2, g3, g4⟩
  obtain ⟨hcatNew, hrevNew⟩ := KiCadServer.extract_of_grammar _ hgnew
  have hrevEq : KiCadServer.extractRevision (String.mk [c1, c2, c3] ++ "-" ++
      String.mk [n1, n2, n3] ++ "-" ++ padZeros 4 (Nat.repr (v + 1))) =
      padZeros 4 (Nat.repr (v + 1)) := by
    rw [hrevNew, hlist]
    show String.mk [w1, w2, w3, w4] = _
    rw [← hw]
    rfl
  have hk : k < files.length := by
    by_contra hge
    rw [List.getElem?_eq_none (by omega)] at hfile
    cases hfile
  refine ⟨_, _, { file with Rows := file.Rows ++ [(makeCopy file.Headers.length row).set col
      (String.mk [c1, c2, c3] ++ "-" ++ String.mk [n1, n2, n3] ++ "-" ++
        padZeros 4 (Nat.repr (v + 1)))] },
    (makeCopy file.Headers.length row).set col
      (String.mk [c1, c2, c3] ++ "-" ++ String.mk [n1, n2, n3] ++ "-" ++
        padZeros 4 (Nat.repr (v + 1))),
    hrun, by simp [List.getElem?_set, hk], by simp, ?_, hgnew, ?_, ?_, hrevEq, ?_, ?_, ?_, ?_,
    ?_⟩
  · have hlt2 : col < ((makeCopy file.Headers.length row).set col
        (String.mk [c1, c2, c3] ++ "-" ++ String.mk [n1, n2, n3] ++ "-" ++
          padZeros 4 (Nat.repr (v + 1)))).length := by
      rw [List.length_set, KiCadServer.length_makeCopy]; exact hclt
    have hidx : KiCadServer.findColumnIndex
        { file with Rows := file.Rows ++ [(makeCopy file.Headers.length row).set col
          (String.mk [c1, c2, c3] ++ "-" ++ String.mk [n1, n2, n3] ++ "-" ++
            padZeros 4 (Nat.repr (v + 1)))] } "IPN" = (col : Int) :=
      hcol
    rw [KiCadServer.ipnCell, hidx, if_pos ⟨by omega, by omega⟩, Int.toNat_ofNat,
      List.getD_eq_getElem _ _ hlt2]
    simp
  · rw [hcatNew, hcat, hlist, hl]
    rfl
  · rw [hlist, hl]
    rfl
  · rw [hrevEq]; exact hlen
  · rw [hrevEq]; exact hdig
  · rw [hrevEq]; exact hnew
  · rw [hcatNew, hlist]
    intro hcon
    have := congrArg String.length hcon
    simp [String.length] at this
  · rw [hrevEq]
    intro hcon
    rw [hcon] at hlen
    simp at hlen

/-- Witness of C23: `CAP-001-0004` in `capFile`, revision 4. -/
theorem startNewRevision_keeps_grammar_witness :
    ∃ files' newIPN file' newRow,
      KiCadServer.startNewRevision [capFile] "CAP-001-0004" = .ok (files', newIPN) ∧
      files'[0]? = some file' ∧ file'.Rows.getLast? = some newRow ∧
      KiCadServer.ipnCell file' newRow = some newIPN ∧
      IpnGrammar newIPN ∧
      KiCadServer.extractCategory newIPN = KiCadServer.extractCategory "CAP-001-0004" ∧
      newIPN.toList.take 8 = "CAP-001-0004".toList.take 8 ∧
      KiCadServer.extractRevision newIPN = padZeros 4 (Nat.repr (4 + 1)) ∧
      (KiCadServer.extractRevision newIPN).toList.length = 4 ∧
      (KiCadServer.extractRevision newIPN).toList.all isDecimalDigit = true ∧
      digitsValue (KiCadServer.extractRevision newIPN).toList = 4 + 1 ∧
      KiCadServer.extractCategory newIPN ≠ "" ∧ KiCadServer.extractRevision newIPN ≠ "" :=
  startNewRevision_keeps_grammar [capFile] "CAP-001-0004" 0 0 4 (by decide)
    ⟨'C', 'A', 'P', '0', '0', '1', '0', '0', '0', '4', by decide, by decide, by decide,
      by decide, by decide, by decide, by decide, by decide, by decide, by decide, by decide⟩
    (by decide) (by decide)

/-! ## Claims on the construction of identifiers -/

/-- C21: `newIpnParts c n v` succeeds exactly when `c` is three uppercase
letters, `0 ≤ n ≤ 999` and `0 ≤ v ≤ 9999`, and fails with `InvalidFormat`
otherwise.  When it succeeds it returns `c`, a dash, `n` as three decimal
digits, a dash and `v` as four decimal digits; that value matches the grammar,
`newIpn` accepts it, and its accessors `c`, `n` and `v` return `c`, `n` and
`v`.  On the inputs of `TestNewIpnParts` and `TestIpnMethods`: `PCB, 1, 1`
gives `PCB-001-0001`; `PC`, `pcB`, the sequences `-1` and `1000` and the
revisions `-1` and `10000` fail; `ASY-123-0004` has the components `ASY`,
`123` and `4`. -/
theorem newIpnParts_spec (c : String) (n v : Int) :
    ((∃ i, newIpnParts c n v = .ok i) ↔
      ((c.length = 3 ∧ c.toList.all isUpperAZ = true) ∧ (0 ≤ n ∧ n ≤ 999) ∧
        (0 ≤ v ∧ v ≤ 9999))) ∧
    ((∃ i, newIpnParts c n v = .ok i) ∨
      newIpnParts c n v = .error (.error "InvalidFormat")) ∧
    (∀ i, newIpnParts c n v = .ok i →
      i = c ++ "-" ++ padZeros 3 (Nat.repr n.toNat) ++ "-" ++ padZeros 4 (Nat.repr v.toNat) ∧
      (padZeros 3 (Nat.repr n.toNat)).toList.length = 3 ∧
      (padZeros 3 (Nat.repr n.toNat)).toList.all isDecimalDigit = true ∧
      (digitsValue (padZeros 3 (Nat.repr n.toNat)).toList : Int) = n ∧
      (padZeros 4 (Nat.repr v.toNat)).toList.length = 4 ∧
      (padZeros 4 (Nat.repr v.toNat)).toList.all isDecimalDigit = true ∧
      (digitsValue (padZeros 4 (Nat.repr v.toNat)).toList : Int) = v ∧
      IpnGrammar i ∧ newIpn i = .ok i ∧
      ipn.c i = .ok c ∧ ipn.n i = .ok n ∧ ipn.v i = .ok v) ∧
    newIpnParts "PCB" 1 1 = .ok "PCB-001-0001" ∧
    newIpnParts "PC" 1 1 = .error (.error "InvalidFormat") ∧
    newIpnParts "PCB" (-1) 1 = .error (.error "InvalidFormat") ∧
    newIpnParts "PCB" 1000 1 = .error (.error "InvalidFormat") ∧
    newIpnParts "PCB" 1 (-1) = .error (.error "InvalidFormat") ∧
    newIpnParts "PCB" 1 10000 = .error (.error "InvalidFormat") ∧
    newIpnParts "pcB" 1 1 = .error (.error "InvalidFormat") ∧
    newIpnParts "ASY" 123 4 = .ok "ASY-123-0004" ∧
    ipn.c "ASY-123-0004" = .ok "ASY" ∧ ipn.n "ASY-123-0004" = .ok 123 ∧
    ipn.v "ASY-123-0004" = .ok 4 := by
  have hiff : (∃ i, newIpnParts c n v = .ok i) ↔
      ((c.length = 3 ∧ c.toList.all isUpperAZ = true) ∧ (0 ≤ n ∧ n ≤ 999) ∧
        (0 ≤ v ∧ v ≤ 9999)) := by
    constructor
    · rintro ⟨i, hi⟩
      unfold newIpnParts at hi
      by_cases hc : c.length = 3 ∧ c.toList.all isUpperAZ = true
      · rw [if_neg (not_not.2 hc)] at hi
        by_cases hn : n < 0 ∨ 999 < n
        · rw [if_pos hn] at hi
          cases hi
        · rw [if_neg hn] at hi
          by_cases hv : v < 0 ∨ 9999 < v
          · rw [if_pos hv] at hi
            cases hi
          · exact ⟨hc, by omega, by omega⟩
      · rw [if_pos hc] at hi
        cases hi
    · rintro ⟨hc, hn, hv⟩
      exact ⟨_, newIpnParts_ok c n v hc hn hv⟩
  have hfail : (∃ i, newIpnParts c n v = .ok i) ∨
      newIpnParts c n v = .error (.error "InvalidFormat") := by
    unfold newIpnParts
    by_cases hc : c.length = 3 ∧ c.toList.all isUpperAZ = true
    · rw [if_neg (not_not.2 hc)]
      by_cases hn : n < 0 ∨ 999 < n
      · rw [if_pos hn]
        exact Or.inr rfl
      · rw [if_neg hn]
        by_cases hv : v < 0 ∨ 9999 < v
        · rw [if_pos hv]
          exact Or.inr rfl
        · rw [if_neg hv]
          exact Or.inl ⟨_, rfl⟩
    · rw [if_pos hc]
      exact Or.inr rfl
  refine ⟨hiff, hfail, ?_, by decide, by decide, by decide, by decide, by decide, by decide,
    by decide, by decide, by decide, by decide, by decide⟩
  intro i hi
  obtain ⟨hc, hn, hv⟩ := hiff.1 ⟨i, hi⟩
  rw [newIpnParts_ok c n v hc hn hv] at hi
  simp only [Except.ok.injEq] at hi
  obtain ⟨hdn, hvaln, hlenn⟩ := padZeros_decimal 3 n.toNat (by decide) (by norm_num; omega)
  obtain ⟨hdv, hvalv, hlenv⟩ := padZeros_decimal 4 v.toNat (by decide) (by norm_num; omega)
  obtain ⟨m1, m2, m3, hm, e1, e2, e3⟩ :=
    three_digits (padZeros 3 (Nat.repr n.toNat)).toList hlenn hdn
  obtain ⟨w1, w2, w3, w4, hw, g1, g2, g3, g4⟩ :=
    four_digits (padZeros 4 (Nat.repr v.toNat)).toList hlenv hdv
  have hclist : ∃ c1 c2 c3 : Char, c.toList = [c1, c2, c3] ∧ isUpperAZ c1 = true ∧
      isUpperAZ c2 = true ∧ isUpperAZ c3 = true := by
    obtain ⟨hlen, hup⟩ := hc
    have hlen' : c.toList.length = 3 := hlen
    rcases hcl : c.toList with _ | ⟨c1, _ | ⟨c2, _ | ⟨c3, _ | ⟨x, rest⟩⟩⟩⟩ <;>
      rw [hcl] at hlen' hup <;>
      simp only [List.length_nil, List.length_cons] at hlen' <;> try omega
    simp only [List.all_cons, List.all_nil, Bool.and_true, Bool.and_eq_true] at hup
    exact ⟨c1, c2, c3, rfl, hup.1, hup.2.1, hup.2.2⟩
  obtain ⟨c1, c2, c3, hcl, u1, u2, u3⟩ := hclist
  have hlist : i.toList = [c1, c2, c3, '-', m1, m2, m3, '-', w1, w2, w3, w4] := by
    have hcd : c.data = [c1, c2, c3] := hcl
    have hmd : (padZeros 3 (Nat.repr n.toNat)).data = [m1, m2, m3] := hm
    have hwd : (padZeros 4 (Nat.repr v.toNat)).data = [w1, w2, w3, w4] := hw
    rw [← hi]
    simp only [String.toList, String.data_append, hcd, hmd, hwd]
    rfl
  have hg : IpnGrammar i :=
    ⟨c1, c2, c3, m1, m2, m3, w1, w2, w3, w4, hlist, u1, u2, u3, e1, e2, e3, g1, g2, g3, g4⟩
  obtain ⟨hacc, hcacc, hnacc, hvacc⟩ := ipn_accessors i hg
  have hnn : ((n.toNat : Nat) : Int) = n := Int.toNat_of_nonneg hn.1
  have hvv : ((v.toNat : Nat) : Int) = v := Int.toNat_of_nonneg hv.1
  refine ⟨hi.symm, hlenn, hdn, by rw [hvaln, hnn], hlenv, hdv, by rw [hvalv, hvv], hg, hacc,
    ?_, ?_, ?_⟩
  · rw [hcacc, hlist]
    show Except.ok (String.mk [c1, c2, c3]) = Except.ok c
    rw [← hcl]
    rfl
  · rw [hnacc, hlist]
    show Except.ok ((digitsValue [m1, m2, m3] : Nat) : Int) = Except.ok n
    rw [← hm, hvaln, hnn]
  · rw [hvacc, hlist]
    show Except.ok ((digitsValue [w1, w2, w3, w4] : Nat) : Int) = Except.ok v
    rw [← hw, hvalv, hvv]

/-! ## Claims on the listings against each other -/

/-- C24: for a row of a store of the collection whose identity-column value
`v` matches the grammar `CCC-NNN-VVVV` (such a row has at least one cell), the
category `CCC` of `v` is among the ids `getCategories` returns; the row is
listed by `getPartsByCategory` for that category, with a summary whose id is
`v`; and no summary of `getPartsByCategory c` has the id `v` for any other
`c`. -/
theorem listings_consistent (toUpper : String → String) (files : List CSVFile)
    (file : CSVFile) (row : List String) (v : String) (hfile : file ∈ files)
    (hrow : row ∈ file.Rows) (hcell : KiCadServer.ipnCell file row = some v)
    (hg : IpnGrammar v) :
    row ≠ [] ∧
    KiCadServer.extractCategory v = String.mk (v.toList.take 3) ∧
    KiCadServer.extractCategory v ∈
      (KiCadServer.getCategories toUpper files).map (fun c => c.ID) ∧
    (∃ (n : Nat) (s : KiCadPartSummary),
      (KiCadServer.categoryRows toUpper files (KiCadServer.extractCategory v))[n]? =
        some (file, row) ∧
      (KiCadServer.getPartsByCategory toUpper files (KiCadServer.extractCategory v))[n]? =
        some s ∧ s.ID = v) ∧
    (∃ s ∈ KiCadServer.getPartsByCategory toUpper files (KiCadServer.extractCategory v),
      s.ID = v) ∧
    (∀ c, (∃ s ∈ KiCadServer.getPartsByCategory toUpper files c, s.ID = v) →
      c = KiCadServer.extractCategory v) := by
  have hparts : ∀ c, KiCadServer.getPartsByCategory toUpper files c =
      KiCadServer.numbered c 0 (KiCadServer.categoryRows toUpper files c) := by
    intro c
    rw [KiCadServer.getPartsByCategory, KiCadServer.partsInFiles_eq]
    simp
  have hcat := (KiCadServer.extract_of_grammar v hg).1
  have hne : v ≠ "" := by
    obtain ⟨c1, c2, c3, n1, n2, n3, v1, v2, v3, v4, hl, -⟩ := hg
    intro hcon
    rw [hcon] at hl
    cases hl
  have hrowne : row ≠ [] := by
    intro hcon
    rw [KiCadServer.ipnCell, hcon] at hcell
    split_ifs at hcell with hc
    simp only [List.length_nil] at hc
    omega
  have heff : KiCadServer.effectiveCategory toUpper file row = KiCadServer.extractCategory v := by
    simp [KiCadServer.effectiveCategory, hcell, hne]
  have hmemRows : (file, row) ∈
      KiCadServer.categoryRows toUpper files (KiCadServer.extractCategory v) :=
    (KiCadServer.mem_categoryRows toUpper files _ file row).2 ⟨hfile, hrow, hrowne, heff⟩
  obtain ⟨n, hn⟩ := List.mem_iff_getElem?.1 hmemRows
  have hsum : (KiCadServer.getPartsByCategory toUpper files (KiCadServer.extractCategory v))[n]? =
      some (KiCadServer.summaryOf (KiCadServer.extractCategory v) n file row) := by
    rw [hparts, KiCadServer.numbered_getElem? _ 0 n _ file row hn, Nat.zero_add]
  have hid : (KiCadServer.summaryOf (KiCadServer.extractCategory v) n file row).ID = v := by
    simp [KiCadServer.summaryOf, hcell, hne]
  refine ⟨hrowne, hcat, ?_, ⟨n, _, hn, hsum, hid⟩, ⟨_, List.getElem?_mem hsum, hid⟩, ?_⟩
  · have hids : (KiCadServer.getCategories toUpper files).map (fun c => c.ID) =
        sortedKeys (files.flatMap (KiCadServer.fileCategoryKeys toUpper)) := by
      simp [KiCadServer.getCategories, List.map_map, Function.comp_def]
    rw [hids, (sortedKeys_spec _).2, List.mem_flatMap]
    exact ⟨file, hfile, (KiCadServer.mem_fileCategoryKeys toUpper file _).2
      (Or.inr ⟨row, hrow, v, hcell, hne, hg, hcat⟩)⟩
  · rintro c ⟨s, hs, hsid⟩
    rw [hparts] at hs
    obtain ⟨j, file1, row1, hj, hseq⟩ := KiCadServer.mem_numbered c 0 _ s hs
    obtain ⟨-, -, -, heff1⟩ :=
      (KiCadServer.mem_categoryRows toUpper files c file1 row1).1 (List.getElem?_mem hj)
    have hlow : v.toList.any Char.isLower = false := (IpnGrammar_shape v hg).1
    rw [hseq] at hsid
    cases hc1 : KiCadServer.ipnCell file1 row1 with
    | none =>
      simp only [KiCadServer.summaryOf, hc1] at hsid
      rw [← hsid, placeholder_has_lower] at hlow
      cases hlow
    | some v1 =>
      by_cases hv1 : v1 ≠ ""
      · simp only [KiCadServer.summaryOf, hc1, if_pos hv1] at hsid
        subst hsid
        rw [← heff1]
        simp [KiCadServer.effectiveCategory, hc1, hv1]
      · simp only [KiCadServer.summaryOf, hc1, if_neg hv1] at hsid
        rw [← hsid, placeholder_has_lower] at hlow
        cases hlow

/-- Witness of C24: the part `CAP-001-0004` of `capFile`, next to `mixedFile`. -/
theorem listings_consistent_witness :
    ["CAP-001-0004", "ceramic cap", "10n"] ≠ [] ∧
    KiCadServer.extractCategory "CAP-001-0004" = String.mk ("CAP-001-0004".toList.take 3) ∧
    KiCadServer.extractCategory "CAP-001-0004" ∈
      (KiCadServer.getCategories asciiUpper [mixedFile, capFile]).map (fun c => c.ID) ∧
    (∃ (n : Nat) (s : KiCadPartSummary), (KiCadServer.categoryRows asciiUpper [mixedFile, capFile]
        (KiCadServer.extractCategory "CAP-001-0004"))[n]? =
        some (capFile, ["CAP-001-0004", "ceramic cap", "10n"]) ∧
      (KiCadServer.getPartsByCategory asciiUpper [mixedFile, capFile]
        (KiCadServer.extractCategory "CAP-001-0004"))[n]? = some s ∧ s.ID = "CAP-001-0004") ∧
    (∃ s ∈ KiCadServer.getPartsByCategory asciiUpper [mixedFile, capFile]
        (KiCadServer.extractCategory "CAP-001-0004"), s.ID = "CAP-001-0004") ∧
    (∀ c, (∃ s ∈ KiCadServer.getPartsByCategory asciiUpper [mixedFile, capFile] c,
        s.ID = "CAP-001-0004") → c = KiCadServer.extractCategory "CAP-001-0004") :=
  listings_consistent asciiUpper [mixedFile, capFile] capFile
    ["CAP-001-0004", "ceramic cap", "10n"] "CAP-001-0004" (by decide) (by decide) (by decide)
    ⟨'C', 'A', 'P', '0', '0', '1', '0', '0', '0', '4', by decide, by decide, by decide,
      by decide, by decide, by decide, by decide, by decide, by decide, by decide, by decide⟩

end GitPLM
